import Mathlib

/-!
# TL;DR gaze reader: signal conditioning, dwell detection, calibration, placement

A shallow embedding of `src/content/gaze-utils.js`, of `placePopup` in
`src/content/overlay-utils.js`, and of the gaze pipeline and the pinned popup
of `src/content/content.js` (`onGaze`, `triggerSummaryForParagraph`,
`applySavedPin`).

Modelling conventions

* JavaScript numbers are exact rationals (`ℚ`); rounding error of IEEE doubles
  is outside the model. `NaN` and the infinities appear only in the calibration
  part (`XNum`), whose claims speak of them.
* Mutable objects become explicit state that every function returns.
* Each call of `performance.now()` is an explicit clock reading handed to the
  function that makes the call.
* The browser window (`window.innerWidth`, ...) is a record passed in.
* JavaScript strings whose length matters are lists of UTF-16 code units.
* The asynchronous calibration sequence is a state machine stepped by the
  events that drive it (timers, sampling ticks, the user's click).
-/

namespace TLDR

/-! ## JavaScript values -/

/-- A JavaScript value as far as the gaze pipeline inspects one: the
primitives, and an object seen through its `x` and `y` properties (a missing
property reads as `undefined`). -/
inductive JSVal where
  | undefined : JSVal
  | null : JSVal
  | bool (b : Bool) : JSVal
  | num (q : ℚ) : JSVal
  | str (s : String) : JSVal
  | obj (x y : JSVal) : JSVal
  deriving DecidableEq

namespace JSVal

/-- JavaScript `!v`: the falsy values are `undefined`, `null`, `false`, `0`
and the empty string. -/
def falsy : JSVal → Bool
  | undefined => true
  | null => true
  | bool b => !b
  | num q => decide (q = 0)
  | str s => decide (s = "")
  | obj _ _ => false

/-- Property read `v.x` on a truthy value: objects give their property, truthy
primitives have no such property. -/
def getX : JSVal → JSVal
  | obj x _ => x
  | _ => undefined

/-- Property read `v.y` on a truthy value. -/
def getY : JSVal → JSVal
  | obj _ y => y
  | _ => undefined

/-- The number held by a value when `typeof v === 'number'`, else `none`. -/
def asNumber : JSVal → Option ℚ
  | num q => some q
  | _ => none

end JSVal

/-- A number-or-null slot (`null` until first written). -/
abbrev Slot := Option ℚ

/-- JavaScript `ToNumber` on a number-or-null slot: `null` converts to `0`. -/
def toNum : Slot → ℚ
  | none => 0
  | some q => q

/-- JavaScript `a || b` where `a` is a number-or-null slot and `b` a number:
`a` is falsy when it is `null` or `0`. -/
def orElse (a : Slot) (b : ℚ) : ℚ :=
  match a with
  | none => b
  | some q => if q = 0 then b else q

/-- JavaScript `Math.round`: the nearest integer, ties going up. -/
def mathRound (q : ℚ) : ℚ := (⌊q + 1 / 2⌋ : ℤ)

/-! ## Double-precision numbers

A JavaScript number is an IEEE 754 double. Where a claim turns on overflow or
on the rounding of a result (the calibration offset, the speed test of
`checkVelocity`), numbers are values of `XNum`. -/

/-- A JavaScript number: a finite value, `NaN`, or `Infinity` / `-Infinity`.
The sign of zero is not modelled. -/
inductive XNum where
  | fin (q : ℚ) : XNum
  | nan : XNum
  | inf (positive : Bool) : XNum
  deriving DecidableEq

/-- The magnitude from which a result rounds to `Infinity`: half a unit in the
last place above the largest double, `2^1024 - 2^970`. -/
def overflowBound : ℚ := 2 ^ 1024 - 2 ^ 970

/-- Rounding to the nearest integer, a tie going to the even one. -/
def roundHalfEven (q : ℚ) : ℤ :=
  if q - ⌊q⌋ < 1 / 2 then ⌊q⌋
  else if 1 / 2 < q - ⌊q⌋ then ⌊q⌋ + 1
  else if ⌊q⌋ % 2 = 0 then ⌊q⌋ else ⌊q⌋ + 1

/-- The exponent of the unit in the last place of the doubles at the magnitude
of `q`: 52 below the binary exponent of `q`, and `-1074` for the subnormal
range. -/
def ulpExponent (q : ℚ) : ℤ := max (Int.log 2 |q|) (-1022) - 52

/-- The double nearest to `q`, a tie going to the even significand, as if the
exponent had no upper limit. -/
def roundDouble (q : ℚ) : ℚ := roundHalfEven (q / 2 ^ ulpExponent q) * 2 ^ ulpExponent q

/-- The double nearest to the square root of `q ≥ 0`. The root of `q / 4^k` is
located between two consecutive integers of more than 60 bits, where its
rounding cannot change any more. -/
def sqrtDouble (q : ℚ) : ℚ :=
  if q ≤ 0 then 0
  else
    let k : ℤ := Int.log 2 q / 2 - 60
    let s : ℕ := Nat.sqrt ⌊q / 4 ^ k⌋₊
    roundDouble ((if (s : ℚ) * s = q / 4 ^ k then (s : ℚ) else s + 1 / 2) * 2 ^ k)

namespace XNum

/-- The value of an operation whose exact result is `q`, rounding left aside:
`q` itself, or an infinity when `q` is out of the range of the doubles. -/
def ofExact (q : ℚ) : XNum :=
  if overflowBound ≤ q then inf true else if q ≤ -overflowBound then inf false else fin q

/-- The value of an operation whose exact result is `q`: the nearest double,
or an infinity when that lies beyond the largest double. -/
def rounded (q : ℚ) : XNum :=
  if 2 ^ 1024 ≤ roundDouble q then inf true
  else if roundDouble q ≤ -2 ^ 1024 then inf false
  else fin (roundDouble q)

/-- JavaScript `a + b`, with overflow; the rounding of a sum in range is left
aside. -/
def add : XNum → XNum → XNum
  | fin a, fin b => ofExact (a + b)
  | nan, _ => nan
  | _, nan => nan
  | inf s, fin _ => inf s
  | fin _, inf s => inf s
  | inf s, inf t => if s = t then inf s else nan

/-- JavaScript unary minus. -/
def neg : XNum → XNum
  | fin a => fin (-a)
  | nan => nan
  | inf s => inf (!s)

/-- JavaScript `a - b`, with overflow; the rounding of a difference in range is
left aside. -/
def sub (a b : XNum) : XNum := a.add b.neg

/-- JavaScript `a / d` for a finite divisor `d`, with overflow; the rounding of
a quotient in range is left aside. -/
def divBy : XNum → ℚ → XNum
  | fin a, d => if d = 0 then (if a = 0 then nan else inf (decide (0 < a))) else ofExact (a / d)
  | nan, _ => nan
  | inf s, d => if 0 ≤ d then inf s else inf (!s)

/-- JavaScript `Math.round`. -/
def round : XNum → XNum
  | fin a => fin (mathRound a)
  | nan => nan
  | inf s => inf s

/-- JavaScript `a > b` for a finite `b`. -/
def gt : XNum → ℚ → Bool
  | fin a, b => decide (b < a)
  | nan, _ => false
  | inf s, _ => s

/-- JavaScript truthiness of a number: `0` and `NaN` are falsy. -/
def truthy : XNum → Bool
  | fin a => decide (a ≠ 0)
  | nan => false
  | inf _ => true

/-- `Number.isFinite`. -/
def isFinite : XNum → Bool
  | fin _ => true
  | _ => false

/-- JavaScript `a + b` in double arithmetic. -/
def fadd : XNum → XNum → XNum
  | fin a, fin b => rounded (a + b)
  | nan, _ => nan
  | _, nan => nan
  | inf s, fin _ => inf s
  | fin _, inf s => inf s
  | inf s, inf t => if s = t then inf s else nan

/-- JavaScript `a - b` in double arithmetic. -/
def fsub (a b : XNum) : XNum := a.fadd b.neg

/-- JavaScript `a * b` in double arithmetic. -/
def fmul : XNum → XNum → XNum
  | fin a, fin b => rounded (a * b)
  | nan, _ => nan
  | _, nan => nan
  | inf s, fin b => if b = 0 then nan else inf (if 0 < b then s else !s)
  | fin a, inf s => if a = 0 then nan else inf (if 0 < a then s else !s)
  | inf s, inf t => inf (s == t)

/-- JavaScript `a / b` in double arithmetic; a zero divisor counts as `+0`. -/
def fdiv : XNum → XNum → XNum
  | fin a, fin b =>
    if b = 0 then (if a = 0 then nan else inf (decide (0 < a))) else rounded (a / b)
  | nan, _ => nan
  | _, nan => nan
  | fin _, inf _ => fin 0
  | inf s, fin b => inf (if 0 ≤ b then s else !s)
  | inf _, inf _ => nan

/-- JavaScript `Math.sqrt`. -/
def fsqrt : XNum → XNum
  | fin a => if a < 0 then nan else fin (sqrtDouble a)
  | nan => nan
  | inf s => if s then inf true else nan

/-- JavaScript `Math.max(1, a)`. -/
def max1 : XNum → XNum
  | fin a => fin (max 1 a)
  | nan => nan
  | inf s => if s then inf true else fin 1

end XNum

/-! ## Browser window -/

/-- The window properties read by the gaze pipeline. -/
structure Window where
  innerWidth : ℚ
  innerHeight : ℚ
  scrollX : ℚ
  scrollY : ℚ
  devicePixelRatio : ℚ
  deriving DecidableEq

/-- A point `{ x, y }`. -/
structure Point where
  x : ℚ
  y : ℚ
  deriving DecidableEq

/-! ## gaze-utils.js -/

/-- The `last` reference `{ x, y, t }` of the gaze state. -/
structure LastRef where
  x : Slot
  y : Slot
  t : Slot
  deriving DecidableEq

/-- The EMA accumulator `{ x, y }` of the gaze state. -/
structure Ema where
  x : Slot
  y : Slot
  deriving DecidableEq

/-- A calibration offset `{ dx, dy }`. -/
structure Calibration where
  dx : ℚ
  dy : ℚ
  deriving DecidableEq

/-- The object built by `createGazeState`. -/
structure GazeState where
  smoothingAlpha : ℚ
  dropoutFrames : ℚ
  velocityThreshold : ℚ
  last : LastRef
  ema : Ema
  calibration : Calibration
  deriving DecidableEq

/-- `createGazeState(opts)` with numeric options, before the stored
calibration has been loaded. -/
def createGazeState (smoothingAlpha dropoutFrames velocityThreshold : ℚ) : GazeState :=
  { smoothingAlpha := smoothingAlpha
    dropoutFrames := dropoutFrames
    velocityThreshold := velocityThreshold
    last := { x := none, y := none, t := none }
    ema := { x := none, y := none }
    calibration := { dx := 0, dy := 0 } }

/-- `normalizeRawToClient(raw)`: `none` is the JavaScript `null` result. -/
def normalizeRawToClient (w : Window) (raw : JSVal) : Option Point :=
  if raw.falsy then none
  else
    match raw.getX.asNumber, raw.getY.asNumber with
    | some x0, some y0 =>
      let pageLike : Bool := decide (x0 > w.innerWidth + 100) || decide (y0 > w.innerHeight + 100)
      let x1 := if pageLike then x0 - w.scrollX else x0
      let y1 := if pageLike then y0 - w.scrollY else y0
      let dpr : ℚ := if w.devicePixelRatio = 0 then 1 else w.devicePixelRatio
      let scaled : Bool :=
        decide (dpr ≠ 0) && decide (|mathRound dpr - dpr| > 1 / 1000) && decide (dpr ≠ 1)
      let x2 := if scaled then x1 / dpr else x1
      let y2 := if scaled then y1 / dpr else y1
      some { x := mathRound x2, y := mathRound y2 }
    | _, _ => none

/-- `normalizeAndSmooth(raw, state)`; `now` is the reading of
`performance.now()` stored into `state.last.t`. Returns the mutated state and
the returned point (`none` for `null`). -/
def normalizeAndSmooth (w : Window) (now : ℚ) (raw : JSVal) (state : GazeState) :
    GazeState × Option Point :=
  match normalizeRawToClient w raw with
  | none => (state, none)
  | some client =>
    let cal := state.calibration
    match state.ema.x with
    | none =>
      ({ state with
          ema := { x := some client.x, y := some client.y }
          last := { x := some client.x, y := some client.y, t := some now } },
        some { x := client.x + cal.dx, y := client.y + cal.dy })
    | some ex =>
      let ex1 := (1 - state.smoothingAlpha) * ex + state.smoothingAlpha * client.x
      let ey1 := (1 - state.smoothingAlpha) * toNum state.ema.y + state.smoothingAlpha * client.y
      ({ state with
          ema := { x := some ex1, y := some ey1 }
          last := { x := some ex1, y := some ey1, t := some now } },
        some { x := ex1 + cal.dx, y := ey1 + cal.dy })

/-- The elapsed time `dt = Math.max(1, now - (state.last.t || now))` of
`checkVelocity`, in milliseconds. -/
def velocityDt (last : LastRef) (now : ℚ) : XNum :=
  ((XNum.fin now).fsub (XNum.fin (orElse last.t now))).max1

/-- The displacement `dx = point.x - (state.last.x || point.x)` of
`checkVelocity`. -/
def velocityDx (last : LastRef) (point : Point) : XNum :=
  (XNum.fin point.x).fsub (XNum.fin (orElse last.x point.x))

/-- The displacement `dy = point.y - (state.last.y || point.y)` of
`checkVelocity`. -/
def velocityDy (last : LastRef) (point : Point) : XNum :=
  (XNum.fin point.y).fsub (XNum.fin (orElse last.y point.y))

/-- The value `speed = Math.sqrt(dx*dx + dy*dy) / (dt / 1000)` of
`checkVelocity`, every operation being made in double arithmetic. -/
def velocitySpeed (last : LastRef) (point : Point) (now : ℚ) : XNum :=
  (((velocityDx last point).fmul (velocityDx last point)).fadd
      ((velocityDy last point).fmul (velocityDy last point))).fsqrt.fdiv
    ((velocityDt last now).fdiv (XNum.fin 1000))

/-- The test `speed > state.velocityThreshold` of `checkVelocity`. -/
def speedExceeds (last : LastRef) (point : Point) (now threshold : ℚ) : Bool :=
  (velocitySpeed last point now).gt threshold

/-- `checkVelocity(state, point)`; `now` is the reading of `performance.now()`.
Returns the boolean result and the mutated state. -/
def checkVelocity (state : GazeState) (point : Point) (now : ℚ) : Bool × GazeState :=
  match state.last.t with
  | none => (true, { state with last := { x := some point.x, y := some point.y, t := some now } })
  | some _ =>
    let fast := speedExceeds state.last point now state.velocityThreshold
    let state1 := { state with last := { x := some point.x, y := some point.y, t := some now } }
    if fast then (false, state1) else (true, state1)

/-! ## content.js: text units and the summary trigger -/

/-- A UTF-16 code unit of a JavaScript string. -/
abbrev CodeUnit := ℕ

/-- A JavaScript string as its sequence of UTF-16 code units, so that
`.length` is `List.length`. -/
abbrev JSString := List CodeUnit

/-- The code units of a literal made of Basic Multilingual Plane characters. -/
def jsStr (s : String) : JSString := s.toList.map Char.toNat

/-- The code units removed by `String.prototype.trim`: ECMAScript WhiteSpace
and LineTerminator. -/
def isTrimUnit (c : CodeUnit) : Bool :=
  c == 0x09 || c == 0x0A || c == 0x0B || c == 0x0C || c == 0x0D || c == 0x20 ||
    c == 0xA0 || c == 0x1680 || (decide (0x2000 ≤ c) && decide (c ≤ 0x200A)) ||
    c == 0x2028 || c == 0x2029 || c == 0x202F || c == 0x205F || c == 0x3000 || c == 0xFEFF

/-- JavaScript `s.trim()`. -/
def jsTrim (s : JSString) : JSString := (s.dropWhile isTrimUnit).rdropWhile isTrimUnit

/-- The `type` field of what the orchestrating `findParagraphAt` returns. -/
inductive SourceKind where
  | dom : SourceKind
  | pdf : SourceKind
  | pptx : SourceKind
  deriving DecidableEq

/-- The string value of the `type` field. -/
def SourceKind.tag : SourceKind → String
  | SourceKind.dom => "dom"
  | SourceKind.pdf => "pdf"
  | SourceKind.pptx => "pptx"

/-- A client rectangle `{ left, top, right, bottom }`. -/
structure Rect where
  left : ℚ
  top : ℚ
  right : ℚ
  bottom : ℚ
  deriving DecidableEq

/-- What the orchestrating `findParagraphAt` resolves a point to,
`{ type, data }`, seen through what `onGaze` and `triggerSummaryForParagraph`
read from it:

* `id`: for a dom block its `__sra_id` (assigned once and kept on the element),
  for a pdf or pptx unit its `data.id`; both handlers give every unit a
  non-empty id, so the `JSON.stringify(found.data)` fallback is never taken;
* `text`: the extracted text (`innerText || textContent` of a dom block, the
  result of the handler's `getParagraphText` otherwise);
* `rect`: `getBoundingClientRect()` of a dom block, `data.rect` of a handler
  unit when it has one. -/
structure Found where
  type : SourceKind
  id : String
  text : JSString
  rect : Option Rect
  deriving DecidableEq

/-- The dwell key `found.type + '::' + id` computed by `onGaze`. -/
def Found.key (f : Found) : String := f.type.tag ++ "::" ++ f.id

/-- The summary request and popup that `triggerSummaryForParagraph` issues:
`fetchSummary(text, 'tldr')` followed by `renderPopup(px, py, ...)`. -/
structure SummaryCall where
  text : JSString
  px : ℚ
  py : ℚ
  deriving DecidableEq

/-- `triggerSummaryForParagraph(paragraphInfo)` for a non-null argument: `none`
when it returns before `fetchSummary`, else the request it issues. -/
def triggerSummaryForParagraph (paragraphInfo : Found) : Option SummaryCall :=
  let text := paragraphInfo.text
  if text = [] ∨ (jsTrim text).length < 25 then none
  else
    let clientRect : Rect :=
      match paragraphInfo.rect with
      | some r => r
      | none => { left := 60, top := 60, right := 200, bottom := 140 }
    some { text := text, px := max 8 (clientRect.right + 8), py := max 8 clientRect.top }

/-! ## content.js: the gaze handler -/

/-- The constant `DWELL_THRESHOLD_MS`. -/
def DWELL_THRESHOLD_MS : ℚ := 1500

/-- The variables `onGaze` reads and writes: the `eyeTrackingEnabled` setting,
the object `gazeState`, and `currentKey` (`none` is `null`), `startAt`,
`consecutiveNull`. -/
structure Session where
  eyeTrackingEnabled : Bool
  gazeState : GazeState
  currentKey : Option String
  startAt : ℚ
  consecutiveNull : ℕ
  deriving DecidableEq

/-- The session as content.js creates it. -/
def Session.init : Session :=
  { eyeTrackingEnabled := true
    gazeState := createGazeState (18 / 100) 3 1200
    currentKey := none
    startAt := 0
    consecutiveNull := 0 }

/-- Everything one call `onGaze(data)` takes from outside: the argument, the
window, the three `performance.now()` readings it makes (in
`normalizeAndSmooth`, in `checkVelocity`, and in the dwell test), and the
document as seen by the orchestrating `findParagraphAt`. -/
structure GazeInput where
  data : JSVal
  win : Window
  tSmooth : ℚ
  tVel : ℚ
  tDwell : ℚ
  findParagraphAt : ℚ → ℚ → Option Found

/-- How one call of `onGaze` ends. -/
inductive Outcome where
  /-- returned at `if (!eyeTrackingEnabled) return` -/
  | disabled : Outcome
  /-- returned in the `if (!data)` branch -/
  | missing : Outcome
  /-- threw a `TypeError` at `pt.x`, `pt` being `null` -/
  | typeError : Outcome
  /-- returned at `if (!gazeUtils.checkVelocity(gazeState, pt)) return` -/
  | rejected : Outcome
  /-- returned at `if (!found)` -/
  | lost : Outcome
  /-- returned at `if (currentKey !== key)` -/
  | retarget (found : Found) : Outcome
  /-- reached the end with the dwell test false -/
  | dwelling (found : Found) : Outcome
  /-- called `triggerSummaryForParagraph(found)` -/
  | fired (found : Found) : Outcome
  deriving DecidableEq

/-- The clamp `Math.max(0, Math.min(limit - 1, v))` applied to both
coordinates in `onGaze`. -/
def clampToWindow (w : Window) (pt : Point) : Point :=
  { x := max 0 (min (w.innerWidth - 1) pt.x), y := max 0 (min (w.innerHeight - 1) pt.y) }

/-- Lines 314 to 319 of `onGaze`: the dwell decision for an accepted point,
given the reading `now` of `performance.now()` and the result `found` of
`findParagraphAt`. -/
def dwellStep (now : ℚ) (found : Option Found) (s : Session) : Session × Outcome :=
  match found with
  | none => ({ s with currentKey := none, startAt := 0 }, Outcome.lost)
  | some f =>
    if s.currentKey ≠ some f.key then
      ({ s with currentKey := some f.key, startAt := now }, Outcome.retarget f)
    else if now - s.startAt ≥ DWELL_THRESHOLD_MS then
      ({ s with startAt := now + 800 }, Outcome.fired f)
    else (s, Outcome.dwelling f)

/-- `onGaze(data)`: the state after the call and how the call ended. -/
def onGaze (i : GazeInput) (s : Session) : Session × Outcome :=
  if !s.eyeTrackingEnabled then (s, Outcome.disabled)
  else if i.data.falsy then
    let n := s.consecutiveNull + 1
    if (n : ℚ) < s.gazeState.dropoutFrames then ({ s with consecutiveNull := n }, Outcome.missing)
    else ({ s with consecutiveNull := n, currentKey := none, startAt := 0 }, Outcome.missing)
  else
    let s0 := { s with consecutiveNull := 0 }
    match normalizeAndSmooth i.win i.tSmooth i.data s0.gazeState with
    | (g1, none) => ({ s0 with gazeState := g1 }, Outcome.typeError)
    | (g1, some p) =>
      let pt := clampToWindow i.win p
      match checkVelocity g1 pt i.tVel with
      | (false, g2) => ({ s0 with gazeState := g2 }, Outcome.rejected)
      | (true, g2) => dwellStep i.tDwell (i.findParagraphAt pt.x pt.y) { s0 with gazeState := g2 }

/-- The summary request, if any, that a call of `onGaze` ending in `o` leads to. -/
def Outcome.summary : Outcome → Option SummaryCall
  | Outcome.fired f => triggerSummaryForParagraph f
  | _ => none

/-- Whether the sample passed signal conditioning and reached the locator. -/
def Outcome.accepted : Outcome → Bool
  | Outcome.lost => true
  | Outcome.retarget _ => true
  | Outcome.dwelling _ => true
  | Outcome.fired _ => true
  | _ => false

/-- The dwell key the sample resolved to, `none` when it resolved to no unit
or never reached the locator. -/
def Outcome.unit : Outcome → Option String
  | Outcome.retarget f => some f.key
  | Outcome.dwelling f => some f.key
  | Outcome.fired f => some f.key
  | _ => none

/-- One processed sample of a trace: the reading `tDwell` of its call and how
the call ended. -/
abbrev Event := ℚ × Outcome

/-- Feeds the samples to `onGaze` one after the other; returns the final state
and the trace of the calls, oldest first. -/
def onGazeRun : Session → List GazeInput → Session × List Event
  | s, [] => (s, [])
  | s, i :: rest =>
    let r := onGaze i s
    let q := onGazeRun r.1 rest
    (q.1, (i.tDwell, r.2) :: q.2)

/-! ## overlay-utils.js: popup placement -/

/-- The popup size `{ width, height }` returned by `getPopupSize`. -/
structure Size where
  width : ℚ
  height : ℚ
  deriving DecidableEq

/-- A popup position: the values written to `root.style.left` and
`root.style.top`, in pixels. -/
structure Placement where
  left : ℚ
  top : ℚ
  deriving DecidableEq

/-- The rectangle `selRect` that `placePopup` avoids: the bounding rectangle of
the selection (`none` when there is no range) when `options.avoidSelection` is
set and the rectangle has a non-zero width or height. -/
def selectionRect (avoidSelection : Bool) (selection : Option Rect) : Option Rect :=
  if avoidSelection then
    match selection with
    | none => none
    | some r => if r.right - r.left ≠ 0 ∨ r.bottom - r.top ≠ 0 then some r else none
  else none

/-- The anchor `target = rect || { left: x, top: y, right: x + 8, bottom: y + 8 }`
of `placePopup`. -/
def anchorOf (rect : Option Rect) (x y : ℚ) : Rect :=
  match rect with
  | some r => r
  | none => { left := x, top := y, right := x + 8, bottom := y + 8 }

/-- Lines 51 to 61 of `placePopup`: the position `(px, py)` chosen from the
space around the anchor, with `padding = 8`. -/
def chooseSide (w : Window) (size : Size) (target : Rect) : Placement :=
  let spaceRight := w.innerWidth - target.right - 8
  let spaceLeft := target.left - 8
  let spaceBottom := w.innerHeight - target.bottom - 8
  if spaceRight ≥ size.width then { left := target.right + 8, top := target.top }
  else if spaceLeft ≥ size.width then
    { left := max 8 (target.left - 8 - size.width), top := target.top }
  else if spaceBottom ≥ size.height then { left := target.left, top := target.bottom + 8 }
  else
    { left := max 8 (w.innerWidth - size.width - 8), top := max 8 (target.top - size.height - 8) }

/-- The test `overlapX && overlapY` of `placePopup` for the box of size `size`
at `p` and the rectangle `sel`. -/
def overlapsBoth (size : Size) (sel : Rect) (p : Placement) : Bool :=
  (!(decide (p.left + size.width < sel.left) || decide (p.left > sel.right))) &&
    (!(decide (p.top + size.height < sel.top) || decide (p.top > sel.bottom)))

/-- Lines 62 to 72 of `placePopup`: the vertical shift away from the selection
rectangle. -/
def avoidSelection (w : Window) (size : Size) (selRect : Option Rect) (p : Placement) :
    Placement :=
  match selRect with
  | none => p
  | some sel =>
    if overlapsBoth size sel p then
      if sel.top - 8 - size.height > 8 then { p with top := sel.top - 8 - size.height }
      else if sel.bottom + 8 + size.height < w.innerHeight then { p with top := sel.bottom + 8 }
      else { p with top := max 8 (w.innerHeight - size.height - 8) }
    else p

/-- Lines 74 and 75 of `placePopup`: the final clamp. -/
def clampToViewport (w : Window) (size : Size) (p : Placement) : Placement :=
  { left := max 8 (min p.left (w.innerWidth - size.width - 8))
    top := max 8 (min p.top (w.innerHeight - size.height - 8)) }

/-- `placePopup(root, options)`: the position given to the popup. `size` is the
measured size of `root`, `rect`, `x`, `y` are the options of the same names and
`selRect` is the selection rectangle to avoid, if any. -/
def placePopup (w : Window) (size : Size) (rect : Option Rect) (x y : ℚ)
    (selRect : Option Rect) : Placement :=
  clampToViewport w size (avoidSelection w size selRect (chooseSide w size (anchorOf rect x y)))

/-! ## content.js: pinned popup -/

/-- `clamp(v, min, max)` of content.js: `Math.max(min, Math.min(max, v))`. -/
def clamp (v lo hi : ℚ) : ℚ := max lo (min hi v)

/-- The stored record `sra_pinned_popup`: `{ pinned, left, top }`. -/
structure PinConfig where
  pinned : Bool
  left : Slot
  top : Slot
  deriving DecidableEq

/-- `applySavedPin(root)` for a non-null `root`: the fixed position it gives the
popup, `none` when it returns without touching it. `offsetWidth` and
`offsetHeight` are those of `root`, `cfg` is the stored record (`none` when
absent). -/
def applySavedPin (w : Window) (offsetWidth offsetHeight : ℚ) (cfg : Option PinConfig) :
    Option Placement :=
  match cfg with
  | none => none
  | some c =>
    if !c.pinned then none
    else
      let pw := if offsetWidth = 0 then 200 else offsetWidth
      let ph := if offsetHeight = 0 then 100 else offsetHeight
      some { left := clamp (orElse c.left 8) 8 (max 8 (w.innerWidth - pw - 8))
             top := clamp (orElse c.top 8) 8 (max 8 (w.innerHeight - ph - 8)) }

/-! ## gaze-utils.js: calibration

The calibration claims speak of `NaN` and `Infinity`, so this part computes
with `XNum`: sums, differences and quotients overflow to an infinity as the
doubles do, and a result in range is kept exact. -/

/-- A point `{ x, y }` whose coordinates may be non-finite. -/
structure XPoint where
  x : XNum
  y : XNum
  deriving DecidableEq

/-- A calibration offset `{ dx, dy }` whose components may be non-finite. -/
structure XCalibration where
  dx : XNum
  dy : XNum
  deriving DecidableEq

/-- A truthy value returned by `webgazer.getCurrentPrediction()`, as far as
`normalizeRawToClient` inspects it: its `x` and `y`, each `none` when it is not
of type number. -/
structure RawXY where
  x : Option XNum
  y : Option XNum
  deriving DecidableEq

/-- What one sampling tick of `collectSamplesForPoint` gets from the producer:
`none` when the value is falsy or the call threw (the `catch` swallows it). -/
abbrev Reading := Option RawXY

/-- The reading that a value of the rational model stands for. -/
def JSVal.toReading (v : JSVal) : Reading :=
  if v.falsy then none
  else some { x := v.getX.asNumber.map XNum.fin, y := v.getY.asNumber.map XNum.fin }

/-- `normalizeRawToClient(raw)` over numbers that may be non-finite. -/
def normalizeRawToClientX (w : Window) (raw : Reading) : Option XPoint :=
  match raw with
  | none => none
  | some r =>
    match r.x, r.y with
    | some x0, some y0 =>
      let pageLike : Bool := x0.gt (w.innerWidth + 100) || y0.gt (w.innerHeight + 100)
      let x1 := if pageLike then x0.sub (XNum.fin w.scrollX) else x0
      let y1 := if pageLike then y0.sub (XNum.fin w.scrollY) else y0
      let dpr : ℚ := if w.devicePixelRatio = 0 then 1 else w.devicePixelRatio
      let scaled : Bool :=
        decide (dpr ≠ 0) && decide (|mathRound dpr - dpr| > 1 / 1000) && decide (dpr ≠ 1)
      let x2 := if scaled then x1.divBy dpr else x1
      let y2 := if scaled then y1.divBy dpr else y1
      some { x := x2.round, y := y2.round }
    | _, _ => none

/-- A calibration target `{ x, y }` in fractions of the viewport. -/
structure CalTarget where
  x : ℚ
  y : ℚ
  deriving DecidableEq

/-- The default `points` of `runCalibrationSequence`. -/
def defaultPoints : List CalTarget :=
  [{ x := 1 / 10, y := 1 / 10 }, { x := 9 / 10, y := 1 / 10 }, { x := 1 / 2, y := 1 / 2 },
    { x := 1 / 10, y := 9 / 10 }, { x := 9 / 10, y := 9 / 10 }]

/-- The body of the `try` in one tick of `collectSamplesForPoint`: a truthy
reading that normalizes is pushed onto `samples`. -/
def pushSample (w : Window) (d : Reading) (samples : List XPoint) : List XPoint :=
  match normalizeRawToClientX w d with
  | none => samples
  | some norm => samples ++ [norm]

/-- The value `avg` that `collectSamplesForPoint` resolves with: the sum of the
samples from `{ x: 0, y: 0 }`, divided by their number when there is one. -/
def averageSamples (samples : List XPoint) : XPoint :=
  let sum : XPoint :=
    samples.foldl (fun acc s => { x := acc.x.add s.x, y := acc.y.add s.y })
      { x := XNum.fin 0, y := XNum.fin 0 }
  if samples.length = 0 then sum
  else { x := sum.x.divBy samples.length, y := sum.y.divBy samples.length }

/-- The samples held by `collectSamplesForPoint(12, 1400)` when its interval is
cleared: tick number `k` (from 0) reads `readings k`, and the interval ends
after the tick that brings the samples to 12 or the ticks to
`maxTicks = Math.ceil(1400 / 100) = 14`. `rem` is the number of ticks still
allowed after the current one. -/
def collectFrom (w : Window) (readings : ℕ → Reading) :
    ℕ → List XPoint → ℕ → List XPoint
  | 0, samples, k => pushSample w (readings k) samples
  | rem + 1, samples, k =>
    if 12 ≤ (pushSample w (readings k) samples).length then pushSample w (readings k) samples
    else collectFrom w readings rem (pushSample w (readings k) samples) (k + 1)

/-- `collectSamplesForPoint(12, 1400)` with the producer returning
`readings k` at tick `k`. -/
def collectSamplesForPoint (w : Window) (readings : ℕ → Reading) : XPoint :=
  averageSamples (collectFrom w readings 13 [] 0)

/-- The running values `dx`, `dy`, `count` of the offset loop. -/
structure OffsetAcc where
  dx : XNum
  dy : XNum
  count : ℕ
  deriving DecidableEq

/-- One iteration of the offset loop of `runStep` for the result `r` and the
target `t`. -/
def offsetStep (w : Window) (acc : OffsetAcc) (r : XPoint) (t : CalTarget) : OffsetAcc :=
  if r.x.truthy then
    { dx := acc.dx.add ((XNum.ofExact (t.x * w.innerWidth)).sub r.x)
      dy := acc.dy.add ((XNum.ofExact (t.y * w.innerHeight)).sub r.y)
      count := acc.count + 1 }
  else acc

/-- The offset computed by the finishing branch of `runStep` (lines 187 to
193) from `results` and `points`, which have the same length there. -/
def calibrationOffset (w : Window) (points : List CalTarget) (results : List XPoint) :
    XCalibration :=
  let acc := (results.zip points).foldl (fun a rt => offsetStep w a rt.1 rt.2)
    { dx := XNum.fin 0, dy := XNum.fin 0, count := 0 }
  { dx := acc.dx.divBy (max 1 (acc.count : ℚ)), dy := acc.dy.divBy (max 1 (acc.count : ℚ)) }

/-- Where the chain of `runStep` calls stands. -/
inductive CalPhase where
  /-- a timer that will call `runStep` is pending (400 ms at the start, 300 ms
  between two points) -/
  | stepPending : CalPhase
  /-- the interval of `collectSamplesForPoint` is running -/
  | collecting (samples : List XPoint) (ticks : ℕ) : CalPhase
  /-- the 260 ms timer of the finishing branch is pending -/
  | fadePending : CalPhase
  /-- nothing of the chain is pending -/
  | idle : CalPhase
  deriving DecidableEq

/-- The state of one call of `runCalibrationSequence`: its variables `results`,
`idx`, `cancelled`; where the chain of `runStep` stands; whether the overlay is
in the document; whether the 220 ms timer of the click handler is pending; the
value the returned promise has been resolved with; and the arguments of the
calls of `setCalibration` made so far, oldest first. -/
structure CalRun where
  results : List XPoint
  idx : ℕ
  cancelled : Bool
  phase : CalPhase
  overlay : Bool
  cancelPending : Bool
  resolved : Option XCalibration
  stored : List XCalibration
  deriving DecidableEq

/-- What can happen during the sequence. The Retry button is not part of the
model: it is never pressed. -/
inductive CalEvent where
  /-- the pending timer of the chain fires -/
  | timer : CalEvent
  /-- the sampling interval fires and the producer returns `d` -/
  | tick (d : Reading) : CalEvent
  /-- the user clicks on the overlay outside the panel -/
  | click : CalEvent
  /-- the 220 ms timer set by the click handler fires -/
  | cancelTimer : CalEvent
  deriving DecidableEq

/-- The neutral offset `{ dx: 0, dy: 0 }`. -/
def zeroOffset : XCalibration := { dx := XNum.fin 0, dy := XNum.fin 0 }

/-- The synchronous part of `runCalibrationSequence(points)`. `available` says
whether `webgazer` with `getCurrentPrediction` exists. Without it the promise
resolves with the zero offset after `setCalibration(zero)`. With it and with
no point at all, `moveTo(points[0])` throws and nothing is ever scheduled. -/
def calStart (available : Bool) (points : List CalTarget) : CalRun :=
  if !available then
    { results := [], idx := 0, cancelled := false, phase := CalPhase.idle, overlay := false,
      cancelPending := false, resolved := some zeroOffset, stored := [zeroOffset] }
  else if points = [] then
    { results := [], idx := 0, cancelled := false, phase := CalPhase.idle, overlay := true,
      cancelPending := false, resolved := none, stored := [] }
  else
    { results := [], idx := 0, cancelled := false, phase := CalPhase.stepPending, overlay := true,
      cancelPending := false, resolved := none, stored := [] }

/-- Lines 172 to 183 of `runStep`, run once `collectSamplesForPoint` has
resolved with `avg`: push the result, advance `idx`, and schedule either the
next `runStep` or the finishing branch. -/
def afterCollect (points : List CalTarget) (s : CalRun) (avg : XPoint) : CalRun :=
  { s with
    results := s.results ++ [avg]
    idx := s.idx + 1
    phase := if s.idx + 1 < points.length then CalPhase.stepPending else CalPhase.fadePending }

/-- One event of the sequence; an event that cannot occur in the current state
leaves it unchanged. -/
def calStep (w : Window) (points : List CalTarget) (s : CalRun) : CalEvent → CalRun
  | CalEvent.timer =>
    match s.phase with
    | CalPhase.stepPending =>
      if s.cancelled then { s with phase := CalPhase.idle }
      else { s with phase := CalPhase.collecting [] 0 }
    | CalPhase.fadePending =>
      { s with
        phase := CalPhase.idle
        overlay := false
        stored := s.stored ++ [calibrationOffset w points s.results]
        resolved :=
          match s.resolved with
          | some v => some v
          | none => some (calibrationOffset w points s.results) }
    | _ => s
  | CalEvent.tick d =>
    match s.phase with
    | CalPhase.collecting samples ticks =>
      if 12 ≤ (pushSample w d samples).length ∨ 14 ≤ ticks + 1 then
        afterCollect points s (averageSamples (pushSample w d samples))
      else { s with phase := CalPhase.collecting (pushSample w d samples) (ticks + 1) }
    | _ => s
  | CalEvent.click =>
    if s.overlay then { s with cancelled := true, cancelPending := true } else s
  | CalEvent.cancelTimer =>
    if s.cancelPending then
      { s with
        cancelPending := false
        overlay := false
        resolved :=
          match s.resolved with
          | some v => some v
          | none => some zeroOffset }
    else s

/-- The state after a list of events. -/
def calRun (w : Window) (points : List CalTarget) (s : CalRun) (events : List CalEvent) :
    CalRun :=
  events.foldl (calStep w points) s

/-- The events of point `j` when nothing interferes: the timer that calls
`runStep`, then the ticks of the sampling interval (those after the interval
has been cleared do not occur and are ignored). -/
def pointEvents (readings : ℕ → ℕ → Reading) (j : ℕ) : List CalEvent :=
  CalEvent.timer :: (List.range' 0 14).map fun k => CalEvent.tick (readings j k)

/-- The events of points `j`, ..., `j + m - 1` when nothing interferes. -/
def pointsEvents (readings : ℕ → ℕ → Reading) : ℕ → ℕ → List CalEvent
  | _, 0 => []
  | j, m + 1 => pointEvents readings j ++ pointsEvents readings (j + 1) m

/-- The events of a sequence over `n` points that runs to completion with
nobody clicking: each point in turn, then the timer of the finishing branch. -/
def completeEvents (readings : ℕ → ℕ → Reading) (n : ℕ) : List CalEvent :=
  pointsEvents readings 0 n ++ [CalEvent.timer]

/-- `runCalibrationSequence(points)` run to completion with nobody clicking:
the final state, whose `resolved` is what the promise resolved with;
`readings j k` is what the producer returns at tick `k` of point `j`. -/
def runCalibrationSequence (w : Window) (available : Bool) (points : List CalTarget)
    (readings : ℕ → ℕ → Reading) : CalRun :=
  calRun w points (calStart available points) (completeEvents readings points.length)

/-- Whether every coordinate of type number in a reading is finite. -/
def finiteReading : Reading → Bool
  | none => true
  | some r =>
    (match r.x with | some x => x.isFinite | none => true) &&
      (match r.y with | some y => y.isFinite | none => true)

/-- Whether both coordinates of a point are finite. -/
def XPoint.isFinite (p : XPoint) : Bool := p.x.isFinite && p.y.isFinite

/-- A finite number of magnitude at most `b`. -/
def XNum.within (b : ℚ) : XNum → Prop
  | XNum.fin q => |q| ≤ b
  | _ => False

instance (b : ℚ) (v : XNum) : Decidable (v.within b) := by
  cases v <;> unfold XNum.within <;> infer_instance

/-- Every coordinate of type number in a reading is finite and of magnitude at
most `b`. -/
def boundedReading (b : ℚ) : Reading → Prop
  | none => True
  | some r =>
    (match r.x with | some x => x.within b | none => True) ∧
      (match r.y with | some y => y.within b | none => True)

/-- The bound `10^100` under which the calibration is shown to stay finite. -/
def calibrationBound : ℚ := 10 ^ 100

/-- The offset in the words of the specification: the mean, on each axis, of
`target pixel position - averaged sample` over the points that collected at
least one sample; `collected` holds the samples of each point. With no such
point it is the zero offset. -/
def meanErrorOfSampledPoints (w : Window) (points : List CalTarget)
    (collected : List (List XPoint)) : XCalibration :=
  let sampled := (collected.zip points).filter fun st => decide (st.1 ≠ [])
  let sumX := sampled.foldl
    (fun acc st => acc.add ((XNum.fin (st.2.x * w.innerWidth)).sub (averageSamples st.1).x))
    (XNum.fin 0)
  let sumY := sampled.foldl
    (fun acc st => acc.add ((XNum.fin (st.2.y * w.innerHeight)).sub (averageSamples st.1).y))
    (XNum.fin 0)
  if sampled.length = 0 then zeroOffset
  else { dx := sumX.divBy sampled.length, dy := sumY.divBy sampled.length }

/-! ## pdf-handler.js: the paginated locator -/

/-- A `span` of a text layer, seen through what `indexTextLayers` reads from
it: `textContent` and `getBoundingClientRect()`. -/
structure Span where
  textContent : JSString
  rect : Rect
  deriving DecidableEq

/-- A line `{ top, spans, rect }` built by `indexTextLayers`. -/
structure Line where
  top : ℚ
  spans : List Span
  rect : Rect
  deriving DecidableEq

/-- The test `Math.abs(l.top - top) < 6` of `lines.find`. -/
def Line.near (l : Line) (top : ℚ) : Bool := decide (|l.top - top| < 6)

/-- The line opened for a span that `lines.find` matched with no line:
`{ top, spans: [], rect: { left: r.left, top: r.top, right: r.right, bottom: r.bottom } }`
with `top = Math.round(r.top)`. -/
def Line.opened (sp : Span) : Line :=
  { top := mathRound sp.rect.top, spans := [], rect := sp.rect }

/-- Line 47: the span is pushed to the line and the line's rect grows to the
left, to the right and downwards. -/
def Line.push (line : Line) (sp : Span) : Line :=
  { line with
      spans := line.spans ++ [sp]
      rect :=
        { line.rect with
            left := min line.rect.left sp.rect.left
            right := max line.rect.right sp.rect.right
            bottom := max line.rect.bottom sp.rect.bottom } }

/-- One round of `spans.forEach` (lines 44 to 47): the span goes to the first
line that `lines.find` accepts, or to a new line pushed at the end. -/
def placeSpan (sp : Span) : List Line → List Line
  | [] => [(Line.opened sp).push sp]
  | l :: ls =>
    if l.near (mathRound sp.rect.top) then l.push sp :: ls else l :: placeSpan sp ls

/-- Lines 42 to 48: the `lines` of a text layer. -/
def groupLines (spans : List Span) : List Line :=
  spans.foldl (fun lines sp => placeSpan sp lines) []

/-- An entry `{ id, text, rect, page, parsed }` of the handler's `paragraphs`;
`page` is absent (and `parsed` unset) on the entries made from a text layer. -/
structure Paragraph where
  id : String
  text : JSString
  rect : Rect
  page : Option ℕ
  parsed : Bool
  deriving DecidableEq

/-- The text of a line, `ln.spans.map(s => s.textContent.trim()).join(' ')`. -/
def Line.txt (ln : Line) : JSString :=
  List.intercalate [0x20] (ln.spans.map fun s => jsTrim s.textContent)

/-- The paragraph `{ id, text: txt, rect: Object.assign({}, ln.rect) }` with
id `pdf-p-` followed by `pid`. -/
def Paragraph.ofLine (pid : ℕ) (ln : Line) : Paragraph :=
  { id := "pdf-p-" ++ toString pid, text := ln.txt, rect := ln.rect, page := none,
    parsed := false }

/-- The test `Math.abs(ln.top - last.rect.bottom) < 12` of line 55. -/
def Paragraph.adjoins (last : Paragraph) (ln : Line) : Bool :=
  decide (|ln.top - last.rect.bottom| < 12)

/-- The merge of line 55: the line's text is appended after a newline and the
paragraph's rect grows downwards and to the right. -/
def Paragraph.merge (last : Paragraph) (ln : Line) : Paragraph :=
  { last with
      text := last.text ++ 0x0A :: ln.txt
      rect :=
        { last.rect with
            bottom := max last.rect.bottom ln.rect.bottom
            right := max last.rect.right ln.rect.right } }

/-- The handler's `paragraphs` once `cur` is set: the array is not empty, so
it is kept as everything before its last entry, the last entry, and the
counter `pid`. -/
structure Paragraphs where
  before : List Paragraph
  last : Paragraph
  pid : ℕ
  deriving DecidableEq

/-- The array that `Paragraphs` stands for. -/
def Paragraphs.toList (ps : Paragraphs) : List Paragraph := ps.before ++ [ps.last]

/-- One round of `lines.forEach` with `cur` set (lines 54 to 56). -/
def addLine (ps : Paragraphs) (ln : Line) : Paragraphs :=
  if ps.last.adjoins ln then { ps with last := ps.last.merge ln }
  else { before := ps.before ++ [ps.last], last := Paragraph.ofLine ps.pid ln, pid := ps.pid + 1 }

/-- Lines 49 to 58 for the lines of one layer: the first line finds `cur`
unset and always opens a paragraph, the others go through `addLine`. Takes and
returns the array and `pid`. -/
def groupParagraphs (paragraphs : List Paragraph) (pid : ℕ) :
    List Line → List Paragraph × ℕ
  | [] => (paragraphs, pid)
  | ln :: rest =>
    let ps := rest.foldl addLine
      { before := paragraphs, last := Paragraph.ofLine pid ln, pid := pid + 1 }
    (ps.toList, ps.pid)

/-- The body of `textLayers.forEach` (lines 39 to 58); `layer` holds the spans
of the layer in document order. -/
def indexLayer (acc : List Paragraph × ℕ) (layer : List Span) : List Paragraph × ℕ :=
  let spans := layer.filter fun s => decide (jsTrim s.textContent ≠ [])
  if spans = [] then acc else groupParagraphs acc.1 acc.2 (groupLines spans)

/-- `indexTextLayers()`: the new content of `paragraphs` and the returned
boolean; `textLayers` are the layers matched by `.textLayer`. -/
def indexTextLayers (textLayers : List (List Span)) (paragraphs : List Paragraph) :
    List Paragraph × Bool :=
  if textLayers = [] then (paragraphs, false)
  else
    let ps := (textLayers.foldl indexLayer ([], 0)).1
    (ps, decide (ps.length > 0))

/-- What the pdf handler reads from outside: the text layers of the document,
the window, `pdf.numPages` (`none` when pdf.js is not available or the document
does not load), and for each page the joined text
`content.items.map(it => it.str).join(' ')` (`none` when reading it throws). -/
structure PdfEnv where
  textLayers : List (List Span)
  win : Window
  numPages : Option ℕ
  pageText : ℕ → Option JSString

/-- `parsePageIfNeeded(par)` for a non-null `par`. -/
def parsePageIfNeeded (env : PdfEnv) (par : Paragraph) : Paragraph :=
  match par.page with
  | none => par
  | some i =>
    if i = 0 ∨ par.parsed = true then par
    else
      match env.pageText i with
      | some items => { par with text := items, parsed := true }
      | none => par

/-- The placeholder pushed for page `i` at line 74. -/
def placeholder (w : Window) (pid i : ℕ) : Paragraph :=
  { id := "pdf-p-" ++ toString pid
    text := []
    rect :=
      { left := 0, top := ((i : ℚ) - 1) * w.innerHeight, right := w.innerWidth,
        bottom := (i : ℚ) * w.innerHeight }
    page := some i
    parsed := false }

/-- The placeholders of pages `1 .. n`, numbered from `pid`. -/
def placeholders (w : Window) (pid n : ℕ) : List Paragraph :=
  (List.range n).map fun k => placeholder w (pid + k) (k + 1)

/-- `parseWithPdfJsLazy()`: the new content of `paragraphs`. -/
def parseWithPdfJsLazy (env : PdfEnv) (paragraphs : List Paragraph) : List Paragraph :=
  match env.numPages with
  | none => paragraphs
  | some n =>
    match paragraphs ++ placeholders env.win paragraphs.length n with
    | [] => []
    | p :: ps => parsePageIfNeeded env p :: ps

/-- The state of the pdf handler: `paragraphs` and the flag `parsed`. -/
structure PdfHandler where
  paragraphs : List Paragraph
  parsed : Bool

/-- The handler as `initPDFHandler` creates it. -/
def PdfHandler.init : PdfHandler := { paragraphs := [], parsed := false }

/-- `ensureParsed()` of the pdf handler. -/
def PdfHandler.ensureParsed (env : PdfEnv) (h : PdfHandler) : PdfHandler :=
  if h.parsed then h
  else
    let indexed := indexTextLayers env.textLayers h.paragraphs
    if indexed.2 then { paragraphs := indexed.1, parsed := true }
    else { paragraphs := parseWithPdfJsLazy env indexed.1, parsed := true }

/-- The containment test of the pdf handler's `findParagraphAt` (line 113). -/
def Paragraph.hit (p : Paragraph) (clientX clientY : ℚ) : Bool :=
  decide (clientX ≥ p.rect.left - 2) && decide (clientX ≤ p.rect.right + 2) &&
    decide (clientY ≥ p.rect.top - 2) && decide (clientY ≤ p.rect.bottom + 2)

/-- The loop of the pdf handler's `findParagraphAt` (lines 106 to 115): the
entries after the loop and the entry returned. No entry has a `domSpan`, and
every entry has a `rect`; the guard `p.page && !p.parsed` of line 111 is the
one `parsePageIfNeeded` makes itself. -/
def scanParagraphs (env : PdfEnv) (clientX clientY : ℚ) :
    List Paragraph → List Paragraph × Option Paragraph
  | [] => ([], none)
  | p :: ps =>
    let p1 := parsePageIfNeeded env p
    if p1.hit clientX clientY then (p1 :: ps, some p1)
    else ((p1 :: (scanParagraphs env clientX clientY ps).1),
      (scanParagraphs env clientX clientY ps).2)

/-- The pdf handler's `findParagraphAt(clientX, clientY)`: the handler
afterwards and the entry returned (`none` for `null`). -/
def PdfHandler.findParagraphAt (env : PdfEnv) (h : PdfHandler) (clientX clientY : ℚ) :
    PdfHandler × Option Paragraph :=
  let h1 := h.ensureParsed env
  let r := scanParagraphs env clientX clientY h1.paragraphs
  ({ h1 with paragraphs := r.1 }, r.2)

/-! ## pptx-handler.js: the overlay locator -/

/-- An entry `{ id, text, rect }` of the pptx handler's `overlays`. -/
structure Overlay where
  id : String
  text : JSString
  rect : Rect
  deriving DecidableEq

/-- One round of the slide loop of `parsePptxFromUrl` (lines 42 to 48), for
slide number `id`: `texts` are the runs matched in the slide's xml and
`measured` is `box.getBoundingClientRect()`. Returns the `textContent` given to
the box and the entry pushed to `overlays`. -/
def parseSlide (id : ℕ) (texts : List JSString) (measured : Rect) : JSString × Overlay :=
  let joined := List.intercalate [0x20] texts
  (joined.take 400, { id := "pptx-" ++ toString id, text := joined, rect := measured })

/-- The slide loop of `parsePptxFromUrl` when every slide is read: `slides`
holds the runs of each slide file in sorted order and `measured i` is the
measured rect of box `i`. -/
def parsePptxFromUrl (slides : List (List JSString)) (measured : ℕ → Rect) : List Overlay :=
  slides.enum.map fun st => (parseSlide st.1 st.2 (measured st.1)).2

/-- The containment test of the pptx handler's `findParagraphAt` (line 68). -/
def Overlay.hit (o : Overlay) (clientX clientY : ℚ) : Bool :=
  decide (clientX ≥ o.rect.left) && decide (clientX ≤ o.rect.right) &&
    decide (clientY ≥ o.rect.top) && decide (clientY ≤ o.rect.bottom)

/-- The pptx handler's `findParagraphAt(clientX, clientY)` over the parsed
`overlays`: the first overlay that passes the test, else `null`. -/
def pptxFindParagraphAt (overlays : List Overlay) (clientX clientY : ℚ) : Option Overlay :=
  overlays.find? fun o => o.hit clientX clientY

/-- The pptx handler's `getParagraphText(par)`. -/
def pptxGetParagraphText (par : Option Overlay) : JSString :=
  match par with
  | some p => p.text
  | none => []

/-! ## content.js: the orchestrating locator -/

/-- The value `{ type, data }` returned by the orchestrating `findParagraphAt`;
`E` is the type of dom elements. -/
inductive Located (E : Type) where
  | pdf (data : Paragraph) : Located E
  | pptx (data : Overlay) : Located E
  | dom (data : E) : Located E

/-- The `type` field of a located unit. -/
def Located.type {E : Type} : Located E → SourceKind
  | Located.pdf _ => SourceKind.pdf
  | Located.pptx _ => SourceKind.pptx
  | Located.dom _ => SourceKind.dom

/-- The orchestrating `findParagraphAt(clientX, clientY)` of content.js. A
handler is `none` when it was not initialised; `elementFromPoint` and
`getBlockAncestor` are the two dom lookups of the fallback. -/
def findParagraphAt {E : Type} (pdfHandler : Option (ℚ → ℚ → Option Paragraph))
    (pptxHandler : Option (ℚ → ℚ → Option Overlay))
    (elementFromPoint : ℚ → ℚ → Option E) (getBlockAncestor : E → Option E)
    (clientX clientY : ℚ) : Option (Located E) :=
  match pdfHandler.bind fun h => h clientX clientY with
  | some p => some (Located.pdf p)
  | none =>
    match pptxHandler.bind fun h => h clientX clientY with
    | some p => some (Located.pptx p)
    | none =>
      match elementFromPoint clientX clientY with
      | none => none
      | some el => some (Located.dom ((getBlockAncestor el).getD el))

/-! ## content.js: escaping and code detection -/

/-- The replacement that `escapeHtml` makes for one code unit: the entity of
`&`, `<`, `>`, `"` and `'`, the unit itself otherwise. -/
def escapeUnit (c : CodeUnit) : JSString :=
  if c = 0x26 then jsStr "&amp;"
  else if c = 0x3C then jsStr "&lt;"
  else if c = 0x3E then jsStr "&gt;"
  else if c = 0x22 then jsStr "&quot;"
  else if c = 0x27 then jsStr "&#39;"
  else [c]

/-- `escapeHtml(s)`: the global replace of the five special characters. -/
def escapeHtml (s : JSString) : JSString := s.flatMap escapeUnit

/-- The five entities written by `escapeHtml`. -/
def entities : List JSString :=
  [jsStr "&amp;", jsStr "&lt;", jsStr "&gt;", jsStr "&quot;", jsStr "&#39;"]

/-- A word character of a regular expression without the `u` and `i` flags:
`[A-Za-z0-9_]`. -/
def isWordUnit (c : CodeUnit) : Bool :=
  (decide (0x30 ≤ c) && decide (c ≤ 0x39)) || (decide (0x41 ≤ c) && decide (c ≤ 0x5A)) ||
    c == 0x5F || (decide (0x61 ≤ c) && decide (c ≤ 0x7A))

/-- The assertion `\b` between two neighbouring code units (`none` at either
end of the string): exactly one of them is a word character. -/
def wordBoundary (before after : Option CodeUnit) : Bool :=
  (before.any isWordUnit) != (after.any isWordUnit)

/-- The alternatives of the `codeKeywords` pattern, in the order written. -/
def codeKeywordList : List JSString :=
  [jsStr "function", jsStr "var", jsStr "let", jsStr "const", jsStr "if", jsStr "else",
    jsStr "for", jsStr "while", jsStr "return", jsStr "class", jsStr "def", jsStr "import",
    jsStr "public", jsStr "private", jsStr "static", jsStr "void", jsStr "int", jsStr "float",
    jsStr "String", jsStr "=>", jsStr "#include", jsStr "using", jsStr "try", jsStr "catch",
    jsStr "finally", jsStr "async", jsStr "await"]

/-- Whether the `codeKeywords` pattern `\b(function|...|await)\b` matches at
the start of `rest`, the unit before it being `before`: some alternative is
read there between two word boundaries. -/
def keywordAt (before : Option CodeUnit) (rest : JSString) : Bool :=
  codeKeywordList.any fun k =>
    k.isPrefixOf rest && wordBoundary before rest.head? &&
      wordBoundary k.getLast? (rest.drop k.length).head?

/-- Whether the `codeKeywords` pattern matches somewhere in the string that
continues with `rest` after the unit `before`. -/
def keywordFrom : Option CodeUnit → JSString → Bool
  | before, [] => keywordAt before []
  | before, c :: cs => keywordAt before (c :: cs) || keywordFrom (some c) cs

/-- The length of `str.match(codeKeywords) || []`: the pattern has no `g` flag
and one capture group, so a match is the array `[match, group]`. -/
def keywordCount (str : JSString) : ℕ := if keywordFrom none str then 2 else 0

/-- The length of `str.match(/[{};]/g) || []`. -/
def braceCount (str : JSString) : ℕ :=
  str.countP fun c => c == 0x7B || c == 0x7D || c == 0x3B

/-- The value `avgIndent`: the share of the lines of `str.split('\n')` that
start with white space. -/
def avgIndent (str : JSString) : ℚ :=
  ((str.splitOn 0x0A).countP fun l => l.head?.any isTrimUnit : ℕ) /
    max 1 ((str.splitOn 0x0A).length : ℚ)

/-- `isLikelyCode(str)`; `inCodeBlock` tells whether the anchor node of the
selection lies inside a `PRE` or `CODE` element. -/
def isLikelyCode (str : JSString) (inCodeBlock : Bool) : Bool :=
  inCodeBlock || decide (braceCount str > 2) || decide (keywordCount str > 1) ||
    decide (avgIndent str > 2 / 10)

/-- The `mode` that the mouseup handler sends with the selection. -/
def selectionMode (selected : JSString) (inCodeBlock : Bool) : String :=
  if isLikelyCode selected inCodeBlock then "explain_code" else "tldr"

/-- The results of successive calls of the pdf handler's `findParagraphAt`, one
for each point of the list, starting from handler state `h`. -/
def PdfHandler.findRun (env : PdfEnv) : PdfHandler → List (ℚ × ℚ) → List (Option Paragraph)
  | _, [] => []
  | h, pt :: pts =>
    (h.findParagraphAt env pt.1 pt.2).2 ::
      PdfHandler.findRun env (h.findParagraphAt env pt.1 pt.2).1 pts

/-- The containment test in the words of the specification: the point lies
inside the rect expanded by `margin` pixels on each side. -/
def withinMargin (margin : ℚ) (r : Rect) (x y : ℚ) : Prop :=
  r.left - margin ≤ x ∧ x ≤ r.right + margin ∧ r.top - margin ≤ y ∧ y ≤ r.bottom + margin

instance (margin : ℚ) (r : Rect) (x y : ℚ) : Decidable (withinMargin margin r x y) := by
  unfold withinMargin
  infer_instance

/-- What holds of every line built by `groupLines`: it has a first fragment,
its `top` is the rounded top of that fragment, and every fragment in it has a
rounded top less than 6 away from the line's `top`. -/
def Line.wellFormed (l : Line) : Prop :=
  (∃ first rest, l.spans = first :: rest ∧ l.top = mathRound first.rect.top) ∧
    ∀ sp ∈ l.spans, |l.top - mathRound sp.rect.top| < 6

/-! ## Concrete values used in the examples -/

/-- A window of 1280 by 720 pixels, unscrolled, at device pixel ratio 1. -/
def sampleWindow : Window :=
  { innerWidth := 1280, innerHeight := 720, scrollX := 0, scrollY := 0, devicePixelRatio := 1 }

/-- A seeded gaze state whose last reference is (100, 100) at t = 1000 ms. -/
def stateAt100 : GazeState :=
  { createGazeState (18 / 100) 3 1200 with
    last := { x := some 100, y := some 100, t := some 1000 }
    ema := { x := some 100, y := some 100 } }

/-- A fresh gaze state carrying a stored calibration offset of (5, -3). -/
def freshCalibrated : GazeState :=
  { createGazeState (18 / 100) 3 1200 with calibration := { dx := 5, dy := -3 } }

/-- A dom block with a paragraph of 44 characters. -/
def unitA : Found :=
  { type := SourceKind.dom
    id := "a"
    text := jsStr "The quick brown fox jumps over the lazy dog."
    rect := some { left := 250, top := 180, right := 650, bottom := 240 } }

/-- Another dom block. -/
def unitB : Found :=
  { type := SourceKind.dom
    id := "b"
    text := jsStr "Pack my box with five dozen liquor jugs, please."
    rect := some { left := 250, top := 260, right := 650, bottom := 320 } }

/-- A dom block whose text has 10 characters. -/
def unitShort : Found :=
  { type := SourceKind.dom
    id := "s"
    text := jsStr "Too short."
    rect := some { left := 250, top := 180, right := 650, bottom := 240 } }

/-- The gaze state once the filter has settled on the point (300, 200), the
last reference having been written at time `t`. -/
def settledAt (t : ℚ) : GazeState :=
  { createGazeState (18 / 100) 3 1200 with
    last := { x := some 300, y := some 200, t := some t }
    ema := { x := some 300, y := some 200 } }

/-- The call `onGaze({ x: 300, y: 200 })` made at time `t`, all three clock
readings being `t`, in a document where every point resolves to `found`. -/
def lookAt (found : Option Found) (t : ℚ) : GazeInput :=
  { data := JSVal.obj (JSVal.num 300) (JSVal.num 200)
    win := sampleWindow
    tSmooth := t
    tVel := t
    tDwell := t
    findParagraphAt := fun _ _ => found }

/-- The call `onGaze(null)` at time `t`. -/
def missingAt (t : ℚ) : GazeInput :=
  { data := JSVal.null
    win := sampleWindow
    tSmooth := t
    tVel := t
    tDwell := t
    findParagraphAt := fun _ _ => none }

/-- The call `onGaze({ x: 'left', y: 40 })` at time `t`: the `x` coordinate is
a string. -/
def malformedAt (t : ℚ) : GazeInput :=
  { data := JSVal.obj (JSVal.str "left") (JSVal.num 40)
    win := sampleWindow
    tSmooth := t
    tVel := t
    tDwell := t
    findParagraphAt := fun _ _ => some unitA }

/-- The session in which the filter has settled on (300, 200), the last
reference was written at `tLast`, and the dwell variables are `key` and
`startAt`. -/
def tracking (tLast : ℚ) (key : Option String) (startAt : ℚ) : Session :=
  { Session.init with gazeState := settledAt tLast, currentKey := key, startAt := startAt }

/-- A session that has been tracking `unitA` since t = 500. -/
def trackingA : Session := tracking 500 (some unitA.key) 500

/-- The popup size of the placement scenarios: 200 by 100 pixels. -/
def popup200x100 : Size := { width := 200, height := 100 }

/-- An anchor near the bottom edge of `sampleWindow`, with 980 px free to its
right. -/
def anchorLow : Rect := { left := 100, top := 650, right := 300, bottom := 700 }

/-- An anchor in the upper left of `sampleWindow`. -/
def anchorHigh : Rect := { left := 100, top := 200, right := 300, bottom := 260 }

/-- A window of 500 by 250 pixels. -/
def smallWindow : Window :=
  { innerWidth := 500, innerHeight := 250, scrollX := 0, scrollY := 0, devicePixelRatio := 1 }

/-- An anchor in the middle of `smallWindow`: 142 px free on the left and on
the right, 72 px above and below (after padding). -/
def anchorMid : Rect := { left := 150, top := 80, right := 350, bottom := 170 }

/-- A window of 400 by 200 pixels. -/
def tinyWindow : Window :=
  { innerWidth := 400, innerHeight := 200, scrollX := 0, scrollY := 0, devicePixelRatio := 1 }

/-- An anchor in the middle of `tinyWindow`: 92 px free on the left and on the
right, 52 px above and below (after padding). -/
def anchorTiny : Rect := { left := 100, top := 60, right := 300, bottom := 140 }

/-- A popup wider than `sampleWindow`. -/
def popupWide : Size := { width := 2000, height := 100 }

/-- A selection rectangle in `sampleWindow`. -/
def selectionMid : Rect := { left := 300, top := 300, right := 700, bottom := 340 }

/-- A pin saved at (1000, 600). -/
def savedPin : PinConfig := { pinned := true, left := some 1000, top := some 600 }

/-- A producer that returns `null` at every tick. -/
def silentReadings : ℕ → ℕ → Reading := fun _ _ => none

/-- The reading `{ x: 600, y: 300 }`. -/
def steadyReading : Reading := some { x := some (XNum.fin 600), y := some (XNum.fin 300) }

/-- A producer that returns `{ x: 600, y: 300 }` at every tick. -/
def steadyReadings : ℕ → ℕ → Reading := fun _ _ => steadyReading

/-- A producer that returns `{ x: 600, y: NaN }` at every tick. -/
def nanReadings : ℕ → ℕ → Reading :=
  fun _ _ => some { x := some (XNum.fin 600), y := some XNum.nan }

/-- A producer pinned to the left edge while the first target is shown,
`{ x: 0, y: 70 }`, and 10 px left of and above the target for the other four
targets of `defaultPoints` in `sampleWindow`. -/
def edgeReadings : ℕ → ℕ → Reading := fun j _ =>
  match j with
  | 0 => some { x := some (XNum.fin 0), y := some (XNum.fin 70) }
  | 1 => some { x := some (XNum.fin 1142), y := some (XNum.fin 62) }
  | 2 => some { x := some (XNum.fin 630), y := some (XNum.fin 350) }
  | 3 => some { x := some (XNum.fin 118), y := some (XNum.fin 638) }
  | _ => some { x := some (XNum.fin 1142), y := some (XNum.fin 638) }

/-- The events of a sequence over `defaultPoints` with the steady producer in
which the user clicks outside the panel after the fifth tick of the last
point: points 0 to 3 run undisturbed; then `runStep` starts the last point,
five ticks pass, the click comes, two more ticks pass, the 220 ms timer of the
click fires, the sampling goes on to its twelfth sample, and the timer of the
finishing branch fires. -/
def lateCancelEvents : List CalEvent :=
  pointsEvents steadyReadings 0 4 ++
    (CalEvent.timer :: List.replicate 5 (CalEvent.tick steadyReading)) ++
    (CalEvent.click :: List.replicate 2 (CalEvent.tick steadyReading)) ++
    (CalEvent.cancelTimer :: List.replicate 5 (CalEvent.tick steadyReading)) ++
    [CalEvent.timer]

/-- An overlay unit with rect (100, 100, 500, 200). -/
def slideBox : Overlay :=
  { id := "pptx-0"
    text := jsStr "Quarterly results"
    rect := { left := 100, top := 100, right := 500, bottom := 200 } }

/-- A pdf paragraph of a text layer with rect (100, 100, 500, 200). -/
def pdfBox : Paragraph :=
  { id := "pdf-p-0"
    text := jsStr "Quarterly results"
    rect := { left := 100, top := 100, right := 500, bottom := 200 }
    page := none
    parsed := false }

/-- A document without text layer whose three pages pdf.js reads. -/
def threePages : PdfEnv :=
  { textLayers := []
    win := sampleWindow
    numPages := some 3
    pageText := fun _ => some (jsStr "page text") }

/-- A pdf handler that has indexed the single paragraph `pdfBox`. -/
def pdfBoxHandler : PdfHandler := { paragraphs := [pdfBox], parsed := true }

/-- A text run of 401 letters `a`. -/
def longRun : JSString := List.replicate 401 0x61

/-- A text fragment `word` of 40 by 10 pixels whose box starts at
`(left, top)`. -/
def fragment (left top : ℚ) : Span :=
  { textContent := jsStr "word"
    rect := { left := left, top := top, right := left + 40, bottom := top + 10 } }

/-- A text fragment `Title` of 120 by 24 pixels at (50, 100), as a heading set
in a larger font. -/
def tallFragment : Span :=
  { textContent := jsStr "Title"
    rect := { left := 50, top := 100, right := 170, bottom := 124 } }

/-- A line with the given rounded top and bottom, holding one fragment. -/
def lineAt (top bottom : ℚ) : Line :=
  { top := top
    spans := [{ textContent := jsStr "word"
                rect := { left := 50, top := top, right := 90, bottom := bottom } }]
    rect := { left := 50, top := top, right := 90, bottom := bottom } }

/-- A seeded gaze state whose last reference is (0, 300), on the left edge of
the viewport, at t = 1000 ms. -/
def stateAtLeftEdge : GazeState :=
  { createGazeState (18 / 100) 3 1200 with
    last := { x := some 0, y := some 300, t := some 1000 }
    ema := { x := some 0, y := some 300 } }

/-- A producer that returns `{ x: 1e308, y: 300 }` at every tick: both
coordinates are finite doubles. -/
def hugeReadings : ℕ → ℕ → Reading :=
  fun _ _ => some { x := some (XNum.fin (10 ^ 308)), y := some (XNum.fin 300) }

/-! ## Signal conditioning: properties -/

/-! ### Double arithmetic -/

theorem roundHalfEven_eq (q : ℚ) (m : ℤ) (h : |q - m| < 1 / 2) : roundHalfEven q = m := by
  rw [abs_lt] at h
  unfold roundHalfEven
  by_cases hq : (m : ℚ) ≤ q
  · have hf : ⌊q⌋ = m := by
      rw [Int.floor_eq_iff]
      constructor
      · exact hq
      · linarith [h.2]
    rw [hf, if_pos (by linarith [h.2])]
  · have hf : ⌊q⌋ = m - 1 := by
      rw [Int.floor_eq_iff]
      push_cast
      constructor
      · linarith [h.1]
      · linarith
    rw [hf]
    push_cast
    rw [if_neg (by linarith [h.1]), if_pos (by linarith [h.1])]
    ring

theorem roundHalfEven_intCast (z : ℤ) : roundHalfEven (z : ℚ) = z :=
  roundHalfEven_eq _ z (by simp)

theorem floor_le_roundHalfEven (q : ℚ) : ⌊q⌋ ≤ roundHalfEven q := by
  unfold roundHalfEven
  split
  · exact le_refl _
  · split
    · omega
    · split <;> omega

theorem ulpExponent_of_binade (q : ℚ) (e : ℤ) (he : -1022 ≤ e) (h1 : 2 ^ e ≤ |q|)
    (h2 : |q| < 2 ^ (e + 1)) : ulpExponent q = e - 52 := by
  have hpos : 0 < |q| := lt_of_lt_of_le (by positivity) h1
  have hlog : Int.log 2 |q| = e := by
    have a : e ≤ Int.log 2 |q| := by
      rw [← Int.zpow_le_iff_le_log (by norm_num) hpos]
      exact_mod_cast h1
    have b : Int.log 2 |q| < e + 1 := by
      rw [← Int.lt_zpow_iff_log_lt (by norm_num) hpos]
      exact_mod_cast h2
    omega
  unfold ulpExponent
  rw [hlog, max_eq_left he]




theorem roundDouble_zero : roundDouble 0 = 0 := by
  simp [roundDouble, roundHalfEven]

theorem roundDouble_of_binade (q : ℚ) (m k : ℤ) (hk : -1074 ≤ k)
    (h1 : 2 ^ (k + 52) ≤ |q|) (h2 : |q| < 2 ^ (k + 53)) (h : |q / 2 ^ k - m| < 1 / 2) :
    roundDouble q = m * 2 ^ k := by
  have hu : ulpExponent q = k := by
    rw [ulpExponent_of_binade q (k + 52) (by omega) h1 (by rw [show k + 52 + 1 = k + 53 by ring]; exact h2)]
    ring
  unfold roundDouble
  rw [hu, roundHalfEven_eq _ m h]

theorem ulpExponent_le (q : ℚ) (k : ℤ) (hk : -1074 ≤ k) (hq : q ≠ 0) (h : |q| < 2 ^ (k + 53)) :
    ulpExponent q ≤ k := by
  unfold ulpExponent
  have hpos : 0 < |q| := abs_pos.2 hq
  have hlog : Int.log 2 |q| < k + 53 := by
    rw [← Int.lt_zpow_iff_log_lt (by norm_num) hpos]
    exact_mod_cast h
  have := max_le (a := Int.log 2 |q|) (b := -1022) (c := k + 52) (by omega) (by omega)
  omega

theorem roundDouble_exact (m k : ℤ) (hm : |m| < 2 ^ 53) (hk : -1074 ≤ k) :
    roundDouble (m * 2 ^ k) = m * 2 ^ k := by
  by_cases hm0 : m = 0
  · subst hm0
    simp [roundDouble_zero]
  have hq : (m : ℚ) * 2 ^ k ≠ 0 := mul_ne_zero (by exact_mod_cast hm0) (by positivity)
  have hlt : |(m : ℚ) * 2 ^ k| < 2 ^ (k + 53) := by
    rw [abs_mul, abs_of_pos (show (0 : ℚ) < 2 ^ k by positivity),
      zpow_add₀ (by norm_num : (2 : ℚ) ≠ 0), mul_comm]
    have h53 : |(m : ℚ)| < 2 ^ (53 : ℤ) := by
      have h := hm
      have : ((|m| : ℤ) : ℚ) < ((2 ^ 53 : ℤ) : ℚ) := by exact_mod_cast h
      rw [Int.cast_abs] at this
      norm_num at this ⊢
      exact this
    exact mul_lt_mul_of_pos_left h53 (by positivity)
  have hu := ulpExponent_le _ k hk hq hlt
  unfold roundDouble
  generalize ulpExponent ((m : ℚ) * 2 ^ k) = u at hu ⊢
  obtain ⟨j, rfl⟩ : ∃ j : ℕ, k = u + j := ⟨(k - u).toNat, by omega⟩
  have hp : (2 : ℚ) ^ (u + (j : ℤ)) = 2 ^ u * 2 ^ j := by
    rw [zpow_add₀ (by norm_num : (2 : ℚ) ≠ 0), zpow_natCast]
  have hu0 : (2 : ℚ) ^ u ≠ 0 := by positivity
  have e : (m : ℚ) * 2 ^ (u + (j : ℤ)) / 2 ^ u = ((m * 2 ^ j : ℤ) : ℚ) := by
    rw [hp]
    push_cast
    field_simp
    ring
  rw [e, roundHalfEven_intCast, hp]
  push_cast
  ring

theorem roundDouble_intCast (z : ℤ) (hz : |z| < 2 ^ 53) : roundDouble (z : ℚ) = z := by
  have := roundDouble_exact z 0 hz (by norm_num)
  simpa using this

theorem roundDouble_pos (q : ℚ) (h : 2 ^ (-1022 : ℤ) ≤ q) : 0 < roundDouble q := by
  have hq : 0 < q := lt_of_lt_of_le (by positivity) h
  have habs : |q| = q := abs_of_pos hq
  have hlog : -1022 ≤ Int.log 2 |q| := by
    rw [habs, ← Int.zpow_le_iff_le_log (by norm_num) hq]
    exact_mod_cast h
  have hu : ulpExponent q = Int.log 2 q - 52 := by
    unfold ulpExponent
    rw [habs] at hlog ⊢
    rw [max_eq_left hlog]
  have hle : (2 : ℚ) ^ (Int.log 2 q) ≤ q := by
    have := Int.zpow_log_le_self (b := 2) (r := q) (by norm_num) hq
    exact_mod_cast this
  unfold roundDouble
  rw [hu]
  have hf : (1 : ℤ) ≤ ⌊q / 2 ^ (Int.log 2 q - 52)⌋ := by
    rw [Int.le_floor]
    rw [le_div_iff₀ (by positivity)]
    push_cast
    calc (1 : ℚ) * 2 ^ (Int.log 2 q - 52) ≤ 2 ^ (Int.log 2 q) := by
          rw [one_mul]
          exact zpow_le_zpow_right₀ (by norm_num) (by omega)
      _ ≤ q := hle
  have hr := floor_le_roundHalfEven (q / 2 ^ (Int.log 2 q - 52))
  have : (0 : ℚ) < (roundHalfEven (q / 2 ^ (Int.log 2 q - 52)) : ℚ) := by
    exact_mod_cast (by omega : (0 : ℤ) < roundHalfEven (q / 2 ^ (Int.log 2 q - 52)))
  positivity



theorem sqrtDouble_zero : sqrtDouble 0 = 0 := by
  simp [sqrtDouble]

theorem sqrtDouble_sq (n : ℕ) (hn : 0 < n) (hn2 : n < 2 ^ 53) :
    sqrtDouble ((n : ℚ) * n) = n := by
  have hq : (0 : ℚ) < (n : ℚ) * n := by positivity
  have hlog : Int.log 2 ((n : ℚ) * n) < 106 := by
    rw [← Int.lt_zpow_iff_log_lt (by norm_num) hq]
    have h1 : (n : ℚ) < 2 ^ 53 := by exact_mod_cast hn2
    have h0 : (0 : ℚ) ≤ n := by positivity
    calc (n : ℚ) * n < 2 ^ 53 * 2 ^ 53 := mul_lt_mul'' h1 h1 h0 h0
      _ = ((2 : ℕ) : ℚ) ^ (106 : ℤ) := by norm_num
  unfold sqrtDouble
  rw [if_neg (not_le.2 hq)]
  dsimp only
  generalize Int.log 2 ((n : ℚ) * n) = l at hlog
  obtain ⟨j, hj⟩ : ∃ j : ℕ, l / 2 - 60 = -(j : ℤ) := ⟨(60 - l / 2).toNat, by omega⟩
  rw [hj]
  have h4 : ((n : ℚ) * n) / 4 ^ (-(j : ℤ)) = (((n * 2 ^ j) * (n * 2 ^ j) : ℕ) : ℚ) := by
    rw [zpow_neg, zpow_natCast, div_inv_eq_mul]
    push_cast
    rw [show (4 : ℚ) = 2 * 2 by norm_num, mul_pow]
    ring
  rw [h4, Nat.floor_natCast, Nat.sqrt_eq]
  rw [if_pos (by push_cast; ring)]
  have e : ((n * 2 ^ j : ℕ) : ℚ) * 2 ^ (-(j : ℤ)) = ((n : ℤ) : ℚ) := by
    rw [zpow_neg, zpow_natCast]
    push_cast
    field_simp
  rw [e, roundDouble_intCast]
  · simp
  · rw [abs_of_nonneg (by positivity)]
    exact_mod_cast hn2

theorem overflowBound_large : (10 : ℚ) ^ 305 < overflowBound := by
  unfold overflowBound
  norm_num

theorem XNum.ofExact_of_abs_lt (q : ℚ) (h : |q| < overflowBound) :
    XNum.ofExact q = XNum.fin q := by
  rw [abs_lt] at h
  unfold XNum.ofExact
  rw [if_neg (not_le.2 h.2), if_neg (not_le.2 h.1)]

theorem XNum.ofExact_zero : XNum.ofExact 0 = XNum.fin 0 :=
  XNum.ofExact_of_abs_lt 0 (by rw [abs_zero]; exact lt_trans (by norm_num) overflowBound_large)

theorem XNum.ofExact_of_small (q : ℚ) (h : |q| ≤ 10 ^ 9) : XNum.ofExact q = XNum.fin q :=
  XNum.ofExact_of_abs_lt q
    (lt_of_le_of_lt h (lt_trans (by norm_num) overflowBound_large))

theorem XNum.ofExact_two_sided (q : ℚ) (h : -10 ^ 9 ≤ q ∧ q ≤ 10 ^ 9) :
    XNum.ofExact q = XNum.fin q :=
  XNum.ofExact_of_small q (abs_le.2 h)

/-! ### Normalisation, smoothing and the velocity test -/

theorem normalizeRawToClient_of_falsy (w : Window) (raw : JSVal) (h : raw.falsy = true) :
    normalizeRawToClient w raw = none := by
  simp [normalizeRawToClient, h]

theorem normalizeRawToClient_of_badX (w : Window) (raw : JSVal)
    (h : raw.getX.asNumber = none) : normalizeRawToClient w raw = none := by
  unfold normalizeRawToClient
  split
  · rfl
  · simp [h]

theorem normalizeRawToClient_of_badY (w : Window) (raw : JSVal)
    (h : raw.getY.asNumber = none) : normalizeRawToClient w raw = none := by
  unfold normalizeRawToClient
  split
  · rfl
  · cases hx : raw.getX.asNumber <;> simp [h]

theorem normalizeAndSmooth_of_null (w : Window) (now : ℚ) (raw : JSVal) (state : GazeState)
    (h : normalizeRawToClient w raw = none) :
    normalizeAndSmooth w now raw state = (state, none) := by
  simp [normalizeAndSmooth, h]

/-- C5: a raw sample that is null (falsy), or whose `x` or `y` is missing or
not of type number, makes `normalizeRawToClient` return null, and
`normalizeAndSmooth` return null too, leaving the filter state as it was. -/
theorem normalize_malformed_returns_null (w : Window) (now : ℚ) (raw : JSVal)
    (state : GazeState)
    (h : raw.falsy = true ∨ raw.getX.asNumber = none ∨ raw.getY.asNumber = none) :
    normalizeRawToClient w raw = none ∧
      normalizeAndSmooth w now raw state = (state, none) := by
  have hn : normalizeRawToClient w raw = none := by
    rcases h with h | h | h
    · exact normalizeRawToClient_of_falsy w raw h
    · exact normalizeRawToClient_of_badX w raw h
    · exact normalizeRawToClient_of_badY w raw h
  exact ⟨hn, normalizeAndSmooth_of_null w now raw state hn⟩

/-- Witness for C5: the sample `{ x: 'left', y: 40 }` has a non-numeric `x`. -/
theorem normalize_malformed_returns_null_witness :
    (JSVal.obj (JSVal.str "left") (JSVal.num 40)).getX.asNumber = none ∧
      normalizeRawToClient sampleWindow (JSVal.obj (JSVal.str "left") (JSVal.num 40)) = none ∧
      normalizeAndSmooth sampleWindow 5 (JSVal.obj (JSVal.str "left") (JSVal.num 40))
        (createGazeState (18 / 100) 3 1200) = (createGazeState (18 / 100) 3 1200, none) :=
  ⟨rfl, normalize_malformed_returns_null sampleWindow 5
    (JSVal.obj (JSVal.str "left") (JSVal.num 40)) (createGazeState (18 / 100) 3 1200)
    (Or.inr (Or.inl rfl))⟩

theorem checkVelocity_last (state : GazeState) (point : Point) (now : ℚ) :
    (checkVelocity state point now).2 =
      { state with last := { x := some point.x, y := some point.y, t := some now } } := by
  unfold checkVelocity
  cases state.last.t with
  | none => rfl
  | some t => dsimp only; split <;> rfl

theorem checkVelocity_result (state : GazeState) (point : Point) (now : ℚ) :
    (checkVelocity state point now).1 =
      !(state.last.t.isSome && speedExceeds state.last point now state.velocityThreshold) := by
  unfold checkVelocity
  cases state.last.t with
  | none => rfl
  | some t => dsimp only; split <;> simp_all

theorem XNum.rounded_of_abs_lt (q : ℚ) (h : |roundDouble q| < 2 ^ 1024) :
    XNum.rounded q = XNum.fin (roundDouble q) := by
  rw [abs_lt] at h
  unfold XNum.rounded
  rw [if_neg (not_le.2 h.2), if_neg (not_le.2 h.1)]

theorem XNum.rounded_zero : XNum.rounded 0 = XNum.fin 0 := by
  rw [XNum.rounded_of_abs_lt 0 (by rw [roundDouble_zero]; norm_num), roundDouble_zero]

theorem XNum.rounded_intCast (z : ℤ) (hz : |z| < 2 ^ 53) :
    XNum.rounded (z : ℚ) = XNum.fin z := by
  have h1 : |(z : ℚ)| < 2 ^ 53 := by
    have : ((|z| : ℤ) : ℚ) < ((2 ^ 53 : ℤ) : ℚ) := by exact_mod_cast hz
    rw [Int.cast_abs] at this
    norm_num at this ⊢
    exact this
  have h2 := XNum.rounded_of_abs_lt (z : ℚ)
    (by rw [roundDouble_intCast z hz]; exact lt_trans h1 (by norm_num))
  rw [h2, roundDouble_intCast z hz]

theorem XNum.rounded_of_binade (q : ℚ) (m k : ℤ) (hk : -1074 ≤ k)
    (h1 : 2 ^ (k + 52) ≤ |q|) (h2 : |q| < 2 ^ (k + 53)) (h : |q / 2 ^ k - m| < 1 / 2)
    (hr : |(m : ℚ) * 2 ^ k| < 2 ^ 1024) : XNum.rounded q = XNum.fin (m * 2 ^ k) := by
  have e := roundDouble_of_binade q m k hk h1 h2 h
  rw [XNum.rounded_of_abs_lt q (by rw [e]; exact hr), e]

theorem XNum.fsub_self (a : ℚ) : (XNum.fin a).fsub (XNum.fin a) = XNum.fin 0 := by
  simp [XNum.fsub, XNum.neg, XNum.fadd, XNum.rounded_zero]

theorem XNum.fsub_fin (a b : ℚ) : (XNum.fin a).fsub (XNum.fin b) = XNum.rounded (a - b) := by
  simp [XNum.fsub, XNum.neg, XNum.fadd, sub_eq_add_neg]

theorem velocityDx_eq (last : LastRef) (point : Point) :
    ((last.x = none ∨ last.x = some 0) → velocityDx last point = XNum.fin 0) ∧
      (∀ a, last.x = some a → a ≠ 0 → velocityDx last point = XNum.rounded (point.x - a)) := by
  constructor
  · rintro (h | h) <;> simp [velocityDx, h, orElse, XNum.fsub_self]
  · intro a h ha
    simp [velocityDx, h, orElse, ha, XNum.fsub_fin]

theorem velocityDy_eq (last : LastRef) (point : Point) :
    ((last.y = none ∨ last.y = some 0) → velocityDy last point = XNum.fin 0) ∧
      (∀ a, last.y = some a → a ≠ 0 → velocityDy last point = XNum.rounded (point.y - a)) := by
  constructor
  · rintro (h | h) <;> simp [velocityDy, h, orElse, XNum.fsub_self]
  · intro a h ha
    simp [velocityDy, h, orElse, ha, XNum.fsub_fin]

theorem velocityDt_eq (last : LastRef) (now : ℚ) :
    ((last.t = none ∨ last.t = some 0) → velocityDt last now = XNum.fin 1) ∧
      (∀ a, last.t = some a → a ≠ 0 → velocityDt last now = (XNum.rounded (now - a)).max1) := by
  constructor
  · rintro (h | h) <;> simp [velocityDt, h, orElse, XNum.fsub_self, XNum.max1]
  · intro a h ha
    simp [velocityDt, h, orElse, ha, XNum.fsub_fin]

theorem XNum.max1_cases (v : XNum) (hv : v ≠ XNum.nan) :
    (∃ d, 1 ≤ d ∧ v.max1 = XNum.fin d) ∨ v.max1 = XNum.inf true := by
  cases v with
  | fin a => exact Or.inl ⟨max 1 a, le_max_left _ _, rfl⟩
  | nan => exact absurd rfl hv
  | inf s =>
    cases s
    · exact Or.inl ⟨1, le_refl _, rfl⟩
    · exact Or.inr rfl

theorem XNum.rounded_ne_nan (q : ℚ) : XNum.rounded q ≠ XNum.nan := by
  unfold XNum.rounded
  split
  · simp
  · split <;> simp

theorem velocityDt_cases (last : LastRef) (now : ℚ) :
    (∃ d, 1 ≤ d ∧ velocityDt last now = XNum.fin d) ∨ velocityDt last now = XNum.inf true := by
  unfold velocityDt
  apply XNum.max1_cases
  rw [XNum.fsub_fin]
  exact XNum.rounded_ne_nan _

/-- The divisor `dt / 1000` of the speed is a positive double or `Infinity`. -/
theorem velocityDt_div_cases (last : LastRef) (now : ℚ) :
    (∃ r, 0 < r ∧ (velocityDt last now).fdiv (XNum.fin 1000) = XNum.fin r) ∨
      (velocityDt last now).fdiv (XNum.fin 1000) = XNum.inf true := by
  rcases velocityDt_cases last now with ⟨d, hd, h⟩ | h
  · rw [h]
    have hq : (2 : ℚ) ^ (-1022 : ℤ) ≤ d / 1000 := by
      have h1 : (2 : ℚ) ^ (-1022 : ℤ) ≤ 2 ^ (-10 : ℤ) :=
        zpow_le_zpow_right₀ (by norm_num) (by norm_num)
      have h2 : (2 : ℚ) ^ (-10 : ℤ) ≤ 1 / 1000 := by norm_num
      have h3 : (1 : ℚ) / 1000 ≤ d / 1000 := by
        apply div_le_div_of_nonneg_right hd
        norm_num
      linarith
    have hpos := roundDouble_pos _ hq
    simp only [XNum.fdiv, XNum.rounded]
    rw [if_neg (by norm_num)]
    split
    · right
      rfl
    · left
      rw [if_neg (by linarith)]
      exact ⟨_, hpos, rfl⟩
  · rw [h]
    right
    simp [XNum.fdiv]

/-- With no displacement on either axis the computed speed is 0. -/
theorem velocitySpeed_still (last : LastRef) (point : Point) (now : ℚ)
    (hx : velocityDx last point = XNum.fin 0) (hy : velocityDy last point = XNum.fin 0) :
    velocitySpeed last point now = XNum.fin 0 := by
  unfold velocitySpeed
  rw [hx, hy]
  have h0 : (((XNum.fin 0).fmul (XNum.fin 0)).fadd ((XNum.fin 0).fmul (XNum.fin 0))).fsqrt =
      XNum.fin 0 := by
    simp [XNum.fmul, XNum.fadd, XNum.fsqrt, XNum.rounded_zero, sqrtDouble_zero]
  rw [h0]
  rcases velocityDt_div_cases last now with ⟨r, hr, h⟩ | h
  · rw [h]
    simp [XNum.fdiv, hr.ne', XNum.rounded_zero]
  · rw [h]
    rfl

theorem orElse_self (q : ℚ) : orElse (some q) q = q := by
  simp [orElse]

theorem speedExceeds_same_point (p : Point) (t now threshold : ℚ) (h : 0 ≤ threshold) :
    speedExceeds { x := some p.x, y := some p.y, t := some t } p now threshold = false := by
  have hs : velocitySpeed { x := some p.x, y := some p.y, t := some t } p now = XNum.fin 0 := by
    apply velocitySpeed_still
    · simp [velocityDx, orElse_self, XNum.fsub_self]
    · simp [velocityDy, orElse_self, XNum.fsub_self]
  simp [speedExceeds, hs, XNum.gt, h]

/-- How the speed is put together from its parts when every intermediate
result is finite. -/
theorem velocitySpeed_of_parts (last : LastRef) (point : Point) (now : ℚ)
    (dx dy a b c d r sp : ℚ)
    (hx : velocityDx last point = XNum.fin dx) (hy : velocityDy last point = XNum.fin dy)
    (ha : XNum.rounded (dx * dx) = XNum.fin a) (hb : XNum.rounded (dy * dy) = XNum.fin b)
    (hc : XNum.rounded (a + b) = XNum.fin c) (hc0 : 0 ≤ c)
    (hd : velocityDt last now = XNum.fin d)
    (hr : XNum.rounded (d / 1000) = XNum.fin r) (hr0 : r ≠ 0)
    (hsp : XNum.rounded (sqrtDouble c / r) = XNum.fin sp) :
    velocitySpeed last point now = XNum.fin sp := by
  unfold velocitySpeed
  rw [hx, hy, hd]
  simp [XNum.fmul, XNum.fadd, XNum.fsqrt, XNum.fdiv, ha, hb, hc, not_lt.2 hc0, hr, hr0, hsp]

theorem XNum.rounded_of_int (q : ℚ) (z : ℤ) (hq : q = z) (hz : |z| < 2 ^ 53) :
    XNum.rounded q = XNum.fin z := by
  rw [hq]
  exact XNum.rounded_intCast z hz

theorem sqrtDouble_of_sq (q : ℚ) (n : ℕ) (hq : q = (n : ℚ) * n) (hn : 0 < n) (hn2 : n < 2 ^ 53) :
    sqrtDouble q = n := by
  rw [hq]
  exact sqrtDouble_sq n hn hn2

/-- C7, as the code has it: `checkVelocity` returns false exactly when a last
reference is stored (`last.t` is not null) and the speed it computes exceeds
`velocityThreshold`, and true otherwise; in both cases the point, with the time
of the call, becomes the new last reference. The speed is
`Math.sqrt(dx*dx + dy*dy) / (dt / 1000)` in double arithmetic, where `dx` is 0
when `last.x` is null or 0 and `point.x - last.x` otherwise, `dy` likewise, and
`dt` is 1 when `last.t` is 0 and `max(1, now - last.t)` otherwise. -/
theorem checkVelocity_always_advances_last (state : GazeState) (point : Point) (now : ℚ) :
    ((checkVelocity state point now).1 = false ↔
        (state.last.t ≠ none ∧
          (velocitySpeed state.last point now).gt state.velocityThreshold = true)) ∧
      (checkVelocity state point now).2.last =
        { x := some point.x, y := some point.y, t := some now } ∧
      (checkVelocity state point now).2 =
        { state with last := { x := some point.x, y := some point.y, t := some now } } ∧
      velocitySpeed state.last point now =
        (((velocityDx state.last point).fmul (velocityDx state.last point)).fadd
          ((velocityDy state.last point).fmul (velocityDy state.last point))).fsqrt.fdiv
            ((velocityDt state.last now).fdiv (XNum.fin 1000)) ∧
      ((state.last.x = none ∨ state.last.x = some 0) →
        velocityDx state.last point = XNum.fin 0) ∧
      (∀ a, state.last.x = some a → a ≠ 0 →
        velocityDx state.last point = XNum.rounded (point.x - a)) ∧
      ((state.last.y = none ∨ state.last.y = some 0) →
        velocityDy state.last point = XNum.fin 0) ∧
      (∀ a, state.last.y = some a → a ≠ 0 →
        velocityDy state.last point = XNum.rounded (point.y - a)) ∧
      (state.last.t = some 0 → velocityDt state.last now = XNum.fin 1) ∧
      (∀ a, state.last.t = some a → a ≠ 0 →
        velocityDt state.last now = (XNum.rounded (now - a)).max1) := by
  refine ⟨?_, ?_, checkVelocity_last state point now, rfl,
    (velocityDx_eq state.last point).1, (velocityDx_eq state.last point).2,
    (velocityDy_eq state.last point).1, (velocityDy_eq state.last point).2,
    fun h => (velocityDt_eq state.last now).1 (Or.inr h), (velocityDt_eq state.last now).2⟩
  · rw [checkVelocity_result]
    cases h : state.last.t <;> simp [speedExceeds]
  · rw [checkVelocity_last]

theorem velocitySpeed_from_100_to_1000 :
    velocitySpeed stateAt100.last { x := 1000, y := 100 } 1010 = XNum.fin 90000 := by
  have hx : velocityDx stateAt100.last { x := 1000, y := 100 } = XNum.fin ((900 : ℤ) : ℚ) := by
    rw [(velocityDx_eq stateAt100.last { x := 1000, y := 100 }).2 100 rfl (by norm_num)]
    exact XNum.rounded_of_int _ 900 (by norm_num) (by norm_num)
  have hy : velocityDy stateAt100.last { x := 1000, y := 100 } = XNum.fin ((0 : ℤ) : ℚ) := by
    rw [(velocityDy_eq stateAt100.last { x := 1000, y := 100 }).2 100 rfl (by norm_num)]
    exact XNum.rounded_of_int _ 0 (by norm_num) (by norm_num)
  have hd : velocityDt stateAt100.last 1010 = XNum.fin 10 := by
    rw [(velocityDt_eq stateAt100.last 1010).2 1000 rfl (by norm_num),
      XNum.rounded_of_int _ 10 (by norm_num) (by norm_num)]
    simp [XNum.max1]
  have hr : XNum.rounded ((10 : ℚ) / 1000) = XNum.fin ((5764607523034235 : ℤ) * 2 ^ (-59 : ℤ)) :=
    XNum.rounded_of_binade _ _ _ (by norm_num)
      (by rw [abs_of_pos (by norm_num)]; norm_num) (by rw [abs_of_pos (by norm_num)]; norm_num)
      (by rw [abs_lt]; constructor <;> norm_num) (by rw [abs_lt]; constructor <;> norm_num)
  have hs : sqrtDouble (((810000 : ℤ) : ℚ)) = ((900 : ℕ) : ℚ) :=
    sqrtDouble_of_sq _ 900 (by norm_num) (by norm_num) (by norm_num)
  have hsp : XNum.rounded (sqrtDouble (((810000 : ℤ) : ℚ)) /
      ((5764607523034235 : ℤ) * 2 ^ (-59 : ℤ))) = XNum.fin ((6184752906240000 : ℤ) * 2 ^ (-36 : ℤ)) := by
    rw [hs]
    exact XNum.rounded_of_binade _ _ _ (by norm_num)
      (by rw [abs_of_pos (by norm_num)]; norm_num) (by rw [abs_of_pos (by norm_num)]; norm_num)
      (by rw [abs_lt]; constructor <;> norm_num) (by rw [abs_lt]; constructor <;> norm_num)
  have h := velocitySpeed_of_parts stateAt100.last { x := 1000, y := 100 } 1010
    ((900 : ℤ) : ℚ) ((0 : ℤ) : ℚ) ((810000 : ℤ) : ℚ) ((0 : ℤ) : ℚ) ((810000 : ℤ) : ℚ) 10 _ _
    hx hy (XNum.rounded_of_int _ 810000 (by norm_num) (by norm_num))
    (XNum.rounded_of_int _ 0 (by norm_num) (by norm_num))
    (XNum.rounded_of_int _ 810000 (by norm_num) (by norm_num)) (by norm_num) hd hr
    (by norm_num) hsp
  rw [h]
  norm_num

/-- C7 refuted as stated: from the last reference (100, 100) at t = 1000 the
point (1000, 100) at t = 1010 moves at 90000 px/s, above the threshold 1200;
`checkVelocity` returns false, yet the last reference is replaced by the
rejected point. -/
theorem checkVelocity_rejected_point_replaces_last :
    speedExceeds stateAt100.last { x := 1000, y := 100 } 1010
        stateAt100.velocityThreshold = true ∧
      (checkVelocity stateAt100 { x := 1000, y := 100 } 1010).1 = false ∧
      (checkVelocity stateAt100 { x := 1000, y := 100 } 1010).2.last =
        { x := some 1000, y := some 100, t := some 1010 } ∧
      (checkVelocity stateAt100 { x := 1000, y := 100 } 1010).2.last ≠ stateAt100.last := by
  have hs : speedExceeds stateAt100.last { x := 1000, y := 100 } 1010
      stateAt100.velocityThreshold = true := by
    rw [speedExceeds, velocitySpeed_from_100_to_1000]
    simp [XNum.gt, stateAt100, createGazeState]
    norm_num
  refine ⟨hs, ?_, ?_, ?_⟩
  · rw [checkVelocity_result, hs]; rfl
  · rw [checkVelocity_last]
  · rw [checkVelocity_last]
    simp [stateAt100, createGazeState]

/-- Witness for C7: the last reference (0, 300) lies on the left edge, so its
`x` is 0 and the horizontal displacement of the point (1000, 300) counts as 0;
the computed speed is 0 and the point is accepted. -/
theorem checkVelocity_always_advances_last_witness :
    stateAtLeftEdge.last.x = some 0 ∧
      velocityDx stateAtLeftEdge.last { x := 1000, y := 300 } = XNum.fin 0 :=
  ⟨rfl, (checkVelocity_always_advances_last stateAtLeftEdge { x := 1000, y := 300 }
    1010).2.2.2.2.1 (Or.inr rfl)⟩

/-- From the last reference (0, 300) at t = 1000 the point (1000, 300) at
t = 1010 is accepted, although it lies 1000 px away. -/
theorem checkVelocity_from_left_edge :
    velocitySpeed stateAtLeftEdge.last { x := 1000, y := 300 } 1010 = XNum.fin 0 ∧
      (checkVelocity stateAtLeftEdge { x := 1000, y := 300 } 1010).1 = true := by
  have hs : velocitySpeed stateAtLeftEdge.last { x := 1000, y := 300 } 1010 = XNum.fin 0 := by
    apply velocitySpeed_still
    · exact (velocityDx_eq _ _).1 (Or.inr rfl)
    · rw [(velocityDy_eq stateAtLeftEdge.last { x := 1000, y := 300 }).2 300 rfl (by norm_num)]
      have := XNum.rounded_of_int ((300 : ℚ) - 300) 0 (by norm_num) (by norm_num)
      simpa using this
  refine ⟨hs, ?_⟩
  rw [checkVelocity_result, speedExceeds, hs]
  simp [XNum.gt, stateAtLeftEdge, createGazeState]

/-- From the last reference (100, 100) at t = 1000 the point (1306, 100) at
t = 2005 has moved 1206 px in 1005 ms, exactly 1200 px/s; `dt / 1000` rounds to
a double just below 1.005, the quotient rounds to the double just above 1200,
and the point is rejected. -/
theorem checkVelocity_at_the_threshold :
    (1206 : ℚ) / (1005 / 1000) = 1200 ∧
      velocitySpeed stateAt100.last { x := 1306, y := 100 } 2005 =
        XNum.fin ((5277655813324801 : ℤ) * 2 ^ (-42 : ℤ)) ∧
      (checkVelocity stateAt100 { x := 1306, y := 100 } 2005).1 = false := by
  have hx : velocityDx stateAt100.last { x := 1306, y := 100 } = XNum.fin ((1206 : ℤ) : ℚ) := by
    rw [(velocityDx_eq stateAt100.last { x := 1306, y := 100 }).2 100 rfl (by norm_num)]
    exact XNum.rounded_of_int _ 1206 (by norm_num) (by norm_num)
  have hy : velocityDy stateAt100.last { x := 1306, y := 100 } = XNum.fin ((0 : ℤ) : ℚ) := by
    rw [(velocityDy_eq stateAt100.last { x := 1306, y := 100 }).2 100 rfl (by norm_num)]
    exact XNum.rounded_of_int _ 0 (by norm_num) (by norm_num)
  have hd : velocityDt stateAt100.last 2005 = XNum.fin 1005 := by
    rw [(velocityDt_eq stateAt100.last 2005).2 1000 rfl (by norm_num),
      XNum.rounded_of_int _ 1005 (by norm_num) (by norm_num)]
    simp [XNum.max1]
  have hr : XNum.rounded ((1005 : ℚ) / 1000) = XNum.fin ((4526117625507348 : ℤ) * 2 ^ (-52 : ℤ)) :=
    XNum.rounded_of_binade _ _ _ (by norm_num)
      (by rw [abs_of_pos (by norm_num)]; norm_num) (by rw [abs_of_pos (by norm_num)]; norm_num)
      (by rw [abs_lt]; constructor <;> norm_num) (by rw [abs_lt]; constructor <;> norm_num)
  have hs : sqrtDouble (((1454436 : ℤ) : ℚ)) = ((1206 : ℕ) : ℚ) :=
    sqrtDouble_of_sq _ 1206 (by norm_num) (by norm_num) (by norm_num)
  have hsp : XNum.rounded (sqrtDouble (((1454436 : ℤ) : ℚ)) /
      ((4526117625507348 : ℤ) * 2 ^ (-52 : ℤ))) =
      XNum.fin ((5277655813324801 : ℤ) * 2 ^ (-42 : ℤ)) := by
    rw [hs]
    exact XNum.rounded_of_binade _ _ _ (by norm_num)
      (by rw [abs_of_pos (by norm_num)]; norm_num) (by rw [abs_of_pos (by norm_num)]; norm_num)
      (by rw [abs_lt]; constructor <;> norm_num) (by rw [abs_lt]; constructor <;> norm_num)
  have h := velocitySpeed_of_parts stateAt100.last { x := 1306, y := 100 } 2005
    ((1206 : ℤ) : ℚ) ((0 : ℤ) : ℚ) ((1454436 : ℤ) : ℚ) ((0 : ℤ) : ℚ) ((1454436 : ℤ) : ℚ) 1005 _ _
    hx hy (XNum.rounded_of_int _ 1454436 (by norm_num) (by norm_num))
    (XNum.rounded_of_int _ 0 (by norm_num) (by norm_num))
    (XNum.rounded_of_int _ 1454436 (by norm_num) (by norm_num)) (by norm_num) hd hr
    (by norm_num) hsp
  refine ⟨by norm_num, h, ?_⟩
  rw [checkVelocity_result, speedExceeds, h]
  simp [XNum.gt, stateAt100, createGazeState]
  norm_num

/-- C8, as the code has it: on a fresh filter state a well-formed sample makes
`normalizeAndSmooth` return the normalized sample plus the calibration offset,
unsmoothed, and seed the accumulator with the normalized sample itself; with
a zero offset the returned value is the normalized sample. -/
theorem normalizeAndSmooth_first_sample (w : Window) (now : ℚ) (raw : JSVal)
    (state : GazeState) (client : Point)
    (hfresh : state.ema.x = none) (hnorm : normalizeRawToClient w raw = some client) :
    (normalizeAndSmooth w now raw state).2 =
        some { x := client.x + state.calibration.dx, y := client.y + state.calibration.dy } ∧
      (normalizeAndSmooth w now raw state).1.ema = { x := some client.x, y := some client.y } ∧
      (state.calibration = { dx := 0, dy := 0 } →
        (normalizeAndSmooth w now raw state).2 = normalizeRawToClient w raw) := by
  refine ⟨?_, ?_, ?_⟩
  · simp [normalizeAndSmooth, hnorm, hfresh]
  · simp [normalizeAndSmooth, hnorm, hfresh]
  · intro hc
    simp [normalizeAndSmooth, hnorm, hfresh, hc]

theorem normalize_sample_300_200 :
    normalizeRawToClient sampleWindow (JSVal.obj (JSVal.num 300) (JSVal.num 200)) =
      some { x := 300, y := 200 } := by
  simp [normalizeRawToClient, sampleWindow, JSVal.falsy, JSVal.getX, JSVal.getY, JSVal.asNumber,
    mathRound]
  norm_num

/-- Witness for C8: the first sample (300, 200) on a fresh state. -/
theorem normalizeAndSmooth_first_sample_witness :
    (normalizeAndSmooth sampleWindow 7 (JSVal.obj (JSVal.num 300) (JSVal.num 200))
        freshCalibrated).2 =
        some { x := 300 + freshCalibrated.calibration.dx,
               y := 200 + freshCalibrated.calibration.dy } ∧
      (normalizeAndSmooth sampleWindow 7 (JSVal.obj (JSVal.num 300) (JSVal.num 200))
        freshCalibrated).1.ema = { x := some 300, y := some 200 } ∧
      (freshCalibrated.calibration = { dx := 0, dy := 0 } →
        (normalizeAndSmooth sampleWindow 7 (JSVal.obj (JSVal.num 300) (JSVal.num 200))
          freshCalibrated).2 =
          normalizeRawToClient sampleWindow (JSVal.obj (JSVal.num 300) (JSVal.num 200))) :=
  normalizeAndSmooth_first_sample sampleWindow 7 (JSVal.obj (JSVal.num 300) (JSVal.num 200))
    freshCalibrated { x := 300, y := 200 } rfl normalize_sample_300_200

/-- C8 refuted as stated: on a fresh state holding the calibration offset
(5, -3), the first sample (300, 200) normalizes to (300, 200) but
`normalizeAndSmooth` returns (305, 197). -/
theorem normalizeAndSmooth_first_sample_offset :
    freshCalibrated.ema.x = none ∧
      normalizeRawToClient sampleWindow (JSVal.obj (JSVal.num 300) (JSVal.num 200)) =
        some { x := 300, y := 200 } ∧
      (normalizeAndSmooth sampleWindow 7 (JSVal.obj (JSVal.num 300) (JSVal.num 200))
        freshCalibrated).2 = some { x := 305, y := 197 } ∧
      (normalizeAndSmooth sampleWindow 7 (JSVal.obj (JSVal.num 300) (JSVal.num 200))
        freshCalibrated).2 ≠
        normalizeRawToClient sampleWindow (JSVal.obj (JSVal.num 300) (JSVal.num 200)) := by
  have h := normalize_sample_300_200
  refine ⟨rfl, h, ?_, ?_⟩
  · simp only [normalizeAndSmooth, h]
    simp [freshCalibrated, createGazeState]
    norm_num
  · simp only [normalizeAndSmooth, h]
    simp [freshCalibrated, createGazeState]

/-- C9: on a seeded filter state a well-formed sample normalizing to `p` makes
`normalizeAndSmooth` store `ema' = (1 - alpha) * ema + alpha * p` on each axis
and return `ema' + (dx, dy)`; the stored accumulator is the same whatever the
calibration offset is, so the offset is added after smoothing. -/
theorem normalizeAndSmooth_seeded (w : Window) (now : ℚ) (raw : JSVal) (state : GazeState)
    (p : Point) (ex ey : ℚ)
    (hx : state.ema.x = some ex) (hy : state.ema.y = some ey)
    (hnorm : normalizeRawToClient w raw = some p) :
    (normalizeAndSmooth w now raw state).1.ema =
        { x := some ((1 - state.smoothingAlpha) * ex + state.smoothingAlpha * p.x)
          y := some ((1 - state.smoothingAlpha) * ey + state.smoothingAlpha * p.y) } ∧
      (normalizeAndSmooth w now raw state).2 =
        some { x := (1 - state.smoothingAlpha) * ex + state.smoothingAlpha * p.x
                      + state.calibration.dx
               y := (1 - state.smoothingAlpha) * ey + state.smoothingAlpha * p.y
                      + state.calibration.dy } ∧
      ∀ cal : Calibration,
        (normalizeAndSmooth w now raw { state with calibration := cal }).1.ema =
          (normalizeAndSmooth w now raw state).1.ema := by
  refine ⟨?_, ?_, ?_⟩
  · simp [normalizeAndSmooth, hnorm, hx, hy, toNum]
  · simp [normalizeAndSmooth, hnorm, hx, hy, toNum]
  · intro cal
    simp [normalizeAndSmooth, hnorm, hx, hy, toNum]

/-- Witness for C9: the sample (300, 200) on the state seeded at (100, 100). -/
theorem normalizeAndSmooth_seeded_witness :
    (normalizeAndSmooth sampleWindow 7 (JSVal.obj (JSVal.num 300) (JSVal.num 200))
        stateAt100).1.ema =
        { x := some ((1 - stateAt100.smoothingAlpha) * 100 + stateAt100.smoothingAlpha * 300)
          y := some ((1 - stateAt100.smoothingAlpha) * 100 + stateAt100.smoothingAlpha * 200) } ∧
      (normalizeAndSmooth sampleWindow 7 (JSVal.obj (JSVal.num 300) (JSVal.num 200))
        stateAt100).2 =
        some { x := (1 - stateAt100.smoothingAlpha) * 100 + stateAt100.smoothingAlpha * 300
                      + stateAt100.calibration.dx
               y := (1 - stateAt100.smoothingAlpha) * 100 + stateAt100.smoothingAlpha * 200
                      + stateAt100.calibration.dy } ∧
      ∀ cal : Calibration,
        (normalizeAndSmooth sampleWindow 7 (JSVal.obj (JSVal.num 300) (JSVal.num 200))
          { stateAt100 with calibration := cal }).1.ema =
          (normalizeAndSmooth sampleWindow 7 (JSVal.obj (JSVal.num 300) (JSVal.num 200))
            stateAt100).1.ema :=
  normalizeAndSmooth_seeded sampleWindow 7 (JSVal.obj (JSVal.num 300) (JSVal.num 200))
    stateAt100 { x := 300, y := 200 } 100 100 rfl rfl normalize_sample_300_200

/-! ## The gaze handler: properties -/

theorem dwellStep_frame (now : ℚ) (found : Option Found) (s : Session) :
    (dwellStep now found s).1.eyeTrackingEnabled = s.eyeTrackingEnabled ∧
      (dwellStep now found s).1.gazeState = s.gazeState ∧
      (dwellStep now found s).1.consecutiveNull = s.consecutiveNull := by
  unfold dwellStep
  cases found with
  | none => exact ⟨rfl, rfl, rfl⟩
  | some f =>
    dsimp only
    split
    · exact ⟨rfl, rfl, rfl⟩
    · split <;> exact ⟨rfl, rfl, rfl⟩

theorem onGaze_missing (i : GazeInput) (s : Session) (hen : s.eyeTrackingEnabled = true)
    (hd : i.data.falsy = true) :
    onGaze i s =
      if ((s.consecutiveNull + 1 : ℕ) : ℚ) < s.gazeState.dropoutFrames then
        ({ s with consecutiveNull := s.consecutiveNull + 1 }, Outcome.missing)
      else
        ({ s with consecutiveNull := s.consecutiveNull + 1, currentKey := none, startAt := 0 },
          Outcome.missing) := by
  simp [onGaze, hen, hd]

theorem onGaze_present_counter (i : GazeInput) (s : Session) (hen : s.eyeTrackingEnabled = true)
    (hd : i.data.falsy = false) : (onGaze i s).1.consecutiveNull = 0 := by
  simp only [onGaze, hen, hd]
  simp only [Bool.not_true, Bool.false_eq_true, if_false]
  split
  · rfl
  · split
    · rfl
    · rw [(dwellStep_frame _ _ _).2.2]

/-- C10: with `dropoutFrames = 3` and tracking enabled, starting from a miss
counter of zero, the first and the second consecutive missing sample leave
`currentKey` and `startAt` unchanged and the third resets them to
`currentKey = null`, `startAt = 0`; and any non-missing sample sets the miss
counter to zero. -/
theorem onGaze_dropout_after_three (i1 i2 i3 : GazeInput) (s : Session)
    (hen : s.eyeTrackingEnabled = true) (hframes : s.gazeState.dropoutFrames = 3)
    (hzero : s.consecutiveNull = 0)
    (h1 : i1.data.falsy = true) (h2 : i2.data.falsy = true) (h3 : i3.data.falsy = true) :
    ((onGaze i1 s).1.currentKey = s.currentKey ∧ (onGaze i1 s).1.startAt = s.startAt) ∧
      ((onGaze i2 (onGaze i1 s).1).1.currentKey = s.currentKey ∧
        (onGaze i2 (onGaze i1 s).1).1.startAt = s.startAt) ∧
      ((onGaze i3 (onGaze i2 (onGaze i1 s).1).1).1.currentKey = none ∧
        (onGaze i3 (onGaze i2 (onGaze i1 s).1).1).1.startAt = 0) ∧
      ∀ (j : GazeInput) (s' : Session), s'.eyeTrackingEnabled = true → j.data.falsy = false →
        (onGaze j s').1.consecutiveNull = 0 := by
  have e1 : onGaze i1 s = ({ s with consecutiveNull := 1 }, Outcome.missing) := by
    rw [onGaze_missing i1 s hen h1, hframes, hzero]; norm_num
  have e2 : onGaze i2 { s with consecutiveNull := 1 } =
      ({ s with consecutiveNull := 2 }, Outcome.missing) := by
    rw [onGaze_missing i2 { s with consecutiveNull := 1 } hen h2]; simp only [hframes]; norm_num
  have e3 : onGaze i3 { s with consecutiveNull := 2 } =
      ({ s with consecutiveNull := 3, currentKey := none, startAt := 0 }, Outcome.missing) := by
    rw [onGaze_missing i3 { s with consecutiveNull := 2 } hen h3]; simp only [hframes]; norm_num
  rw [e1]
  dsimp only
  rw [e2]
  dsimp only
  rw [e3]
  exact ⟨⟨rfl, rfl⟩, ⟨rfl, rfl⟩, ⟨rfl, rfl⟩,
    fun j s' hj hd => onGaze_present_counter j s' hj hd⟩
/-- Witness for C10: three `onGaze(null)` calls while unit A is tracked. -/
theorem onGaze_dropout_after_three_witness :
    ((onGaze (missingAt 600) trackingA).1.currentKey = trackingA.currentKey ∧
        (onGaze (missingAt 600) trackingA).1.startAt = trackingA.startAt) ∧
      ((onGaze (missingAt 700) (onGaze (missingAt 600) trackingA).1).1.currentKey =
          trackingA.currentKey ∧
        (onGaze (missingAt 700) (onGaze (missingAt 600) trackingA).1).1.startAt =
          trackingA.startAt) ∧
      ((onGaze (missingAt 800)
          (onGaze (missingAt 700) (onGaze (missingAt 600) trackingA).1).1).1.currentKey = none ∧
        (onGaze (missingAt 800)
          (onGaze (missingAt 700) (onGaze (missingAt 600) trackingA).1).1).1.startAt = 0) ∧
      ∀ (j : GazeInput) (s' : Session), s'.eyeTrackingEnabled = true → j.data.falsy = false →
        (onGaze j s').1.consecutiveNull = 0 :=
  onGaze_dropout_after_three (missingAt 600) (missingAt 700) (missingAt 800) trackingA
    rfl rfl rfl rfl rfl rfl

theorem onGaze_accepted (i : GazeInput) (s : Session) (g1 g2 : GazeState) (p : Point)
    (hen : s.eyeTrackingEnabled = true) (hd : i.data.falsy = false)
    (hn : normalizeAndSmooth i.win i.tSmooth i.data s.gazeState = (g1, some p))
    (hv : checkVelocity g1 (clampToWindow i.win p) i.tVel = (true, g2)) :
    onGaze i s =
      dwellStep i.tDwell
        (i.findParagraphAt (clampToWindow i.win p).x (clampToWindow i.win p).y)
        { s with consecutiveNull := 0, gazeState := g2 } := by
  simp [onGaze, hen, hd, hn, hv]

theorem lookAt_settles (g : GazeState) (t : ℚ)
    (hg : g = createGazeState (18 / 100) 3 1200 ∨ ∃ t0, g = settledAt t0) :
    normalizeAndSmooth sampleWindow t (JSVal.obj (JSVal.num 300) (JSVal.num 200)) g =
        (settledAt t, some { x := 300, y := 200 }) ∧
      checkVelocity (settledAt t) (clampToWindow sampleWindow { x := 300, y := 200 }) t =
        (true, settledAt t) := by
  have hc : clampToWindow sampleWindow { x := 300, y := 200 } = { x := 300, y := 200 } := by
    simp [clampToWindow, sampleWindow]; norm_num
  constructor
  · rcases hg with hg | ⟨t0, hg⟩
    · subst hg
      simp [normalizeAndSmooth, normalize_sample_300_200, createGazeState, settledAt]
    · subst hg
      simp [normalizeAndSmooth, normalize_sample_300_200, createGazeState, settledAt, toNum]
      norm_num
  · rw [hc]
    have h1 := checkVelocity_result (settledAt t) { x := 300, y := 200 } t
    have h2 := checkVelocity_last (settledAt t) { x := 300, y := 200 } t
    have h3 : speedExceeds (settledAt t).last { x := 300, y := 200 } t
        (settledAt t).velocityThreshold = false :=
      speedExceeds_same_point { x := 300, y := 200 } t t 1200 (by norm_num)
    rw [h3] at h1
    exact Prod.ext (by rw [h1]; rfl) (by rw [h2]; rfl)


theorem onGaze_lookAt (found : Option Found) (t : ℚ) (s : Session)
    (hen : s.eyeTrackingEnabled = true)
    (hg : s.gazeState = createGazeState (18 / 100) 3 1200 ∨ ∃ t0, s.gazeState = settledAt t0) :
    onGaze (lookAt found t) s =
      dwellStep t found { s with consecutiveNull := 0, gazeState := settledAt t } := by
  have h := lookAt_settles s.gazeState t hg
  exact onGaze_accepted (lookAt found t) s (settledAt t) (settledAt t) { x := 300, y := 200 }
    hen rfl h.1 h.2

/-- What an accepted call does: it is the dwell decision taken on a session
whose `currentKey` and `startAt` are those before the call. -/
theorem onGaze_of_accepted (i : GazeInput) (s : Session)
    (h : (onGaze i s).2.accepted = true) :
    ∃ (s1 : Session) (found : Option Found),
      s1.currentKey = s.currentKey ∧ s1.startAt = s.startAt ∧
        onGaze i s = dwellStep i.tDwell found s1 := by
  by_cases hen : s.eyeTrackingEnabled = true
  · by_cases hd : i.data.falsy = true
    · rw [onGaze_missing i s hen hd] at h
      split at h <;> simp [Outcome.accepted] at h
    · simp only [Bool.not_eq_true] at hd
      rcases hn : normalizeAndSmooth i.win i.tSmooth i.data s.gazeState with ⟨g1, _ | p⟩
      · simp [onGaze, hen, hd, hn, Outcome.accepted] at h
      · rcases hv : checkVelocity g1 (clampToWindow i.win p) i.tVel with ⟨_ | _, g2⟩
        · simp [onGaze, hen, hd, hn, hv, Outcome.accepted] at h
        · refine ⟨_, _, ?_, ?_, onGaze_accepted i s g1 g2 p hen hd hn hv⟩ <;> rfl
  · simp [onGaze, hen, Outcome.accepted] at h

theorem dwellStep_lost (now : ℚ) (found : Option Found) (s : Session)
    (h : (dwellStep now found s).2 = Outcome.lost) :
    (dwellStep now found s).1.currentKey = none ∧ (dwellStep now found s).1.startAt = 0 := by
  unfold dwellStep at h ⊢
  cases found with
  | none => exact ⟨rfl, rfl⟩
  | some f =>
    dsimp only at h ⊢
    split at h
    · simp at h
    · split at h <;> simp at h

theorem dwellStep_retarget (now : ℚ) (found : Option Found) (s : Session) (f : Found)
    (h : (dwellStep now found s).2 = Outcome.retarget f) :
    s.currentKey ≠ some f.key ∧ (dwellStep now found s).1.currentKey = some f.key ∧
      (dwellStep now found s).1.startAt = now := by
  unfold dwellStep at h ⊢
  cases found with
  | none => simp at h
  | some f0 =>
    dsimp only at h ⊢
    split at h
    · rename_i hk
      simp only [Outcome.retarget.injEq] at h
      subst h
      simp [hk]
    · split at h <;> simp at h

theorem dwellStep_dwelling (now : ℚ) (found : Option Found) (s : Session) (f : Found)
    (h : (dwellStep now found s).2 = Outcome.dwelling f) :
    s.currentKey = some f.key ∧ now - s.startAt < DWELL_THRESHOLD_MS ∧
      (dwellStep now found s).1 = s := by
  unfold dwellStep at h ⊢
  cases found with
  | none => simp at h
  | some f0 =>
    dsimp only at h ⊢
    split at h
    · simp at h
    · rename_i hk
      split at h
      · simp at h
      · rename_i hlt
        simp only [Outcome.dwelling.injEq] at h
        subst h
        simp only [ne_eq, not_not] at hk
        simp [hk, hlt]
        exact lt_of_not_ge hlt

theorem dwellStep_fired (now : ℚ) (found : Option Found) (s : Session) (f : Found)
    (h : (dwellStep now found s).2 = Outcome.fired f) :
    s.currentKey = some f.key ∧ DWELL_THRESHOLD_MS ≤ now - s.startAt ∧
      (dwellStep now found s).1.currentKey = some f.key ∧
      (dwellStep now found s).1.startAt = now + 800 := by
  unfold dwellStep at h ⊢
  cases found with
  | none => simp at h
  | some f0 =>
    dsimp only at h ⊢
    split at h
    · simp at h
    · rename_i hk
      split at h
      · rename_i hge
        simp only [Outcome.fired.injEq] at h
        subst h
        simp only [ne_eq, not_not] at hk
        simp [hk, hge]
      · simp at h
theorem onGaze_lost (i : GazeInput) (s : Session) (h : (onGaze i s).2 = Outcome.lost) :
    (onGaze i s).1.currentKey = none ∧ (onGaze i s).1.startAt = 0 := by
  obtain ⟨s1, found, _, _, he⟩ := onGaze_of_accepted i s (by rw [h]; rfl)
  rw [he] at h ⊢
  exact dwellStep_lost _ _ _ h

theorem onGaze_retarget (i : GazeInput) (s : Session) (f : Found)
    (h : (onGaze i s).2 = Outcome.retarget f) :
    s.currentKey ≠ some f.key ∧ (onGaze i s).1.currentKey = some f.key ∧
      (onGaze i s).1.startAt = i.tDwell := by
  obtain ⟨s1, found, hk, _, he⟩ := onGaze_of_accepted i s (by rw [h]; rfl)
  rw [he] at h ⊢
  have := dwellStep_retarget _ _ _ f h
  rw [hk] at this
  exact this

theorem onGaze_dwelling (i : GazeInput) (s : Session) (f : Found)
    (h : (onGaze i s).2 = Outcome.dwelling f) :
    s.currentKey = some f.key ∧ i.tDwell - s.startAt < DWELL_THRESHOLD_MS ∧
      (onGaze i s).1.currentKey = s.currentKey ∧ (onGaze i s).1.startAt = s.startAt := by
  obtain ⟨s1, found, hk, ht, he⟩ := onGaze_of_accepted i s (by rw [h]; rfl)
  rw [he] at h ⊢
  obtain ⟨h1, h2, h3⟩ := dwellStep_dwelling _ _ _ f h
  rw [h3]
  exact ⟨hk ▸ h1, ht ▸ h2, hk, ht⟩

theorem onGaze_fired (i : GazeInput) (s : Session) (f : Found)
    (h : (onGaze i s).2 = Outcome.fired f) :
    s.currentKey = some f.key ∧ DWELL_THRESHOLD_MS ≤ i.tDwell - s.startAt ∧
      (onGaze i s).1.currentKey = some f.key ∧ (onGaze i s).1.startAt = i.tDwell + 800 := by
  obtain ⟨s1, found, hk, ht, he⟩ := onGaze_of_accepted i s (by rw [h]; rfl)
  rw [he] at h ⊢
  obtain ⟨h1, h2, h3, h4⟩ := dwellStep_fired _ _ _ f h
  exact ⟨hk ▸ h1, ht ▸ h2, h3, h4⟩

/-- The dwell invariant over a trace: when a unit is being tracked, the trace
ends with a block of samples all resolved to that unit, the first of them
taken no later than `startAt`. -/
theorem dwell_block_step (i : GazeInput) (s : Session) (past : List Event)
    (hacc : (onGaze i s).2.accepted = true)
    (hinv : ∀ k, s.currentKey = some k → ∃ (pre1 : List Event) (y : Event) (blk : List Event),
      past = pre1 ++ y :: blk ∧ y.1 ≤ s.startAt ∧ ∀ z ∈ y :: blk, z.2.unit = some k) :
    ∀ k, (onGaze i s).1.currentKey = some k →
      ∃ (pre1 : List Event) (y : Event) (blk : List Event),
        past ++ [(i.tDwell, (onGaze i s).2)] = pre1 ++ y :: blk ∧
          y.1 ≤ (onGaze i s).1.startAt ∧ ∀ z ∈ y :: blk, z.2.unit = some k := by
  intro k hk
  cases ho : (onGaze i s).2 with
  | disabled => rw [ho] at hacc; exact absurd hacc (by decide)
  | missing => rw [ho] at hacc; exact absurd hacc (by decide)
  | typeError => rw [ho] at hacc; exact absurd hacc (by decide)
  | rejected => rw [ho] at hacc; exact absurd hacc (by decide)
  | lost =>
    have := (onGaze_lost i s ho).1
    rw [this] at hk
    exact absurd hk (by simp)
  | retarget f =>
    obtain ⟨_, h2, h3⟩ := onGaze_retarget i s f ho
    rw [h2] at hk
    injection hk with hk
    subst hk
    refine ⟨past, (i.tDwell, Outcome.retarget f), [], rfl, ?_, ?_⟩
    · rw [h3]
    · intro z hz
      simp only [List.mem_singleton] at hz
      subst hz
      rfl
  | dwelling f =>
    obtain ⟨h1, _, h3, h4⟩ := onGaze_dwelling i s f ho
    rw [h3, h1] at hk
    injection hk with hk
    subst hk
    obtain ⟨pre1, y, blk, hp, hy, hall⟩ := hinv f.key h1
    refine ⟨pre1, y, blk ++ [(i.tDwell, Outcome.dwelling f)], ?_, ?_, ?_⟩
    · rw [hp]; simp
    · rw [h4]; exact hy
    · intro z hz
      rw [← List.cons_append, List.mem_append] at hz
      rcases hz with hz | hz
      · exact hall z hz
      · simp only [List.mem_singleton] at hz
        subst hz
        rfl
  | fired f =>
    obtain ⟨h1, h2, h3, h4⟩ := onGaze_fired i s f ho
    rw [h3] at hk
    injection hk with hk
    subst hk
    obtain ⟨pre1, y, blk, hp, hy, hall⟩ := hinv f.key h1
    refine ⟨pre1, y, blk ++ [(i.tDwell, Outcome.fired f)], ?_, ?_, ?_⟩
    · rw [hp]; simp
    · rw [h4]
      unfold DWELL_THRESHOLD_MS at h2
      linarith
    · intro z hz
      rw [← List.cons_append, List.mem_append] at hz
      rcases hz with hz | hz
      · exact hall z hz
      · simp only [List.mem_singleton] at hz
        subst hz
        rfl

theorem dwell_block_run (ins : List GazeInput) :
    ∀ (s : Session) (past pre post : List Event) (t : ℚ) (f : Found),
      (∀ k, s.currentKey = some k → ∃ (pre1 : List Event) (y : Event) (blk : List Event),
        past = pre1 ++ y :: blk ∧ y.1 ≤ s.startAt ∧ ∀ z ∈ y :: blk, z.2.unit = some k) →
      (onGazeRun s ins).2 = pre ++ (t, Outcome.fired f) :: post →
      (∀ e ∈ pre, e.2.accepted = true) →
      ∃ (pre1 : List Event) (y : Event) (blk : List Event),
        past ++ pre = pre1 ++ y :: blk ∧ y.1 ≤ t - 1500 ∧
          ∀ z ∈ y :: blk, z.2.unit = some f.key := by
  induction ins with
  | nil =>
    intro s past pre post t f _ htr _
    simp [onGazeRun] at htr
  | cons i rest ih =>
    intro s past pre post t f hinv htr hacc
    simp only [onGazeRun] at htr
    cases pre with
    | nil =>
      simp only [List.nil_append, List.cons.injEq, Prod.mk.injEq] at htr
      obtain ⟨⟨ht, ho⟩, _⟩ := htr
      obtain ⟨h1, h2, _, _⟩ := onGaze_fired i s f ho
      obtain ⟨pre1, y, blk, hp, hy, hall⟩ := hinv f.key h1
      refine ⟨pre1, y, blk, by simpa using hp, ?_, hall⟩
      unfold DWELL_THRESHOLD_MS at h2
      rw [← ht]
      linarith
    | cons e pre' =>
      simp only [List.cons_append, List.cons.injEq] at htr
      obtain ⟨he, htr'⟩ := htr
      have hacc_e : (onGaze i s).2.accepted = true := by
        have := hacc e (List.mem_cons_self _ _)
        rw [← he] at this
        exact this
      have hinv' := dwell_block_step i s past hacc_e hinv
      rw [he] at hinv'
      obtain ⟨pre1, y, blk, hp, hy, hall⟩ :=
        ih (onGaze i s).1 (past ++ [e]) pre' post t f hinv' htr'
          (fun e' he' => hacc e' (List.mem_cons_of_mem _ he'))
      exact ⟨pre1, y, blk, by simpa using hp, hy, hall⟩
/-- C1: in a run of `onGaze` from an idle session over accepted samples, a
trigger for a unit at time `t` only fires if there is a time `s ≤ t - 1500`,
the time of an earlier sample, such that every sample processed from that one
on resolved to the same unit (and, timestamps being strictly increasing, so
did every sample with a timestamp between `s` and `t`); and a sample resolving
to a unit other than the tracked one sets `currentKey` to it, restarts the
timer at that sample's time and fires nothing. -/
theorem dwell_requires_continuous_residence
    (s0 : Session) (ins : List GazeInput) (pre post : List Event) (t : ℚ) (f : Found)
    (hidle : s0.currentKey = none)
    (htr : (onGazeRun s0 ins).2 = pre ++ (t, Outcome.fired f) :: post)
    (hacc : ∀ e ∈ pre, e.2.accepted = true) :
    (∃ s : ℚ, s ≤ t - 1500 ∧
      (∃ (pre1 : List Event) (y : Event) (blk : List Event),
        pre = pre1 ++ y :: blk ∧ y.1 = s ∧ ∀ z ∈ y :: blk, z.2.unit = some f.key) ∧
      (pre.Pairwise (fun a b => a.1 < b.1) →
        ∀ z ∈ pre, s ≤ z.1 → z.2.unit = some f.key)) ∧
    (∀ (i : GazeInput) (s : Session) (k : String),
      (onGaze i s).2.unit = some k → s.currentKey ≠ some k →
        (onGaze i s).1.currentKey = some k ∧ (onGaze i s).1.startAt = i.tDwell ∧
          ∀ g : Found, (onGaze i s).2 ≠ Outcome.fired g) := by
  constructor
  · obtain ⟨pre1, y, blk, hp, hy, hall⟩ :=
      dwell_block_run ins s0 [] pre post t f (by intro k hk; rw [hidle] at hk; simp at hk)
        htr hacc
    simp only [List.nil_append] at hp
    refine ⟨y.1, hy, ⟨pre1, y, blk, hp, rfl, hall⟩, ?_⟩
    intro hpw z hz hsz
    rw [hp] at hpw hz
    rw [List.mem_append] at hz
    rcases hz with hz | hz
    · have := (List.pairwise_append.mp hpw).2.2 z hz y (List.mem_cons_self _ _)
      exact absurd this (not_lt.mpr hsz)
    · exact hall z hz
  · intro i s k hu hk
    cases ho : (onGaze i s).2 with
    | disabled => rw [ho] at hu; simp [Outcome.unit] at hu
    | missing => rw [ho] at hu; simp [Outcome.unit] at hu
    | typeError => rw [ho] at hu; simp [Outcome.unit] at hu
    | rejected => rw [ho] at hu; simp [Outcome.unit] at hu
    | lost => rw [ho] at hu; simp [Outcome.unit] at hu
    | retarget g =>
      rw [ho] at hu
      simp only [Outcome.unit, Option.some.injEq] at hu
      obtain ⟨_, h2, h3⟩ := onGaze_retarget i s g ho
      rw [hu] at h2
      exact ⟨h2, h3, fun g' h => by simp at h⟩
    | dwelling g =>
      rw [ho] at hu
      simp only [Outcome.unit, Option.some.injEq] at hu
      have := (onGaze_dwelling i s g ho).1
      rw [hu] at this
      exact absurd this hk
    | fired g =>
      rw [ho] at hu
      simp only [Outcome.unit, Option.some.injEq] at hu
      have := (onGaze_fired i s g ho).1
      rw [hu] at this
      exact absurd this hk

/-! ### The scenario of the specification: unit A at t = 0, 1400, 1600, 1650 -/

theorem lookAt_from_init (f : Found) (t : ℚ) :
    onGaze (lookAt (some f) t) Session.init =
      (tracking t (some f.key) t, Outcome.retarget f) := by
  rw [onGaze_lookAt _ _ _ rfl (Or.inl rfl)]
  simp [dwellStep, Session.init, tracking]

theorem lookAt_other (f : Found) (t0 st t : ℚ) (k : Option String) (hk : k ≠ some f.key) :
    onGaze (lookAt (some f) t) (tracking t0 k st) =
      (tracking t (some f.key) t, Outcome.retarget f) := by
  rw [onGaze_lookAt _ _ _ rfl (Or.inr ⟨t0, rfl⟩)]
  simp [dwellStep, Session.init, tracking, hk]

theorem lookAt_wait (f : Found) (t0 st t : ℚ) (h : t - st < 1500) :
    onGaze (lookAt (some f) t) (tracking t0 (some f.key) st) =
      (tracking t (some f.key) st, Outcome.dwelling f) := by
  rw [onGaze_lookAt _ _ _ rfl (Or.inr ⟨t0, rfl⟩)]
  simp [dwellStep, Session.init, tracking, DWELL_THRESHOLD_MS, h]

theorem lookAt_fire (f : Found) (t0 st t : ℚ) (h : 1500 ≤ t - st) :
    onGaze (lookAt (some f) t) (tracking t0 (some f.key) st) =
      (tracking t (some f.key) (t + 800), Outcome.fired f) := by
  rw [onGaze_lookAt _ _ _ rfl (Or.inr ⟨t0, rfl⟩)]
  simp [dwellStep, Session.init, tracking, DWELL_THRESHOLD_MS, h]

theorem scenario_run :
    onGazeRun Session.init
        [lookAt (some unitA) 0, lookAt (some unitA) 1400, lookAt (some unitA) 1600,
          lookAt (some unitA) 1650] =
      (tracking 1650 (some unitA.key) 2400,
        [(0, Outcome.retarget unitA), (1400, Outcome.dwelling unitA),
          (1600, Outcome.fired unitA), (1650, Outcome.dwelling unitA)]) := by
  have e0 := lookAt_from_init unitA 0
  have e1 := lookAt_wait unitA 0 0 1400 (by norm_num)
  have e2 := lookAt_fire unitA 1400 0 1600 (by norm_num)
  have e3 := lookAt_wait unitA 1600 (1600 + 800) 1650 (by norm_num)
  simp only [onGazeRun, e0, e1, e2, e3]
  norm_num [lookAt]

/-- Glancing from A to B and back never accumulates dwell time: A at 0, B at
1000, A at 1600 only retargets. -/
theorem glance_run :
    onGazeRun Session.init
        [lookAt (some unitA) 0, lookAt (some unitB) 1000, lookAt (some unitA) 1600] =
      (tracking 1600 (some unitA.key) 1600,
        [(0, Outcome.retarget unitA), (1000, Outcome.retarget unitB),
          (1600, Outcome.retarget unitA)]) := by
  have e0 := lookAt_from_init unitA 0
  have e1 := lookAt_other unitB 0 0 1000 (some unitA.key) (by decide)
  have e2 := lookAt_other unitA 1000 1000 1600 (some unitB.key) (by decide)
  simp only [onGazeRun, e0, e1, e2]
  norm_num [lookAt]

/-- Witness for C1: unit A at t = 0, 1400, 1600, 1650 fires at 1600. -/
theorem dwell_requires_continuous_residence_witness :
    (∃ s : ℚ, s ≤ 1600 - 1500 ∧
      (∃ (pre1 : List Event) (y : Event) (blk : List Event),
        [((0 : ℚ), Outcome.retarget unitA), (1400, Outcome.dwelling unitA)] = pre1 ++ y :: blk ∧
          y.1 = s ∧ ∀ z ∈ y :: blk, z.2.unit = some unitA.key) ∧
      (([((0 : ℚ), Outcome.retarget unitA), (1400, Outcome.dwelling unitA)] :
          List Event).Pairwise (fun a b => a.1 < b.1) →
        ∀ z ∈ ([((0 : ℚ), Outcome.retarget unitA), (1400, Outcome.dwelling unitA)] :
            List Event),
          s ≤ z.1 → z.2.unit = some unitA.key)) ∧
    (∀ (i : GazeInput) (s : Session) (k : String),
      (onGaze i s).2.unit = some k → s.currentKey ≠ some k →
        (onGaze i s).1.currentKey = some k ∧ (onGaze i s).1.startAt = i.tDwell ∧
          ∀ g : Found, (onGaze i s).2 ≠ Outcome.fired g) :=
  dwell_requires_continuous_residence Session.init
    [lookAt (some unitA) 0, lookAt (some unitA) 1400, lookAt (some unitA) 1600,
      lookAt (some unitA) 1650]
    [(0, Outcome.retarget unitA), (1400, Outcome.dwelling unitA)]
    [(1650, Outcome.dwelling unitA)] 1600 unitA rfl
    (by rw [scenario_run]; rfl)
    (by intro e he; simp only [List.mem_cons, List.mem_singleton, List.not_mem_nil, or_false] at he
        rcases he with he | he <;> subst he <;> rfl)
/-- While every sample resolves to the tracked unit, a trigger cannot come
earlier than 1500 ms after any lower bound of `startAt`. -/
theorem suppressed_run (ins : List GazeInput) :
    ∀ (s : Session) (k : String) (lo : ℚ) (mid post : List Event) (t : ℚ) (g : Found),
      s.currentKey = some k → lo ≤ s.startAt →
      (onGazeRun s ins).2 = mid ++ (t, Outcome.fired g) :: post →
      (∀ e ∈ mid, e.2.unit = some k) → lo + 1500 ≤ t := by
  induction ins with
  | nil =>
    intro s k lo mid post t g _ _ htr _
    simp [onGazeRun] at htr
  | cons i rest ih =>
    intro s k lo mid post t g hk hlo htr hmid
    simp only [onGazeRun] at htr
    cases mid with
    | nil =>
      simp only [List.nil_append, List.cons.injEq, Prod.mk.injEq] at htr
      obtain ⟨⟨ht, ho⟩, _⟩ := htr
      obtain ⟨_, h2, _, _⟩ := onGaze_fired i s g ho
      unfold DWELL_THRESHOLD_MS at h2
      rw [← ht]
      linarith
    | cons e mid' =>
      simp only [List.cons_append, List.cons.injEq] at htr
      obtain ⟨he, htr'⟩ := htr
      have hu := hmid e (List.mem_cons_self _ _)
      rw [← he] at hu
      have hmid' : ∀ e' ∈ mid', e'.2.unit = some k :=
        fun e' he' => hmid e' (List.mem_cons_of_mem _ he')
      cases ho : (onGaze i s).2 with
      | disabled => rw [ho] at hu; simp [Outcome.unit] at hu
      | missing => rw [ho] at hu; simp [Outcome.unit] at hu
      | typeError => rw [ho] at hu; simp [Outcome.unit] at hu
      | rejected => rw [ho] at hu; simp [Outcome.unit] at hu
      | lost => rw [ho] at hu; simp [Outcome.unit] at hu
      | retarget f =>
        rw [ho] at hu
        simp only [Outcome.unit, Option.some.injEq] at hu
        have := (onGaze_retarget i s f ho).1
        rw [hu] at this
        exact absurd hk this
      | dwelling f =>
        obtain ⟨_, _, h3, h4⟩ := onGaze_dwelling i s f ho
        exact ih (onGaze i s).1 k lo mid' post t g (by rw [h3, hk]) (by rw [h4]; exact hlo)
          htr' hmid'
      | fired f =>
        rw [ho] at hu
        simp only [Outcome.unit, Option.some.injEq] at hu
        obtain ⟨_, h2, h3, h4⟩ := onGaze_fired i s f ho
        unfold DWELL_THRESHOLD_MS at h2
        exact ih (onGaze i s).1 k lo mid' post t g (by rw [h3, hu])
          (by rw [h4]; linarith) htr' hmid'

theorem suppressed_after_fire (ins : List GazeInput) :
    ∀ (s : Session) (pre mid post : List Event) (T t : ℚ) (f g : Found),
      (onGazeRun s ins).2 = pre ++ (T, Outcome.fired f) :: (mid ++ (t, Outcome.fired g) :: post) →
      (∀ e ∈ mid, e.2.unit = some f.key) → T + 800 + 1500 ≤ t := by
  induction ins with
  | nil =>
    intro s pre mid post T t f g htr _
    simp [onGazeRun] at htr
  | cons i rest ih =>
    intro s pre mid post T t f g htr hmid
    simp only [onGazeRun] at htr
    cases pre with
    | nil =>
      simp only [List.nil_append, List.cons.injEq, Prod.mk.injEq] at htr
      obtain ⟨⟨ht, ho⟩, htr'⟩ := htr
      obtain ⟨_, _, h3, h4⟩ := onGaze_fired i s f ho
      exact suppressed_run rest (onGaze i s).1 f.key (T + 800) mid post t g h3
        (by rw [h4, ht]) htr' hmid
    | cons e pre' =>
      simp only [List.cons_append, List.cons.injEq] at htr
      exact ih (onGaze i s).1 pre' mid post T t f g htr.2 hmid

/-- C2: with the threshold 1500 ms and samples all resolving to unit A at
t = 0, 1400, 1600 and 1650, nothing fires at 0 and 1400, one trigger fires at
1600 and none at 1650; and in any run, after a trigger at time `T`, as long as
every sample keeps resolving to the same unit, no further trigger fires at a
sample time earlier than `T + 800`. -/
theorem dwell_scenario_and_suppression :
    (onGazeRun Session.init
        [lookAt (some unitA) 0, lookAt (some unitA) 1400, lookAt (some unitA) 1600,
          lookAt (some unitA) 1650]).2 =
      [(0, Outcome.retarget unitA), (1400, Outcome.dwelling unitA),
        (1600, Outcome.fired unitA), (1650, Outcome.dwelling unitA)] ∧
    ∀ (s0 : Session) (ins : List GazeInput) (pre mid post : List Event) (T t : ℚ)
      (f g : Found),
      (onGazeRun s0 ins).2 =
          pre ++ (T, Outcome.fired f) :: (mid ++ (t, Outcome.fired g) :: post) →
        (∀ e ∈ mid, e.2.unit = some f.key) → ¬ t < T + 800 := by
  refine ⟨by rw [scenario_run], ?_⟩
  intro s0 ins pre mid post T t f g htr hmid
  have := suppressed_after_fire ins s0 pre mid post T t f g htr hmid
  intro hlt
  linarith

theorem long_run :
    onGazeRun Session.init
        [lookAt (some unitA) 0, lookAt (some unitA) 1600, lookAt (some unitA) 2500,
          lookAt (some unitA) 3900] =
      (tracking 3900 (some unitA.key) 4700,
        [(0, Outcome.retarget unitA), (1600, Outcome.fired unitA),
          (2500, Outcome.dwelling unitA), (3900, Outcome.fired unitA)]) := by
  have e0 := lookAt_from_init unitA 0
  have e1 := lookAt_fire unitA 0 0 1600 (by norm_num)
  have e2 := lookAt_wait unitA 1600 (1600 + 800) 2500 (by norm_num)
  have e3 := lookAt_fire unitA 2500 (1600 + 800) 3900 (by norm_num)
  simp only [onGazeRun, e0, e1, e2, e3]
  norm_num [lookAt]

/-- Witness for C2: in the run A at 0, 1600, 2500, 3900 the triggers fire at
1600 and at 3900, which is not earlier than 1600 + 800. -/
theorem dwell_scenario_and_suppression_witness :
    (onGazeRun Session.init
        [lookAt (some unitA) 0, lookAt (some unitA) 1600, lookAt (some unitA) 2500,
          lookAt (some unitA) 3900]).2 =
      [(0, Outcome.retarget unitA)] ++ (1600, Outcome.fired unitA) ::
        ([(2500, Outcome.dwelling unitA)] ++ (3900, Outcome.fired unitA) :: []) ∧
    (∀ e ∈ ([(2500, Outcome.dwelling unitA)] : List Event), e.2.unit = some unitA.key) ∧
    ¬ (3900 : ℚ) < 1600 + 800 :=
  have htr : (onGazeRun Session.init
        [lookAt (some unitA) 0, lookAt (some unitA) 1600, lookAt (some unitA) 2500,
          lookAt (some unitA) 3900]).2 =
      [(0, Outcome.retarget unitA)] ++ (1600, Outcome.fired unitA) ::
        ([(2500, Outcome.dwelling unitA)] ++ (3900, Outcome.fired unitA) :: []) := by
    rw [long_run]; rfl
  have hmid : ∀ e ∈ ([(2500, Outcome.dwelling unitA)] : List Event),
      e.2.unit = some unitA.key := by
    intro e he; simp only [List.mem_singleton] at he; subst he; rfl
  ⟨htr, hmid, dwell_scenario_and_suppression.2 Session.init
    [lookAt (some unitA) 0, lookAt (some unitA) 1600, lookAt (some unitA) 2500,
      lookAt (some unitA) 3900]
    [(0, Outcome.retarget unitA)] [(2500, Outcome.dwelling unitA)] [] 1600 3900 unitA unitA
    htr hmid⟩
/-- While every sample resolves to the tracked unit at a time earlier than
`startAt + 1500`, every call ends without a trigger and leaves the dwell
variables as they were. -/
theorem waiting_run (ins : List GazeInput) :
    ∀ (s : Session) (k : String),
      s.currentKey = some k →
      (∀ e ∈ (onGazeRun s ins).2, e.2.unit = some k ∧ e.1 < s.startAt + 1500) →
      (∀ e ∈ (onGazeRun s ins).2, ∃ g : Found, e.2 = Outcome.dwelling g) ∧
        (onGazeRun s ins).1.currentKey = some k ∧
        (onGazeRun s ins).1.startAt = s.startAt := by
  induction ins with
  | nil =>
    intro s k hk _
    simp [onGazeRun, hk]
  | cons i rest ih =>
    intro s k hk hall
    simp only [onGazeRun] at hall ⊢
    have h0 := hall (i.tDwell, (onGaze i s).2) (List.mem_cons_self _ _)
    obtain ⟨hu, ht⟩ := h0
    simp only at hu ht
    cases ho : (onGaze i s).2 with
    | disabled => rw [ho] at hu; simp [Outcome.unit] at hu
    | missing => rw [ho] at hu; simp [Outcome.unit] at hu
    | typeError => rw [ho] at hu; simp [Outcome.unit] at hu
    | rejected => rw [ho] at hu; simp [Outcome.unit] at hu
    | lost => rw [ho] at hu; simp [Outcome.unit] at hu
    | retarget f =>
      rw [ho] at hu
      simp only [Outcome.unit, Option.some.injEq] at hu
      have := (onGaze_retarget i s f ho).1
      rw [hu] at this
      exact absurd hk this
    | fired f =>
      have := (onGaze_fired i s f ho).2.1
      unfold DWELL_THRESHOLD_MS at this
      linarith
    | dwelling f =>
      obtain ⟨_, _, h3, h4⟩ := onGaze_dwelling i s f ho
      have hrest := ih (onGaze i s).1 k (by rw [h3, hk])
        (fun e he => by
          have := hall e (List.mem_cons_of_mem _ he)
          rw [h4]
          exact this)
      refine ⟨?_, hrest.2.1, by rw [hrest.2.2, h4]⟩
      intro e he
      rw [List.mem_cons] at he
      rcases he with he | he
      · exact ⟨f, by rw [he]⟩
      · exact hrest.1 e he

/-- C3, as the code has it: a trigger at time `T` on unit A sets
`startAt = T + 800`; while later samples keep resolving to A at times earlier
than `T + 2300` they fire nothing and leave `startAt` at `T + 800` (it is not
moved to the time of the first sample at or after `T + 800`); and the first
sample on A at or after `T + 2300 = T + 800 + 1500` fires the next trigger. -/
theorem retrigger_at_T_plus_2300 (i : GazeInput) (s : Session) (f : Found)
    (ins : List GazeInput) (j : GazeInput)
    (hfire : (onGaze i s).2 = Outcome.fired f)
    (hmid : ∀ e ∈ (onGazeRun (onGaze i s).1 ins).2,
      e.2.unit = some f.key ∧ e.1 < i.tDwell + 2300)
    (hj : (onGaze j (onGazeRun (onGaze i s).1 ins).1).2.unit = some f.key)
    (hjt : i.tDwell + 2300 ≤ j.tDwell) :
    (onGaze i s).1.startAt = i.tDwell + 800 ∧
      (∀ e ∈ (onGazeRun (onGaze i s).1 ins).2, ∃ g : Found, e.2 = Outcome.dwelling g) ∧
      (onGazeRun (onGaze i s).1 ins).1.startAt = i.tDwell + 800 ∧
      ∃ g : Found, (onGaze j (onGazeRun (onGaze i s).1 ins).1).2 = Outcome.fired g ∧
        g.key = f.key := by
  obtain ⟨_, _, h3, h4⟩ := onGaze_fired i s f hfire
  obtain ⟨w1, w2, w3⟩ := waiting_run ins (onGaze i s).1 f.key h3
    (fun e he => by
      have := hmid e he
      rw [h4]
      exact ⟨this.1, by linarith [this.2]⟩)
  refine ⟨h4, w1, by rw [w3, h4], ?_⟩
  cases ho : (onGaze j (onGazeRun (onGaze i s).1 ins).1).2 with
  | disabled => rw [ho] at hj; simp [Outcome.unit] at hj
  | missing => rw [ho] at hj; simp [Outcome.unit] at hj
  | typeError => rw [ho] at hj; simp [Outcome.unit] at hj
  | rejected => rw [ho] at hj; simp [Outcome.unit] at hj
  | lost => rw [ho] at hj; simp [Outcome.unit] at hj
  | retarget g =>
    rw [ho] at hj
    simp only [Outcome.unit, Option.some.injEq] at hj
    have := (onGaze_retarget j _ g ho).1
    rw [hj] at this
    exact absurd w2 this
  | dwelling g =>
    have := (onGaze_dwelling j _ g ho).2.1
    unfold DWELL_THRESHOLD_MS at this
    rw [w3, h4] at this
    linarith
  | fired g =>
    rw [ho] at hj
    simp only [Outcome.unit, Option.some.injEq] at hj
    exact ⟨g, rfl, hj⟩

theorem rearm_prefix_run :
    onGazeRun Session.init
        [lookAt (some unitA) 0, lookAt (some unitA) 1600, lookAt (some unitA) 2500] =
      (tracking 2500 (some unitA.key) 2400,
        [(0, Outcome.retarget unitA), (1600, Outcome.fired unitA),
          (2500, Outcome.dwelling unitA)]) := by
  have e0 := lookAt_from_init unitA 0
  have e1 := lookAt_fire unitA 0 0 1600 (by norm_num)
  have e2 := lookAt_wait unitA 1600 (1600 + 800) 2500 (by norm_num)
  simp only [onGazeRun, e0, e1, e2]
  norm_num [lookAt]

/-- C3 refuted as stated: unit A at t = 0, 1600, 2500, 3900. The trigger at
T = 1600 suppresses until 2400; the first later sample, at s = 2500 ≥ 2400,
leaves `startAt` at 2400 instead of setting it to 2500, and the next trigger
fires at 3900, before s + 1500 = 4000. -/
theorem rearm_not_at_first_sample :
    (onGazeRun Session.init
        [lookAt (some unitA) 0, lookAt (some unitA) 1600, lookAt (some unitA) 2500]).1.startAt
        = 2400 ∧
      (onGazeRun Session.init
        [lookAt (some unitA) 0, lookAt (some unitA) 1600, lookAt (some unitA) 2500]).1.startAt
        ≠ 2500 ∧
      (onGazeRun Session.init
        [lookAt (some unitA) 0, lookAt (some unitA) 1600, lookAt (some unitA) 2500,
          lookAt (some unitA) 3900]).2 =
        [(0, Outcome.retarget unitA), (1600, Outcome.fired unitA),
          (2500, Outcome.dwelling unitA), (3900, Outcome.fired unitA)] ∧
      (1600 : ℚ) + 800 ≤ 2500 ∧ (3900 : ℚ) < 2500 + 1500 := by
  rw [rearm_prefix_run, long_run]
  refine ⟨rfl, ?_, rfl, ?_, ?_⟩
  · simp [tracking]
  · norm_num
  · norm_num
/-- Witness for C3: unit A fires at T = 1600, is looked at again at 2500 and
fires next at 3900 = T + 2300. -/
theorem retrigger_at_T_plus_2300_witness :
    (onGaze (lookAt (some unitA) 1600) (tracking 0 (some unitA.key) 0)).2 = Outcome.fired unitA ∧
      (lookAt (some unitA) 1600).tDwell + 2300 ≤ (lookAt (some unitA) 3900).tDwell ∧
      ((onGaze (lookAt (some unitA) 1600) (tracking 0 (some unitA.key) 0)).1.startAt =
          (lookAt (some unitA) 1600).tDwell + 800 ∧
        (∀ e ∈ (onGazeRun (onGaze (lookAt (some unitA) 1600) (tracking 0 (some unitA.key) 0)).1
            [lookAt (some unitA) 2500]).2, ∃ g : Found, e.2 = Outcome.dwelling g) ∧
        (onGazeRun (onGaze (lookAt (some unitA) 1600) (tracking 0 (some unitA.key) 0)).1
            [lookAt (some unitA) 2500]).1.startAt = (lookAt (some unitA) 1600).tDwell + 800 ∧
        ∃ g : Found,
          (onGaze (lookAt (some unitA) 3900)
            (onGazeRun (onGaze (lookAt (some unitA) 1600) (tracking 0 (some unitA.key) 0)).1
              [lookAt (some unitA) 2500]).1).2 = Outcome.fired g ∧ g.key = unitA.key) :=
  have e1 := lookAt_fire unitA 0 0 1600 (by norm_num)
  have e2 := lookAt_wait unitA 1600 (1600 + 800) 2500 (by norm_num)
  have e3 := lookAt_fire unitA 2500 (1600 + 800) 3900 (by norm_num)
  have hrun : onGazeRun (onGaze (lookAt (some unitA) 1600) (tracking 0 (some unitA.key) 0)).1
      [lookAt (some unitA) 2500] =
        (tracking 2500 (some unitA.key) (1600 + 800), [(2500, Outcome.dwelling unitA)]) := by
    simp only [onGazeRun, e1, e2]
    rfl
  ⟨by rw [e1], by norm_num [lookAt],
    retrigger_at_T_plus_2300 (lookAt (some unitA) 1600) (tracking 0 (some unitA.key) 0) unitA
      [lookAt (some unitA) 2500] (lookAt (some unitA) 3900) (by rw [e1])
      (by
        rw [hrun]
        intro e he
        simp only [List.mem_singleton] at he
        subst he
        exact ⟨rfl, by norm_num [lookAt]⟩)
      (by rw [hrun]; simp only [e3]; rfl)
      (by norm_num [lookAt])⟩
/-! ### The minimum text length -/

theorem jsTrim_length_le (s : JSString) : (jsTrim s).length ≤ s.length :=
  le_trans (List.rdropWhile_prefix isTrimUnit _).length_le
    (List.dropWhile_suffix isTrimUnit).length_le

theorem triggerSummaryForParagraph_short (f : Found) (h : f.text.length < 25) :
    triggerSummaryForParagraph f = none := by
  unfold triggerSummaryForParagraph
  have := jsTrim_length_le f.text
  simp only [ite_eq_left_iff, not_or, not_lt]
  intro hc
  omega

theorem dwellStep_fired_found (now : ℚ) (found : Option Found) (s : Session) (f : Found)
    (h : (dwellStep now found s).2 = Outcome.fired f) : found = some f := by
  unfold dwellStep at h
  cases found with
  | none => simp at h
  | some f0 =>
    dsimp only at h
    split at h
    · simp at h
    · split at h
      · simp only [Outcome.fired.injEq] at h
        rw [h]
      · simp at h

theorem onGaze_fired_found (i : GazeInput) (s : Session) (f : Found)
    (h : (onGaze i s).2 = Outcome.fired f) : ∃ x y, i.findParagraphAt x y = some f := by
  by_cases hen : s.eyeTrackingEnabled = true
  · by_cases hd : i.data.falsy = true
    · rw [onGaze_missing i s hen hd] at h
      split at h <;> simp at h
    · simp only [Bool.not_eq_true] at hd
      rcases hn : normalizeAndSmooth i.win i.tSmooth i.data s.gazeState with ⟨g1, _ | p⟩
      · simp [onGaze, hen, hd, hn] at h
      · rcases hv : checkVelocity g1 (clampToWindow i.win p) i.tVel with ⟨_ | _, g2⟩
        · simp [onGaze, hen, hd, hn, hv] at h
        · rw [onGaze_accepted i s g1 g2 p hen hd hn hv] at h
          exact ⟨_, _, dwellStep_fired_found _ _ _ f h⟩
  · simp [onGaze, hen] at h

theorem dwellStep_text_irrelevant (now : ℚ) (found : Option Found) (s : Session)
    (text : JSString) :
    (dwellStep now (found.map fun f => { f with text := text }) s).1 =
      (dwellStep now found s).1 := by
  unfold dwellStep
  cases found with
  | none => rfl
  | some f =>
    have hkey : ({ f with text := text } : Found).key = f.key := rfl
    simp only [Option.map_some', hkey]
    split
    · rfl
    · split <;> rfl

theorem onGaze_text_irrelevant (i i' : GazeInput) (s : Session) (text : JSString)
    (hdata : i'.data = i.data) (hwin : i'.win = i.win) (hts : i'.tSmooth = i.tSmooth)
    (htv : i'.tVel = i.tVel) (htd : i'.tDwell = i.tDwell)
    (hfind : ∀ x y, i'.findParagraphAt x y =
      (i.findParagraphAt x y).map fun f => { f with text := text }) :
    (onGaze i' s).1 = (onGaze i s).1 := by
  by_cases hen : s.eyeTrackingEnabled = true
  · by_cases hd : i.data.falsy = true
    · rw [onGaze_missing i s hen hd, onGaze_missing i' s hen (by rw [hdata]; exact hd)]
    · simp only [Bool.not_eq_true] at hd
      rcases hn : normalizeAndSmooth i.win i.tSmooth i.data s.gazeState with ⟨g1, _ | p⟩
      · simp [onGaze, hen, hd, hn, hdata, hwin, hts]
      · rcases hv : checkVelocity g1 (clampToWindow i.win p) i.tVel with ⟨_ | _, g2⟩
        · simp [onGaze, hen, hd, hn, hv, hdata, hwin, hts, htv]
        · rw [onGaze_accepted i s g1 g2 p hen hd hn hv,
            onGaze_accepted i' s g1 g2 p hen (by rw [hdata]; exact hd)
              (by rw [hdata, hwin, hts]; exact hn) (by rw [hwin, htv]; exact hv),
            hfind, htd, hwin]
          exact dwellStep_text_irrelevant _ _ _ text
  · simp [onGaze, hen]

/-- C4: when every unit the document resolves to has an extracted text of
fewer than 25 characters, a call of `onGaze` leads to no summary request and no
popup, whether or not the dwell threshold has elapsed; and the session after
the call (current key, timer and the rest) is the one the call would have
produced had the units carried any other text. -/
theorem short_text_never_summarized (i : GazeInput) (s : Session) (text : JSString)
    (hshort : ∀ x y f, i.findParagraphAt x y = some f → f.text.length < 25) :
    (onGaze i s).2.summary = none ∧
      (onGaze { i with findParagraphAt := fun x y =>
          (i.findParagraphAt x y).map fun f => { f with text := text } } s).1 =
        (onGaze i s).1 := by
  refine ⟨?_, onGaze_text_irrelevant i _ s text rfl rfl rfl rfl rfl (fun _ _ => rfl)⟩
  cases ho : (onGaze i s).2 with
  | fired f =>
    obtain ⟨x, y, hxy⟩ := onGaze_fired_found i s f ho
    exact triggerSummaryForParagraph_short f (hshort x y f hxy)
  | _ => rfl

theorem unitShort_length : unitShort.text.length = 10 := by decide

theorem unitA_summary :
    triggerSummaryForParagraph unitA =
      some { text := unitA.text, px := 658, py := 180 } := by
  have h1 : unitA.text ≠ [] := by decide
  have h2 : ¬ (jsTrim unitA.text).length < 25 := by decide
  simp only [triggerSummaryForParagraph, h1, h2, or_self, if_false]
  simp [unitA]
  norm_num

/-- Witness for C4: the 10-character unit is looked at for 2000 ms; the dwell
test passes and `triggerSummaryForParagraph` is called, but no summary is
requested. -/
theorem short_text_never_summarized_witness :
    (∀ x y f, (lookAt (some unitShort) 2000).findParagraphAt x y = some f →
        f.text.length < 25) ∧
      (onGaze (lookAt (some unitShort) 2000) (tracking 0 (some unitShort.key) 0)).2 =
        Outcome.fired unitShort ∧
      ((onGaze (lookAt (some unitShort) 2000) (tracking 0 (some unitShort.key) 0)).2.summary
          = none ∧
        (onGaze
          { lookAt (some unitShort) 2000 with
            findParagraphAt := fun x y =>
              Option.map (fun f => { f with text := unitA.text })
                ((lookAt (some unitShort) 2000).findParagraphAt x y) }
          (tracking 0 (some unitShort.key) 0)).1 =
          (onGaze (lookAt (some unitShort) 2000) (tracking 0 (some unitShort.key) 0)).1) :=
  have hshort : ∀ x y f, (lookAt (some unitShort) 2000).findParagraphAt x y = some f →
      f.text.length < 25 := by
    intro x y f hf
    simp only [lookAt, Option.some.injEq] at hf
    rw [← hf, unitShort_length]
    norm_num
  ⟨hshort, by rw [lookAt_fire unitShort 0 0 2000 (by norm_num)],
    short_text_never_summarized (lookAt (some unitShort) 2000)
      (tracking 0 (some unitShort.key) 0) unitA.text hshort⟩

/-! ### Malformed samples -/

theorem onGaze_malformed (i : GazeInput) (s : Session) (hen : s.eyeTrackingEnabled = true)
    (hd : i.data.falsy = false) (hn : normalizeRawToClient i.win i.data = none) :
    onGaze i s = ({ s with consecutiveNull := 0 }, Outcome.typeError) := by
  simp [onGaze, hen, hd, normalizeAndSmooth_of_null _ _ _ _ hn]

/-- C6, the code at the failing input: the non-null sample `{ x: 'left', y: 40 }`
reaches `pt.x` with `pt` null, so the call ends in a `TypeError`; the dwell
variables `currentKey` and `startAt` keep their values. -/
theorem onGaze_malformed_sample_throws :
    (malformedAt 600).data.falsy = false ∧
      normalizeAndSmooth (malformedAt 600).win (malformedAt 600).tSmooth (malformedAt 600).data
        trackingA.gazeState = (trackingA.gazeState, none) ∧
      (onGaze (malformedAt 600) trackingA).2 = Outcome.typeError ∧
      (onGaze (malformedAt 600) trackingA).1.currentKey = trackingA.currentKey ∧
      (onGaze (malformedAt 600) trackingA).1.startAt = trackingA.startAt := by
  have hn : normalizeRawToClient (malformedAt 600).win (malformedAt 600).data = none :=
    normalizeRawToClient_of_badX _ _ rfl
  rw [onGaze_malformed (malformedAt 600) trackingA rfl rfl hn]
  exact ⟨rfl, normalizeAndSmooth_of_null _ _ _ _ hn, rfl, rfl, rfl⟩

/-! ## Popup placement: properties -/

theorem clampToViewport_bounds (w : Window) (size : Size) (p : Placement) :
    8 ≤ (clampToViewport w size p).left ∧ 8 ≤ (clampToViewport w size p).top := by
  simp [clampToViewport]

theorem placePopup_no_selection (w : Window) (size : Size) (rect : Option Rect) (x y : ℚ) :
    placePopup w size rect x y none =
      clampToViewport w size (chooseSide w size (anchorOf rect x y)) :=
  rfl

/-- C15, as the code has it: for a popup of 200 by 100 and an anchor whose
space to the right fits the popup after padding
(`viewportWidth - anchor.right - 8 ≥ 200`), with no rectangle to avoid,
`placePopup` takes `(anchor.right + 8, anchor.top)` and clamps it to the
viewport; the result is exactly `(anchor.right + 8, anchor.top)` when the
anchor has at least 216 px of clearance to its right, `anchor.right ≥ 0` and
`8 ≤ anchor.top ≤ viewportHeight - 108`. -/
theorem placePopup_right_of_anchor (w : Window) (anchor : Rect) (x y : ℚ)
    (hright : w.innerWidth - anchor.right - 8 ≥ 200) :
    placePopup w { width := 200, height := 100 } (some anchor) x y none =
        { left := max 8 (min (anchor.right + 8) (w.innerWidth - 208))
          top := max 8 (min anchor.top (w.innerHeight - 108)) } ∧
      (0 ≤ anchor.right → anchor.right + 216 ≤ w.innerWidth → 8 ≤ anchor.top →
        anchor.top ≤ w.innerHeight - 108 →
        placePopup w { width := 200, height := 100 } (some anchor) x y none =
          { left := anchor.right + 8, top := anchor.top }) := by
  have hp : placePopup w { width := 200, height := 100 } (some anchor) x y none =
      { left := max 8 (min (anchor.right + 8) (w.innerWidth - 208))
        top := max 8 (min anchor.top (w.innerHeight - 108)) } := by
    rw [placePopup_no_selection]
    simp only [chooseSide, anchorOf, hright, if_true, clampToViewport]
    norm_num
    constructor <;> congr 2 <;> ring
  refine ⟨hp, ?_⟩
  intro h0 h216 h8 htop
  rw [hp]
  have h1 : min (anchor.right + 8) (w.innerWidth - 208) = anchor.right + 8 :=
    min_eq_left (by linarith)
  have h2 : min anchor.top (w.innerHeight - 108) = anchor.top := min_eq_left htop
  rw [h1, h2, max_eq_right (by linarith), max_eq_right h8]

/-- Witness for C15: an anchor in the upper left of a 1280 by 720 window. -/
theorem placePopup_right_of_anchor_witness :
    sampleWindow.innerWidth - anchorHigh.right - 8 ≥ 200 ∧
      (placePopup sampleWindow { width := 200, height := 100 } (some anchorHigh) 0 0 none =
          { left := max 8 (min (anchorHigh.right + 8) (sampleWindow.innerWidth - 208))
            top := max 8 (min anchorHigh.top (sampleWindow.innerHeight - 108)) } ∧
        (0 ≤ anchorHigh.right → anchorHigh.right + 216 ≤ sampleWindow.innerWidth →
          8 ≤ anchorHigh.top → anchorHigh.top ≤ sampleWindow.innerHeight - 108 →
          placePopup sampleWindow { width := 200, height := 100 } (some anchorHigh) 0 0 none =
            { left := anchorHigh.right + 8, top := anchorHigh.top })) :=
  have h : sampleWindow.innerWidth - anchorHigh.right - 8 ≥ 200 := by
    norm_num [sampleWindow, anchorHigh]
  ⟨h, placePopup_right_of_anchor sampleWindow anchorHigh 0 0 h⟩

/-- C15 refuted as stated: in a 1280 by 720 window the anchor
(100, 650, 300, 700) lies inside the viewport with 980 px of clearance to its
right, yet the 200 by 100 popup is placed at top 612, not at `anchor.top` = 650. -/
theorem placePopup_right_clamped_at_bottom :
    0 ≤ anchorLow.left ∧ 0 ≤ anchorLow.top ∧ anchorLow.right ≤ sampleWindow.innerWidth ∧
      anchorLow.bottom ≤ sampleWindow.innerHeight ∧
      200 ≤ sampleWindow.innerWidth - anchorLow.right ∧
      placePopup sampleWindow popup200x100 (some anchorLow) 0 0 none =
        { left := 308, top := 612 } ∧
      placePopup sampleWindow popup200x100 (some anchorLow) 0 0 none ≠
        { left := anchorLow.right + 8, top := anchorLow.top } := by
  have hp : placePopup sampleWindow popup200x100 (some anchorLow) 0 0 none =
      { left := 308, top := 612 } := by
    simp [placePopup, avoidSelection, chooseSide, anchorOf, clampToViewport, sampleWindow,
      popup200x100, anchorLow]
    norm_num
  refine ⟨?_, ?_, ?_, ?_, ?_, hp, ?_⟩
  · norm_num [anchorLow]
  · norm_num [anchorLow]
  · norm_num [anchorLow, sampleWindow]
  · norm_num [anchorLow, sampleWindow]
  · norm_num [anchorLow, sampleWindow]
  · rw [hp]
    simp [anchorLow]

/-- The fourth branch of `chooseSide`: when neither the right, nor the left,
nor the space below fits, the position is the viewport's right edge
horizontally and the place above the anchor vertically, each at least 8. -/
theorem chooseSide_fallback (w : Window) (size : Size) (target : Rect)
    (hr : w.innerWidth - target.right - 8 < size.width)
    (hl : target.left - 8 < size.width)
    (hb : w.innerHeight - target.bottom - 8 < size.height) :
    chooseSide w size target =
      { left := max 8 (w.innerWidth - size.width - 8)
        top := max 8 (target.top - size.height - 8) } := by
  simp [chooseSide, not_le.mpr hr, not_le.mpr hl, not_le.mpr hb]

/-- C16, as the code has it: for a popup of 200 by 100 and an anchor with
insufficient clearance on all four sides, with no rectangle to avoid,
`placePopup` outputs `left = max(8, viewportWidth - 208)` and `top = 8`. -/
theorem placePopup_no_side_fits (w : Window) (anchor : Rect) (x y : ℚ)
    (hr : w.innerWidth - anchor.right - 8 < 200)
    (hl : anchor.left - 8 < 200)
    (hb : w.innerHeight - anchor.bottom - 8 < 100)
    (ht : anchor.top - 8 < 100) :
    placePopup w { width := 200, height := 100 } (some anchor) x y none =
      { left := max 8 (w.innerWidth - 208), top := 8 } := by
  rw [placePopup_no_selection, anchorOf,
    chooseSide_fallback w { width := 200, height := 100 } anchor hr hl hb]
  have h1 : max 8 (anchor.top - 100 - 8) = 8 := max_eq_left (by linarith)
  have h2 : w.innerWidth - 200 - 8 = w.innerWidth - 208 := by ring
  simp only [clampToViewport, h1, h2]
  congr 1
  · rcases le_total 8 (w.innerWidth - 208) with h | h
    · rw [max_eq_right h, min_self, max_eq_right h]
    · rw [max_eq_left h, min_eq_right h, max_eq_left h]
  · rcases le_total 8 (w.innerHeight - 100 - 8) with h | h
    · rw [min_eq_left h, max_self]
    · rw [min_eq_right h, max_eq_left h]

/-- Witness for C16: the anchor in the middle of a 500 by 250 window. -/
theorem placePopup_no_side_fits_witness :
    (smallWindow.innerWidth - anchorMid.right - 8 < 200 ∧ anchorMid.left - 8 < 200 ∧
        smallWindow.innerHeight - anchorMid.bottom - 8 < 100 ∧ anchorMid.top - 8 < 100) ∧
      placePopup smallWindow { width := 200, height := 100 } (some anchorMid) 0 0 none =
        { left := max 8 (smallWindow.innerWidth - 208), top := 8 } :=
  have hr : smallWindow.innerWidth - anchorMid.right - 8 < 200 := by
    norm_num [smallWindow, anchorMid]
  have hl : anchorMid.left - 8 < 200 := by norm_num [anchorMid]
  have hb : smallWindow.innerHeight - anchorMid.bottom - 8 < 100 := by
    norm_num [smallWindow, anchorMid]
  have ht : anchorMid.top - 8 < 100 := by norm_num [anchorMid]
  ⟨⟨hr, hl, hb, ht⟩, placePopup_no_side_fits smallWindow anchorMid 0 0 hr hl hb ht⟩

/-- C16 refuted as stated: in a 500 by 250 window the anchor
(150, 80, 350, 170) leaves less than 200 px on the right and on the left and
less than 100 px below and above; `placePopup` outputs (292, 8), and
`viewportHeight - 108` is 142. -/
theorem placePopup_no_side_fits_top_is_8 :
    (smallWindow.innerWidth - anchorMid.right - 8 < 200 ∧ anchorMid.left - 8 < 200 ∧
        smallWindow.innerHeight - anchorMid.bottom - 8 < 100 ∧ anchorMid.top - 8 < 100) ∧
      placePopup smallWindow popup200x100 (some anchorMid) 0 0 none =
        { left := 292, top := 8 } ∧
      placePopup smallWindow popup200x100 (some anchorMid) 0 0 none ≠
        { left := smallWindow.innerWidth - 208, top := smallWindow.innerHeight - 108 } := by
  have hp : placePopup smallWindow popup200x100 (some anchorMid) 0 0 none =
      { left := 292, top := 8 } := by
    simp [placePopup, avoidSelection, chooseSide, anchorOf, clampToViewport, smallWindow,
      popup200x100, anchorMid]
    norm_num
  refine ⟨⟨?_, ?_, ?_, ?_⟩, hp, ?_⟩
  · norm_num [smallWindow, anchorMid]
  · norm_num [anchorMid]
  · norm_num [smallWindow, anchorMid]
  · norm_num [anchorMid]
  · rw [hp]
    simp [smallWindow]
    norm_num

/-- C17, as the code has it: `chooseSide` takes the first of right, left and
below whose space after the 8 px padding fits the popup (width for right and
left, height for below); when none of the three fits it takes the fourth
position, `left = max(8, viewportWidth - width - 8)` and
`top = max(8, anchor.top - height - 8)`, whether or not the space above fits:
above the anchor when there is room, at top 8 otherwise, and never a
bottom-right corner. -/
theorem chooseSide_preference_order (w : Window) (size : Size) (target : Rect) :
    (w.innerWidth - target.right - 8 ≥ size.width →
        chooseSide w size target = { left := target.right + 8, top := target.top }) ∧
      (w.innerWidth - target.right - 8 < size.width → target.left - 8 ≥ size.width →
        chooseSide w size target =
          { left := max 8 (target.left - 8 - size.width), top := target.top }) ∧
      (w.innerWidth - target.right - 8 < size.width → target.left - 8 < size.width →
        w.innerHeight - target.bottom - 8 ≥ size.height →
        chooseSide w size target = { left := target.left, top := target.bottom + 8 }) ∧
      (w.innerWidth - target.right - 8 < size.width → target.left - 8 < size.width →
        w.innerHeight - target.bottom - 8 < size.height →
        chooseSide w size target =
            { left := max 8 (w.innerWidth - size.width - 8)
              top := max 8 (target.top - size.height - 8) } ∧
          (target.top - 8 ≥ size.height + 8 →
            (chooseSide w size target).top + size.height = target.top - 8) ∧
          (target.top - 8 < size.height → (chooseSide w size target).top = 8)) := by
  refine ⟨?_, ?_, ?_, ?_⟩
  · intro h
    simp [chooseSide, h]
  · intro hr hl
    simp [chooseSide, not_le.mpr hr, hl]
  · intro hr hl hb
    simp [chooseSide, not_le.mpr hr, not_le.mpr hl, hb]
  · intro hr hl hb
    rw [chooseSide_fallback w size target hr hl hb]
    refine ⟨rfl, ?_, ?_⟩
    · intro ht
      show max 8 (target.top - size.height - 8) + size.height = target.top - 8
      rw [max_eq_right (by linarith)]
      ring
    · intro ht
      show max 8 (target.top - size.height - 8) = 8
      exact max_eq_left (by linarith)

/-- Witness for C17: in a 400 by 200 window no side of the anchor
(100, 60, 300, 140) fits a 200 by 100 popup, and the fourth position is taken. -/
theorem chooseSide_preference_order_witness :
    (tinyWindow.innerWidth - anchorTiny.right - 8 < popup200x100.width ∧
        anchorTiny.left - 8 < popup200x100.width ∧
        tinyWindow.innerHeight - anchorTiny.bottom - 8 < popup200x100.height) ∧
      (chooseSide tinyWindow popup200x100 anchorTiny =
          { left := max 8 (tinyWindow.innerWidth - popup200x100.width - 8)
            top := max 8 (anchorTiny.top - popup200x100.height - 8) } ∧
        (anchorTiny.top - 8 ≥ popup200x100.height + 8 →
          (chooseSide tinyWindow popup200x100 anchorTiny).top + popup200x100.height =
            anchorTiny.top - 8) ∧
        (anchorTiny.top - 8 < popup200x100.height →
          (chooseSide tinyWindow popup200x100 anchorTiny).top = 8)) :=
  have hr : tinyWindow.innerWidth - anchorTiny.right - 8 < popup200x100.width := by
    norm_num [tinyWindow, anchorTiny, popup200x100]
  have hl : anchorTiny.left - 8 < popup200x100.width := by
    norm_num [anchorTiny, popup200x100]
  have hb : tinyWindow.innerHeight - anchorTiny.bottom - 8 < popup200x100.height := by
    norm_num [tinyWindow, anchorTiny, popup200x100]
  ⟨⟨hr, hl, hb⟩,
    (chooseSide_preference_order tinyWindow popup200x100 anchorTiny).2.2.2 hr hl hb⟩

/-- C17 refuted as stated: in a 400 by 200 window none of the four sides of
the anchor (100, 60, 300, 140) fits a 200 by 100 popup (92 px right and left,
52 px below and above); the popup is put at (192, 8), the top right, and not at
the bottom-right clamp (192, 92). -/
theorem chooseSide_never_bottom_right :
    (tinyWindow.innerWidth - anchorTiny.right - 8 < 200 ∧ anchorTiny.left - 8 < 200 ∧
        tinyWindow.innerHeight - anchorTiny.bottom - 8 < 100 ∧ anchorTiny.top - 8 < 100) ∧
      chooseSide tinyWindow popup200x100 anchorTiny = { left := 192, top := 8 } ∧
      placePopup tinyWindow popup200x100 (some anchorTiny) 0 0 none =
        { left := 192, top := 8 } ∧
      placePopup tinyWindow popup200x100 (some anchorTiny) 0 0 none ≠
        { left := tinyWindow.innerWidth - popup200x100.width - 8
          top := tinyWindow.innerHeight - popup200x100.height - 8 } := by
  have hc : chooseSide tinyWindow popup200x100 anchorTiny = { left := 192, top := 8 } := by
    simp [chooseSide, tinyWindow, popup200x100, anchorTiny]
    norm_num
  have hp : placePopup tinyWindow popup200x100 (some anchorTiny) 0 0 none =
      { left := 192, top := 8 } := by
    rw [placePopup_no_selection, anchorOf, hc]
    simp [clampToViewport, tinyWindow, popup200x100]
    norm_num
  refine ⟨⟨?_, ?_, ?_, ?_⟩, hc, hp, ?_⟩
  · norm_num [tinyWindow, anchorTiny]
  · norm_num [anchorTiny]
  · norm_num [tinyWindow, anchorTiny]
  · norm_num [anchorTiny]
  · rw [hp]
    simp [tinyWindow, popup200x100]
    norm_num

/-- C18, as the code has it: for every popup size, anchor, rectangle to avoid
and viewport, the final coordinates satisfy `left ≥ 8` and `top ≥ 8`;
`left + width ≤ viewportWidth - 8` holds when the popup is at most
`viewportWidth - 16` wide, and otherwise `left = 8`; likewise
`top + height ≤ viewportHeight - 8` holds when the popup is at most
`viewportHeight - 16` high, and otherwise `top = 8`. -/
theorem placePopup_within_viewport (w : Window) (size : Size) (rect : Option Rect) (x y : ℚ)
    (selRect : Option Rect) :
    8 ≤ (placePopup w size rect x y selRect).left ∧
      8 ≤ (placePopup w size rect x y selRect).top ∧
      (size.width + 16 ≤ w.innerWidth →
        (placePopup w size rect x y selRect).left + size.width ≤ w.innerWidth - 8) ∧
      (size.height + 16 ≤ w.innerHeight →
        (placePopup w size rect x y selRect).top + size.height ≤ w.innerHeight - 8) ∧
      (w.innerWidth < size.width + 16 → (placePopup w size rect x y selRect).left = 8) ∧
      (w.innerHeight < size.height + 16 → (placePopup w size rect x y selRect).top = 8) := by
  unfold placePopup clampToViewport
  refine ⟨le_max_left _ _, le_max_left _ _, ?_, ?_, ?_, ?_⟩
  · intro h
    have : max 8 (min (avoidSelection w size selRect (chooseSide w size (anchorOf rect x y))).left
        (w.innerWidth - size.width - 8)) ≤ w.innerWidth - size.width - 8 :=
      max_le (by linarith) (min_le_right _ _)
    show max 8 _ + size.width ≤ _
    linarith
  · intro h
    have : max 8 (min (avoidSelection w size selRect (chooseSide w size (anchorOf rect x y))).top
        (w.innerHeight - size.height - 8)) ≤ w.innerHeight - size.height - 8 :=
      max_le (by linarith) (min_le_right _ _)
    show max 8 _ + size.height ≤ _
    linarith
  · intro h
    exact max_eq_left (le_trans (min_le_right _ _) (by linarith))
  · intro h
    exact max_eq_left (le_trans (min_le_right _ _) (by linarith))

/-- Witness for C18: the 200 by 100 popup next to an anchor in a 1280 by 720
window. -/
theorem placePopup_within_viewport_witness :
    popup200x100.width + 16 ≤ sampleWindow.innerWidth ∧
      popup200x100.height + 16 ≤ sampleWindow.innerHeight ∧
      (placePopup sampleWindow popup200x100 (some anchorLow) 0 0 (some selectionMid)).left
          + popup200x100.width ≤ sampleWindow.innerWidth - 8 ∧
      (placePopup sampleWindow popup200x100 (some anchorLow) 0 0 (some selectionMid)).top
          + popup200x100.height ≤ sampleWindow.innerHeight - 8 :=
  have hw : popup200x100.width + 16 ≤ sampleWindow.innerWidth := by
    norm_num [popup200x100, sampleWindow]
  have hh : popup200x100.height + 16 ≤ sampleWindow.innerHeight := by
    norm_num [popup200x100, sampleWindow]
  ⟨hw, hh,
    (placePopup_within_viewport sampleWindow popup200x100 (some anchorLow) 0 0
      (some selectionMid)).2.2.1 hw,
    (placePopup_within_viewport sampleWindow popup200x100 (some anchorLow) 0 0
      (some selectionMid)).2.2.2.1 hh⟩

/-- C18 refuted as stated: a popup 2000 px wide in a 1280 px wide window is
placed at left 8, so that `left + width` = 2008 exceeds `viewportWidth - 8` =
1272. -/
theorem placePopup_wider_than_viewport :
    (placePopup sampleWindow popupWide (some anchorHigh) 0 0 none).left = 8 ∧
      ¬ ((placePopup sampleWindow popupWide (some anchorHigh) 0 0 none).left + popupWide.width
          ≤ sampleWindow.innerWidth - 8) := by
  have hp : (placePopup sampleWindow popupWide (some anchorHigh) 0 0 none).left = 8 := by
    simp [placePopup, avoidSelection, chooseSide, anchorOf, clampToViewport, sampleWindow,
      popupWide, anchorHigh]
    norm_num
  refine ⟨hp, ?_⟩
  rw [hp]
  norm_num [popupWide, sampleWindow]

theorem overlapsBoth_iff (size : Size) (sel : Rect) (p : Placement) :
    overlapsBoth size sel p = true ↔
      (sel.left ≤ p.left + size.width ∧ p.left ≤ sel.right) ∧
        (sel.top ≤ p.top + size.height ∧ p.top ≤ sel.bottom) := by
  simp [overlapsBoth, not_lt]

/-- C19: `placePopup` is the final clamp applied to the avoid step applied to
the side-chosen position. When a rectangle to avoid is supplied and the box at
the side-chosen position overlaps it on both axes, the avoid step keeps `left`
and moves `top` to `avoid.top - 8 - height` if that is greater than 8, else to
`avoid.bottom + 8` if `avoid.bottom + 8 + height` is less than the viewport
height, else to `max(8, viewportHeight - height - 8)`; when the box does not
overlap the rectangle on both axes, or no rectangle is supplied, the position
is unchanged by this step. -/
theorem avoidSelection_shifts_vertically (w : Window) (size : Size) (sel : Rect)
    (p : Placement) :
    (∀ (rect : Option Rect) (x y : ℚ) (selRect : Option Rect),
        placePopup w size rect x y selRect =
          clampToViewport w size
            (avoidSelection w size selRect (chooseSide w size (anchorOf rect x y)))) ∧
      (overlapsBoth size sel p = true →
        (avoidSelection w size (some sel) p).left = p.left ∧
          (sel.top - 8 - size.height > 8 →
            (avoidSelection w size (some sel) p).top = sel.top - 8 - size.height) ∧
          (¬ sel.top - 8 - size.height > 8 → sel.bottom + 8 + size.height < w.innerHeight →
            (avoidSelection w size (some sel) p).top = sel.bottom + 8) ∧
          (¬ sel.top - 8 - size.height > 8 → ¬ sel.bottom + 8 + size.height < w.innerHeight →
            (avoidSelection w size (some sel) p).top = max 8 (w.innerHeight - size.height - 8))) ∧
      (overlapsBoth size sel p = false → avoidSelection w size (some sel) p = p) ∧
      avoidSelection w size none p = p := by
  refine ⟨fun _ _ _ _ => rfl, ?_, ?_, rfl⟩
  · intro ho
    refine ⟨?_, ?_, ?_, ?_⟩
    · simp only [avoidSelection, ho, if_true]
      split
      · rfl
      · split <;> rfl
    · intro h1
      simp [avoidSelection, ho, h1]
    · intro h1 h2
      simp only [avoidSelection, ho, if_true, h1, if_false, h2]
    · intro h1 h2
      simp only [avoidSelection, ho, if_true, h1, if_false, h2]
  · intro ho
    simp [avoidSelection, ho]

/-- Witness for C19: a popup box at (308, 250) overlapping the selection
(300, 300, 700, 340) is moved above it, to top 192. -/
theorem avoidSelection_shifts_vertically_witness :
    overlapsBoth popup200x100 selectionMid { left := 308, top := 250 } = true ∧
      selectionMid.top - 8 - popup200x100.height > 8 ∧
      (avoidSelection sampleWindow popup200x100 (some selectionMid)
          { left := 308, top := 250 }).left = 308 ∧
      (avoidSelection sampleWindow popup200x100 (some selectionMid)
          { left := 308, top := 250 }).top = selectionMid.top - 8 - popup200x100.height :=
  have ho : overlapsBoth popup200x100 selectionMid { left := 308, top := 250 } = true := by
    rw [overlapsBoth_iff]
    norm_num [popup200x100, selectionMid]
  have h1 : selectionMid.top - 8 - popup200x100.height > 8 := by
    norm_num [popup200x100, selectionMid]
  ⟨ho, h1,
    ((avoidSelection_shifts_vertically sampleWindow popup200x100 selectionMid
      { left := 308, top := 250 }).2.1 ho).1,
    ((avoidSelection_shifts_vertically sampleWindow popup200x100 selectionMid
      { left := 308, top := 250 }).2.1 ho).2.1 h1⟩

/-! ## Pinned popup: properties -/

theorem clamp_bounds (v lo hi : ℚ) (h : lo ≤ hi) :
    lo ≤ clamp v lo hi ∧ clamp v lo hi ≤ hi := by
  unfold clamp
  exact ⟨le_max_left _ _, max_le h (min_le_left _ _)⟩

theorem clamp_of_mem (v lo hi : ℚ) (h1 : lo ≤ v) (h2 : v ≤ hi) : clamp v lo hi = v := by
  unfold clamp
  rw [min_eq_right h2, max_eq_right h1]

theorem orElse_clamp (v lo hi : ℚ) (h0 : 0 < lo) (h : lo ≤ hi) (d : ℚ) :
    orElse (some (clamp v lo hi)) d = clamp v lo hi := by
  have := (clamp_bounds v lo hi h).1
  simp only [orElse]
  rw [if_neg (by linarith)]

theorem applySavedPin_pinned (w : Window) (offsetWidth offsetHeight : ℚ) (cfg : PinConfig)
    (hpinned : cfg.pinned = true) :
    applySavedPin w offsetWidth offsetHeight (some cfg) =
      some { left := clamp (orElse cfg.left 8) 8
                      (max 8 (w.innerWidth - (if offsetWidth = 0 then 200 else offsetWidth) - 8))
             top := clamp (orElse cfg.top 8) 8
                      (max 8
                        (w.innerHeight - (if offsetHeight = 0 then 100 else offsetHeight) - 8)) } := by
  simp [applySavedPin, hpinned]

/-- C20: for a pinned record `applySavedPin` always positions the popup; the
position is idempotent for an unchanged viewport and popup size (applied to a
record holding its own result it yields the same coordinates); and for any
viewport, such as the one after a resize, the coordinates satisfy
`8 ≤ left ≤ max(8, viewportWidth - width - 8)` and
`8 ≤ top ≤ max(8, viewportHeight - height - 8)`, `width` and `height` being
`offsetWidth || 200` and `offsetHeight || 100`. -/
theorem applySavedPin_idempotent_and_clamped (w resized : Window) (offsetWidth offsetHeight : ℚ)
    (cfg : PinConfig) (hpinned : cfg.pinned = true) :
    ∃ p : Placement,
      applySavedPin w offsetWidth offsetHeight (some cfg) = some p ∧
        applySavedPin w offsetWidth offsetHeight
          (some { pinned := true, left := some p.left, top := some p.top }) = some p ∧
        ∃ q : Placement,
          applySavedPin resized offsetWidth offsetHeight (some cfg) = some q ∧
            8 ≤ q.left ∧
            q.left ≤
              max 8 (resized.innerWidth - (if offsetWidth = 0 then 200 else offsetWidth) - 8) ∧
            8 ≤ q.top ∧
            q.top ≤
              max 8
                (resized.innerHeight - (if offsetHeight = 0 then 100 else offsetHeight) - 8) := by
  refine ⟨_, applySavedPin_pinned w offsetWidth offsetHeight cfg hpinned, ?_,
    _, applySavedPin_pinned resized offsetWidth offsetHeight cfg hpinned, ?_⟩
  · rw [applySavedPin_pinned w offsetWidth offsetHeight _ rfl]
    simp only
    rw [orElse_clamp _ 8 _ (by norm_num) (le_max_left _ _),
      orElse_clamp _ 8 _ (by norm_num) (le_max_left _ _)]
    rw [clamp_of_mem _ 8 _ (clamp_bounds _ 8 _ (le_max_left _ _)).1
        (clamp_bounds _ 8 _ (le_max_left _ _)).2,
      clamp_of_mem _ 8 _ (clamp_bounds _ 8 _ (le_max_left _ _)).1
        (clamp_bounds _ 8 _ (le_max_left _ _)).2]
  · exact ⟨(clamp_bounds _ 8 _ (le_max_left _ _)).1, (clamp_bounds _ 8 _ (le_max_left _ _)).2,
      (clamp_bounds _ 8 _ (le_max_left _ _)).1, (clamp_bounds _ 8 _ (le_max_left _ _)).2⟩

/-- Witness for C20: the pin saved at (1000, 600), applied in a 1280 by 720
window and again after a resize to 500 by 250. -/
theorem applySavedPin_idempotent_and_clamped_witness :
    savedPin.pinned = true ∧
      ∃ p : Placement,
        applySavedPin sampleWindow 200 100 (some savedPin) = some p ∧
          applySavedPin sampleWindow 200 100
            (some { pinned := true, left := some p.left, top := some p.top }) = some p ∧
          ∃ q : Placement,
            applySavedPin smallWindow 200 100 (some savedPin) = some q ∧
              8 ≤ q.left ∧
              q.left ≤
                max 8 (smallWindow.innerWidth - (if (200 : ℚ) = 0 then 200 else 200) - 8) ∧
              8 ≤ q.top ∧
              q.top ≤
                max 8 (smallWindow.innerHeight - (if (100 : ℚ) = 0 then 100 else 100) - 8) :=
  ⟨rfl, applySavedPin_idempotent_and_clamped sampleWindow smallWindow 200 100 savedPin rfl⟩

theorem applySavedPin_savedPin_resized :
    applySavedPin sampleWindow 200 100 (some savedPin) = some { left := 1000, top := 600 } ∧
      applySavedPin smallWindow 200 100 (some savedPin) = some { left := 292, top := 142 } := by
  constructor
  · rw [applySavedPin_pinned _ _ _ _ rfl]
    simp [savedPin, sampleWindow, clamp, orElse]
    norm_num
  · rw [applySavedPin_pinned _ _ _ _ rfl]
    simp [savedPin, smallWindow, clamp, orElse]
    norm_num
/-! ## Calibration: properties -/

theorem calRun_nil (w : Window) (points : List CalTarget) (s : CalRun) :
    calRun w points s [] = s := rfl

theorem calRun_cons (w : Window) (points : List CalTarget) (s : CalRun) (e : CalEvent)
    (es : List CalEvent) :
    calRun w points s (e :: es) = calRun w points (calStep w points s e) es := rfl

theorem calRun_append (w : Window) (points : List CalTarget) (s : CalRun)
    (es fs : List CalEvent) :
    calRun w points s (es ++ fs) = calRun w points (calRun w points s es) fs := by
  simp [calRun, List.foldl_append]

theorem calStep_tick_ignored (w : Window) (points : List CalTarget) (s : CalRun) (d : Reading)
    (h : ∀ samples ticks, s.phase ≠ CalPhase.collecting samples ticks) :
    calStep w points s (CalEvent.tick d) = s := by
  unfold calStep
  cases hp : s.phase with
  | collecting samples ticks => exact absurd hp (h samples ticks)
  | stepPending => simp [hp]
  | fadePending => simp [hp]
  | idle => simp [hp]

theorem calRun_ticks_ignored (w : Window) (points : List CalTarget) (ds : List Reading) :
    ∀ s : CalRun, (∀ samples ticks, s.phase ≠ CalPhase.collecting samples ticks) →
      calRun w points s (ds.map CalEvent.tick) = s := by
  induction ds with
  | nil => intro s _; rfl
  | cons d ds ih =>
    intro s h
    rw [List.map_cons, calRun_cons, calStep_tick_ignored w points s d h]
    exact ih s h

theorem afterCollect_not_collecting (points : List CalTarget) (s : CalRun) (avg : XPoint) :
    ∀ samples ticks, (afterCollect points s avg).phase ≠ CalPhase.collecting samples ticks := by
  intro samples ticks
  unfold afterCollect
  dsimp only
  split <;> simp

theorem calRun_collect (w : Window) (points : List CalTarget) (r : ℕ → Reading) :
    ∀ (rem : ℕ) (samples : List XPoint) (k : ℕ) (s : CalRun),
      s.phase = CalPhase.collecting samples k → rem + k = 13 →
      calRun w points s ((List.range' k (rem + 1)).map fun i => CalEvent.tick (r i)) =
        afterCollect points s (averageSamples (collectFrom w r rem samples k)) := by
  intro rem
  induction rem with
  | zero =>
    intro samples k s hp hk
    have hk13 : k = 13 := by omega
    subst hk13
    simp [List.range', calRun_cons, calRun_nil, calStep, hp, collectFrom]
  | succ rem ih =>
    intro samples k s hp hk
    rw [List.range'_succ, List.map_cons, calRun_cons]
    by_cases h12 : 12 ≤ (pushSample w (r k) samples).length
    · have hstep : calStep w points s (CalEvent.tick (r k)) =
          afterCollect points s (averageSamples (pushSample w (r k) samples)) := by
        simp [calStep, hp, h12]
      rw [hstep]
      have := calRun_ticks_ignored w points ((List.range' (k + 1) (rem + 1)).map r)
        (afterCollect points s (averageSamples (pushSample w (r k) samples)))
        (afterCollect_not_collecting points s _)
      rw [List.map_map] at this
      rw [show (fun i => CalEvent.tick (r i)) = CalEvent.tick ∘ r from rfl, this]
      simp [collectFrom, h12]
    · have hk14 : ¬ 14 ≤ k + 1 := by omega
      have hstep : calStep w points s (CalEvent.tick (r k)) =
          { s with phase := CalPhase.collecting (pushSample w (r k) samples) (k + 1) } := by
        simp [calStep, hp, h12, hk14]
      rw [hstep, ih (pushSample w (r k) samples) (k + 1) _ rfl (by omega)]
      simp [collectFrom, h12, afterCollect]

theorem calRun_point (w : Window) (points : List CalTarget) (readings : ℕ → ℕ → Reading)
    (j : ℕ) (s : CalRun) (hp : s.phase = CalPhase.stepPending) (hc : s.cancelled = false) :
    calRun w points s (pointEvents readings j) =
      afterCollect points s (collectSamplesForPoint w (readings j)) := by
  unfold pointEvents
  rw [calRun_cons]
  have hstep : calStep w points s CalEvent.timer =
      { s with phase := CalPhase.collecting [] 0 } := by
    simp [calStep, hp, hc]
  rw [hstep, calRun_collect w points (readings j) 13 [] 0 _ rfl rfl]
  simp [afterCollect, collectSamplesForPoint]

theorem calRun_points (w : Window) (points : List CalTarget) (readings : ℕ → ℕ → Reading) :
    ∀ (m j : ℕ) (s : CalRun), s.phase = CalPhase.stepPending → s.cancelled = false →
      s.idx = j → j + m + 1 ≤ points.length →
      calRun w points s (pointsEvents readings j (m + 1)) =
        { s with
          results := s.results ++
            (List.range' j (m + 1)).map fun i => collectSamplesForPoint w (readings i)
          idx := j + m + 1
          phase := if j + m + 1 < points.length then CalPhase.stepPending
                   else CalPhase.fadePending } := by
  intro m
  induction m with
  | zero =>
    intro j s hp hc hj hle
    simp only [pointsEvents, List.append_nil]
    rw [calRun_point w points readings j s hp hc]
    simp [afterCollect, hj, List.range']
  | succ m ih =>
    intro j s hp hc hj hle
    rw [pointsEvents, calRun_append, calRun_point w points readings j s hp hc]
    have hlt : s.idx + 1 < points.length := by omega
    rw [ih (j + 1) (afterCollect points s (collectSamplesForPoint w (readings j)))
      (by simp [afterCollect, hlt]) (by simp [afterCollect, hc]) (by simp [afterCollect, hj])
      (by omega)]
    rw [List.range'_succ j (m + 1)]
    simp only [afterCollect, List.append_assoc, List.map_cons, List.singleton_append]
    have e : j + 1 + m + 1 = j + (m + 1) + 1 := by omega
    rw [e]

/-- The results of a sequence that runs to completion: the averaged sample of
each point in turn. -/
theorem runCalibrationSequence_complete (w : Window) (points : List CalTarget)
    (readings : ℕ → ℕ → Reading) (hne : points ≠ []) :
    runCalibrationSequence w true points readings =
      { results := (List.range' 0 points.length).map fun i =>
          collectSamplesForPoint w (readings i)
        idx := points.length
        cancelled := false
        phase := CalPhase.idle
        overlay := false
        cancelPending := false
        resolved := some (calibrationOffset w points
          ((List.range' 0 points.length).map fun i => collectSamplesForPoint w (readings i)))
        stored := [calibrationOffset w points
          ((List.range' 0 points.length).map fun i =>
            collectSamplesForPoint w (readings i))] } := by
  obtain ⟨m, hm⟩ : ∃ m, points.length = m + 1 := by
    cases points with
    | nil => exact absurd rfl hne
    | cons p ps => exact ⟨ps.length, rfl⟩
  unfold runCalibrationSequence completeEvents
  rw [calRun_append, hm]
  have hstart : calStart true points =
      { results := [], idx := 0, cancelled := false, phase := CalPhase.stepPending,
        overlay := true, cancelPending := false, resolved := none, stored := [] } := by
    simp [calStart, hne]
  rw [hstart, calRun_points w points readings m 0 _ rfl rfl rfl (by omega)]
  simp [calRun, calStep, hm]

theorem runCalibrationSequence_unavailable (w : Window) (points : List CalTarget)
    (readings : ℕ → ℕ → Reading) :
    runCalibrationSequence w false points readings = calStart false points := by
  unfold runCalibrationSequence calRun
  generalize completeEvents readings points.length = events
  have hidle : ∀ (s : CalRun), s.phase = CalPhase.idle → s.overlay = false →
      s.cancelPending = false → ∀ e, calStep w points s e = s := by
    intro s h1 h2 h3 e
    cases e <;> simp [calStep, h1, h2, h3]
  induction events with
  | nil => rfl
  | cons e es ih =>
    rw [List.foldl_cons, hidle _ (by simp [calStart]) (by simp [calStart]) (by simp [calStart])]
    exact ih

/-! ### Runs without usable samples -/

theorem averageSamples_nil : averageSamples [] = { x := XNum.fin 0, y := XNum.fin 0 } := by
  simp [averageSamples]

theorem offset_fold_skip (w : Window) (l : List (XPoint × CalTarget)) :
    ∀ acc : OffsetAcc, (∀ rt ∈ l, rt.1.x.truthy = false) →
      l.foldl (fun a rt => offsetStep w a rt.1 rt.2) acc = acc := by
  induction l with
  | nil => intro acc _; rfl
  | cons rt l ih =>
    intro acc h
    rw [List.foldl_cons]
    have h0 : offsetStep w acc rt.1 rt.2 = acc := by
      simp [offsetStep, h rt (List.mem_cons_self _ _)]
    rw [h0]
    exact ih acc (fun rt' hrt' => h rt' (List.mem_cons_of_mem _ hrt'))

theorem calibrationOffset_of_no_count (w : Window) (points : List CalTarget)
    (results : List XPoint) (h : ∀ r ∈ results, r.x.truthy = false) :
    calibrationOffset w points results = zeroOffset := by
  unfold calibrationOffset
  rw [offset_fold_skip w _ _ (fun rt hrt => h rt.1 (List.of_mem_zip hrt).1)]
  simp [zeroOffset, XNum.divBy, XNum.ofExact_zero]

theorem collectFrom_unusable (w : Window) (r : ℕ → Reading)
    (h : ∀ k, normalizeRawToClientX w (r k) = none) :
    ∀ (rem k : ℕ), collectFrom w r rem [] k = [] := by
  intro rem
  induction rem with
  | zero => intro k; simp [collectFrom, pushSample, h]
  | succ rem ih => intro k; simp [collectFrom, pushSample, h, ih]

/-- C12: when the gaze producer is unavailable `runCalibrationSequence`
resolves with `{ dx: 0, dy: 0 }` (after storing it); and when the sequence
runs to completion over at least one point and no point collected a usable
sample, it resolves with `{ dx: 0, dy: 0 }` and stores that offset. -/
theorem calibration_neutral_offset (w : Window) (points : List CalTarget)
    (readings : ℕ → ℕ → Reading) :
    ((runCalibrationSequence w false points readings).resolved = some zeroOffset ∧
        (runCalibrationSequence w false points readings).stored = [zeroOffset]) ∧
      (points ≠ [] → (∀ j, j < points.length → collectFrom w (readings j) 13 [] 0 = []) →
        (runCalibrationSequence w true points readings).resolved = some zeroOffset ∧
          (runCalibrationSequence w true points readings).stored = [zeroOffset]) := by
  constructor
  · rw [runCalibrationSequence_unavailable]
    simp [calStart]
  · intro hne hempty
    rw [runCalibrationSequence_complete w points readings hne]
    have hz : calibrationOffset w points
        ((List.range' 0 points.length).map fun i => collectSamplesForPoint w (readings i)) =
        zeroOffset := by
      apply calibrationOffset_of_no_count
      intro r hr
      rw [List.mem_map] at hr
      obtain ⟨i, hmem, hi⟩ := hr
      have hlt : i < points.length := by
        have := (List.mem_range'_1.mp hmem).2
        omega
      rw [← hi, collectSamplesForPoint, hempty i hlt, averageSamples_nil]
      simp [XNum.truthy]
    simp [hz]

/-- Witness for C12: a producer that returns `null` at every tick, over the
five default points. -/
theorem calibration_neutral_offset_witness :
    defaultPoints ≠ [] ∧
      (∀ j, j < defaultPoints.length →
        collectFrom sampleWindow (silentReadings j) 13 [] 0 = []) ∧
      (runCalibrationSequence sampleWindow true defaultPoints silentReadings).resolved =
        some zeroOffset ∧
      (runCalibrationSequence sampleWindow true defaultPoints silentReadings).stored =
        [zeroOffset] :=
  have hne : defaultPoints ≠ [] := by simp [defaultPoints]
  have hempty : ∀ j, j < defaultPoints.length →
      collectFrom sampleWindow (silentReadings j) 13 [] 0 = [] :=
    fun j _ => collectFrom_unusable sampleWindow (silentReadings j) (fun _ => rfl) 13 0
  ⟨hne, hempty,
    (calibration_neutral_offset sampleWindow defaultPoints silentReadings).2 hne hempty⟩

/-! ### Bounded samples give a finite offset -/

theorem XNum.isFinite_iff (a : XNum) : a.isFinite = true ↔ ∃ q : ℚ, a = XNum.fin q := by
  cases a <;> simp [XNum.isFinite]

theorem XNum.within_iff (b : ℚ) (v : XNum) :
    v.within b ↔ ∃ q, v = XNum.fin q ∧ |q| ≤ b := by
  cases v <;> simp [XNum.within]

theorem XNum.within_mono (b c : ℚ) (v : XNum) (h : v.within b) (hbc : b ≤ c) : v.within c := by
  cases v with
  | fin q => exact le_trans h hbc
  | nan => exact h
  | inf s => exact h

theorem XNum.within_nonneg (b : ℚ) (v : XNum) (h : v.within b) : 0 ≤ b := by
  cases v with
  | fin q => exact le_trans (abs_nonneg q) h
  | nan => exact absurd h id
  | inf s => exact absurd h id

theorem XNum.within_add (b c : ℚ) (x y : XNum) (hx : x.within b) (hy : y.within c)
    (h : b + c < overflowBound) : (x.add y).within (b + c) := by
  cases x with
  | fin p =>
    cases y with
    | fin q =>
      have hle : |p + q| ≤ b + c := le_trans (abs_add p q) (add_le_add hx hy)
      simp only [XNum.add]
      rw [XNum.ofExact_of_abs_lt _ (lt_of_le_of_lt hle h)]
      exact hle
    | nan => exact absurd hy id
    | inf s => exact absurd hy id
  | nan => exact absurd hx id
  | inf s => exact absurd hx id

theorem XNum.within_neg (b : ℚ) (x : XNum) (hx : x.within b) : x.neg.within b := by
  cases x with
  | fin p => simpa [XNum.neg, XNum.within] using hx
  | nan => exact absurd hx id
  | inf s => exact absurd hx id

theorem XNum.within_sub (b c : ℚ) (x y : XNum) (hx : x.within b) (hy : y.within c)
    (h : b + c < overflowBound) : (x.sub y).within (b + c) :=
  XNum.within_add b c x y.neg hx (XNum.within_neg c y hy) h

theorem XNum.within_divBy (b c : ℚ) (x : XNum) (d : ℚ) (hx : x.within b) (hd : d ≠ 0)
    (hc : b ≤ c * |d|) (h : c < overflowBound) : (x.divBy d).within c := by
  cases x with
  | fin p =>
    have hdpos : 0 < |d| := abs_pos.2 hd
    have hle : |p / d| ≤ c := by
      rw [abs_div, div_le_iff₀ hdpos]
      exact le_trans hx hc
    simp only [XNum.divBy, hd, if_false]
    rw [XNum.ofExact_of_abs_lt _ (lt_of_le_of_lt hle h)]
    exact hle
  | nan => exact absurd hx id
  | inf s => exact absurd hx id

theorem abs_mathRound_le (a : ℚ) : |mathRound a| ≤ |a| + 1 := by
  unfold mathRound
  have h1 : ((⌊a + 1 / 2⌋ : ℤ) : ℚ) ≤ a + 1 / 2 := Int.floor_le _
  have h2 : a + 1 / 2 < ((⌊a + 1 / 2⌋ : ℤ) : ℚ) + 1 := Int.lt_floor_add_one _
  rw [abs_le]
  constructor
  · have := neg_abs_le a
    linarith
  · have := le_abs_self a
    linarith

theorem XNum.within_round (b : ℚ) (x : XNum) (hx : x.within b) : x.round.within (b + 1) := by
  cases x with
  | fin p =>
    have : |p| ≤ b := hx
    exact le_trans (abs_mathRound_le p) (by linarith)
  | nan => exact absurd hx id
  | inf s => exact absurd hx id

/-- The bound on a normalized sample: `2 * 10^200 + 1`. -/
theorem normalize_steps_within (x : XNum) (s dpr : ℚ) (c1 c2 : Prop) [Decidable c1]
    [Decidable c2] (hx : x.within calibrationBound) (hs : |s| ≤ calibrationBound)
    (hdpr : 1 / calibrationBound ≤ |dpr|) :
    ((if c2 then (if c1 then x.sub (XNum.fin s) else x).divBy dpr
      else (if c1 then x.sub (XNum.fin s) else x)).round).within
        (2 * calibrationBound ^ 2 + 1) := by
  have hB : (1 : ℚ) ≤ calibrationBound := by unfold calibrationBound; norm_num
  have hOB : 2 * calibrationBound ^ 2 < overflowBound :=
    lt_trans (by unfold calibrationBound; norm_num) overflowBound_large
  have hd0 : dpr ≠ 0 := by
    intro h
    rw [h, abs_zero] at hdpr
    have : (0 : ℚ) < 1 / calibrationBound := one_div_pos.2 (lt_of_lt_of_le one_pos hB)
    linarith
  have h1 : (if c1 then x.sub (XNum.fin s) else x).within (2 * calibrationBound) := by
    split
    · have := XNum.within_sub calibrationBound calibrationBound x (XNum.fin s) hx hs
        (lt_of_le_of_lt (by nlinarith) hOB)
      rw [two_mul]
      exact this
    · exact XNum.within_mono _ _ x hx (by linarith)
  have h2 : (if c2 then (if c1 then x.sub (XNum.fin s) else x).divBy dpr
      else (if c1 then x.sub (XNum.fin s) else x)).within (2 * calibrationBound ^ 2) := by
    split
    · apply XNum.within_divBy (2 * calibrationBound) _ _ dpr h1 hd0 _ hOB
      have h3 : 1 ≤ calibrationBound * |dpr| := by
        have := mul_le_mul_of_nonneg_left hdpr (by linarith : (0 : ℚ) ≤ calibrationBound)
        rw [mul_one_div_cancel (by linarith : calibrationBound ≠ 0)] at this
        exact this
      nlinarith
    · exact XNum.within_mono _ _ _ h1 (by nlinarith)
  exact XNum.within_round _ _ h2

theorem normalizeRawToClientX_within (w : Window) (d : Reading) (p : XPoint)
    (hd : boundedReading calibrationBound d)
    (hscroll : |w.scrollX| ≤ calibrationBound ∧ |w.scrollY| ≤ calibrationBound)
    (hdpr : w.devicePixelRatio = 0 ∨ 1 / calibrationBound ≤ |w.devicePixelRatio|)
    (hn : normalizeRawToClientX w d = some p) :
    p.x.within (2 * calibrationBound ^ 2 + 1) ∧ p.y.within (2 * calibrationBound ^ 2 + 1) := by
  unfold normalizeRawToClientX at hn
  cases d with
  | none => simp at hn
  | some r =>
    rcases hx : r.x with _ | x0
    · simp [hx] at hn
    · rcases hy : r.y with _ | y0
      · simp [hx, hy] at hn
      · simp only [boundedReading, hx, hy] at hd
        simp only [hx, hy, Option.some.injEq] at hn
        rw [← hn]
        have hd' : 1 / calibrationBound ≤
            |if w.devicePixelRatio = 0 then (1 : ℚ) else w.devicePixelRatio| := by
          split
          · rw [abs_one, div_le_one (by unfold calibrationBound; norm_num)]
            unfold calibrationBound
            norm_num
          · rcases hdpr with h | h
            · contradiction
            · exact h
        exact ⟨normalize_steps_within x0 _ _ _ _ hd.1 hscroll.1 hd',
          normalize_steps_within y0 _ _ _ _ hd.2 hscroll.2 hd'⟩

theorem pushSample_within (w : Window) (d : Reading) (samples : List XPoint) (b : ℚ)
    (hb : 2 * calibrationBound ^ 2 + 1 = b)
    (hd : boundedReading calibrationBound d)
    (hscroll : |w.scrollX| ≤ calibrationBound ∧ |w.scrollY| ≤ calibrationBound)
    (hdpr : w.devicePixelRatio = 0 ∨ 1 / calibrationBound ≤ |w.devicePixelRatio|)
    (hs : ∀ p ∈ samples, p.x.within b ∧ p.y.within b) :
    (∀ p ∈ pushSample w d samples, p.x.within b ∧ p.y.within b) ∧
      (pushSample w d samples).length ≤ samples.length + 1 := by
  unfold pushSample
  cases hn : normalizeRawToClientX w d with
  | none => exact ⟨hs, Nat.le_succ _⟩
  | some q =>
    refine ⟨?_, by simp⟩
    intro p hp
    simp only [List.mem_append, List.mem_singleton] at hp
    rcases hp with hp | hp
    · exact hs p hp
    · rw [hp, ← hb]
      exact normalizeRawToClientX_within w d q hd hscroll hdpr hn

theorem collectFrom_within (w : Window) (r : ℕ → Reading) (b : ℚ)
    (hb : 2 * calibrationBound ^ 2 + 1 = b)
    (hr : ∀ k, boundedReading calibrationBound (r k))
    (hscroll : |w.scrollX| ≤ calibrationBound ∧ |w.scrollY| ≤ calibrationBound)
    (hdpr : w.devicePixelRatio = 0 ∨ 1 / calibrationBound ≤ |w.devicePixelRatio|) :
    ∀ (rem : ℕ) (samples : List XPoint) (k : ℕ), (∀ p ∈ samples, p.x.within b ∧ p.y.within b) →
      (∀ p ∈ collectFrom w r rem samples k, p.x.within b ∧ p.y.within b) ∧
        (collectFrom w r rem samples k).length ≤ samples.length + rem + 1 := by
  intro rem
  induction rem with
  | zero =>
    intro samples k hs
    simp only [collectFrom]
    exact pushSample_within w (r k) samples b hb (hr k) hscroll hdpr hs
  | succ rem ih =>
    intro samples k hs
    have hp := pushSample_within w (r k) samples b hb (hr k) hscroll hdpr hs
    simp only [collectFrom]
    split
    · exact ⟨hp.1, by omega⟩
    · have := ih (pushSample w (r k) samples) (k + 1) hp.1
      exact ⟨this.1, by omega⟩

theorem sum_within (b : ℚ) (hb0 : 0 ≤ b) (samples : List XPoint) :
    ∀ (acc : XPoint) (c : ℚ), acc.x.within c → acc.y.within c →
      (∀ p ∈ samples, p.x.within b ∧ p.y.within b) → c + samples.length * b < overflowBound →
      (samples.foldl (fun acc s => { x := acc.x.add s.x, y := acc.y.add s.y }) acc).x.within
          (c + samples.length * b) ∧
        (samples.foldl (fun acc s => { x := acc.x.add s.x, y := acc.y.add s.y }) acc).y.within
          (c + samples.length * b) := by
  induction samples with
  | nil =>
    intro acc c hx hy _ _
    simpa using ⟨hx, hy⟩
  | cons s samples ih =>
    intro acc c hx hy hs hlt
    rw [List.foldl_cons]
    have h1 := hs s (List.mem_cons_self _ _)
    have hlen : ((s :: samples).length : ℚ) = samples.length + 1 := by simp
    rw [hlen] at hlt ⊢
    have hn : (0 : ℚ) ≤ samples.length * b := mul_nonneg (Nat.cast_nonneg _) hb0
    have hcb : c + b < overflowBound := by nlinarith
    have := ih { x := acc.x.add s.x, y := acc.y.add s.y } (c + b)
      (XNum.within_add c b _ _ hx h1.1 hcb) (XNum.within_add c b _ _ hy h1.2 hcb)
      (fun p hp => hs p (List.mem_cons_of_mem _ hp)) (by linarith)
    have e : c + b + samples.length * b = c + (samples.length + 1) * b := by ring
    rw [e] at this
    exact this

theorem averageSamples_within (b : ℚ) (hb0 : 0 ≤ b) (n : ℕ) (samples : List XPoint)
    (hs : ∀ p ∈ samples, p.x.within b ∧ p.y.within b) (hlen : samples.length ≤ n)
    (hlt : n * b < overflowBound) :
    (averageSamples samples).x.within (n * b) ∧ (averageSamples samples).y.within (n * b) := by
  have hle : (samples.length : ℚ) * b ≤ n * b :=
    mul_le_mul_of_nonneg_right (by exact_mod_cast hlen) hb0
  have hsum := sum_within b hb0 samples { x := XNum.fin 0, y := XNum.fin 0 } 0
    (by simp [XNum.within]) (by simp [XNum.within]) hs (by linarith)
  rw [zero_add] at hsum
  unfold averageSamples
  dsimp only
  split
  · exact ⟨XNum.within_mono _ _ _ hsum.1 hle, XNum.within_mono _ _ _ hsum.2 hle⟩
  · rename_i h0
    have hq : (samples.length : ℚ) ≠ 0 := by exact_mod_cast h0
    have h1 : (1 : ℚ) ≤ |(samples.length : ℚ)| := by
      rw [abs_of_nonneg (by positivity)]
      exact_mod_cast Nat.one_le_iff_ne_zero.2 h0
    have hnb : (0 : ℚ) ≤ n * b := mul_nonneg (Nat.cast_nonneg _) hb0
    have hc : (samples.length : ℚ) * b ≤ n * b * |(samples.length : ℚ)| := by nlinarith
    exact ⟨XNum.within_divBy _ _ _ _ hsum.1 hq hc hlt, XNum.within_divBy _ _ _ _ hsum.2 hq hc hlt⟩

theorem offsetStep_within (w : Window) (acc : OffsetAcc) (r : XPoint) (t : CalTarget)
    (a c : ℚ) (hr : r.x.within a ∧ r.y.within a)
    (ht : |t.x * w.innerWidth| ≤ calibrationBound ∧ |t.y * w.innerHeight| ≤ calibrationBound)
    (hacc : acc.dx.within c ∧ acc.dy.within c) (h0 : 0 ≤ c)
    (hlt : c + (calibrationBound + a) < overflowBound) :
    (offsetStep w acc r t).dx.within (c + (calibrationBound + a)) ∧
      (offsetStep w acc r t).dy.within (c + (calibrationBound + a)) := by
  have ha0 := XNum.within_nonneg _ _ hr.1
  have hB : (0 : ℚ) ≤ calibrationBound := by unfold calibrationBound; norm_num
  have hBlt : calibrationBound < overflowBound := by linarith
  have hsub : calibrationBound + a < overflowBound := by linarith
  unfold offsetStep
  split
  · have tx : (XNum.ofExact (t.x * w.innerWidth)).within calibrationBound := by
      rw [XNum.ofExact_of_abs_lt _ (lt_of_le_of_lt ht.1 hBlt)]
      exact ht.1
    have ty : (XNum.ofExact (t.y * w.innerHeight)).within calibrationBound := by
      rw [XNum.ofExact_of_abs_lt _ (lt_of_le_of_lt ht.2 hBlt)]
      exact ht.2
    exact ⟨XNum.within_add _ _ _ _ hacc.1 (XNum.within_sub _ _ _ _ tx hr.1 hsub) hlt,
      XNum.within_add _ _ _ _ hacc.2 (XNum.within_sub _ _ _ _ ty hr.2 hsub) hlt⟩
  · exact ⟨XNum.within_mono _ _ _ hacc.1 (by linarith),
      XNum.within_mono _ _ _ hacc.2 (by linarith)⟩

theorem offset_fold_within (w : Window) (a : ℚ) (l : List (XPoint × CalTarget)) :
    ∀ (acc : OffsetAcc) (c : ℚ), acc.dx.within c → acc.dy.within c → 0 ≤ c →
      (∀ rt ∈ l, (rt.1.x.within a ∧ rt.1.y.within a) ∧
        (|rt.2.x * w.innerWidth| ≤ calibrationBound ∧
          |rt.2.y * w.innerHeight| ≤ calibrationBound)) →
      c + l.length * (calibrationBound + a) < overflowBound →
      (l.foldl (fun a rt => offsetStep w a rt.1 rt.2) acc).dx.within
          (c + l.length * (calibrationBound + a)) ∧
        (l.foldl (fun a rt => offsetStep w a rt.1 rt.2) acc).dy.within
          (c + l.length * (calibrationBound + a)) := by
  have hB : (0 : ℚ) ≤ calibrationBound := by unfold calibrationBound; norm_num
  induction l with
  | nil =>
    intro acc c hx hy _ _ _
    simpa using ⟨hx, hy⟩
  | cons rt l ih =>
    intro acc c hx hy h0 hl hlt
    rw [List.foldl_cons]
    have hrt := hl rt (List.mem_cons_self _ _)
    have ha0 := XNum.within_nonneg _ _ hrt.1.1
    have hlen : ((rt :: l).length : ℚ) = l.length + 1 := by simp
    rw [hlen] at hlt ⊢
    have hn : (0 : ℚ) ≤ l.length * (calibrationBound + a) :=
      mul_nonneg (Nat.cast_nonneg _) (by linarith)
    have hstep := offsetStep_within w acc rt.1 rt.2 a c hrt.1 hrt.2 ⟨hx, hy⟩ h0 (by nlinarith)
    have := ih (offsetStep w acc rt.1 rt.2) (c + (calibrationBound + a)) hstep.1 hstep.2
      (by linarith) (fun rt' hrt' => hl rt' (List.mem_cons_of_mem _ hrt')) (by linarith)
    have e : c + (calibrationBound + a) + l.length * (calibrationBound + a) =
        c + (l.length + 1) * (calibrationBound + a) := by ring
    rw [e] at this
    exact this

theorem calibrationOffset_within (w : Window) (points : List CalTarget) (results : List XPoint)
    (a : ℚ) (hr : ∀ r ∈ results, r.x.within a ∧ r.y.within a)
    (ht : ∀ t ∈ points, |t.x * w.innerWidth| ≤ calibrationBound ∧
      |t.y * w.innerHeight| ≤ calibrationBound)
    (hlt : points.length * (calibrationBound + a) < overflowBound) (ha0 : 0 ≤ a) :
    (calibrationOffset w points results).dx.isFinite = true ∧
      (calibrationOffset w points results).dy.isFinite = true := by
  have hB : (0 : ℚ) ≤ calibrationBound := by unfold calibrationBound; norm_num
  have hzl : ((results.zip points).length : ℚ) ≤ points.length := by
    have : (results.zip points).length ≤ points.length := by
      rw [List.length_zip]
      exact min_le_right _ _
    exact_mod_cast this
  have hlt' : 0 + ((results.zip points).length : ℚ) * (calibrationBound + a) < overflowBound := by
    rw [zero_add]
    exact lt_of_le_of_lt (mul_le_mul_of_nonneg_right hzl (by linarith)) hlt
  have hf := offset_fold_within w a (results.zip points)
    { dx := XNum.fin 0, dy := XNum.fin 0, count := 0 } 0 (by simp [XNum.within])
    (by simp [XNum.within]) (le_refl _)
    (fun rt hrt => ⟨hr rt.1 (List.of_mem_zip hrt).1, ht rt.2 (List.of_mem_zip hrt).2⟩) hlt'
  have hmax : ∀ c : ℕ, max 1 (c : ℚ) ≠ 0 ∧ 1 ≤ |max 1 (c : ℚ)| := by
    intro c
    have h1 : (1 : ℚ) ≤ max 1 (c : ℚ) := le_max_left _ _
    exact ⟨by linarith, by rw [abs_of_pos (by linarith)]; exact h1⟩
  unfold calibrationOffset
  dsimp only
  generalize (results.zip points).foldl (fun a rt => offsetStep w a rt.1 rt.2)
    { dx := XNum.fin 0, dy := XNum.fin 0, count := 0 } = acc at hf ⊢
  have hb0 : 0 ≤ 0 + ((results.zip points).length : ℚ) * (calibrationBound + a) := by
    rw [zero_add]
    exact mul_nonneg (Nat.cast_nonneg _) (by linarith)
  have hm := hmax acc.count
  constructor
  · have := XNum.within_divBy _ _ _ _ hf.1 hm.1 (le_mul_of_one_le_right hb0 hm.2) hlt'
    obtain ⟨q, hq, _⟩ := (XNum.within_iff _ _).1 this
    rw [hq]
    rfl
  · have := XNum.within_divBy _ _ _ _ hf.2 hm.1 (le_mul_of_one_le_right hb0 hm.2) hlt'
    obtain ⟨q, hq, _⟩ := (XNum.within_iff _ _).1 this
    rw [hq]
    rfl

/-- C14, as the code has it: a sequence over at least one point that runs to
completion resolves with an offset whose two components are finite whenever no
number of the run comes near the limits of the doubles: every coordinate of
type number that the producer returns is finite and at most `10^100` in
magnitude, the scroll offsets and the target positions in pixels are at most
`10^100` in magnitude, `devicePixelRatio` is 0 or at least `10^-100` in
magnitude, and there are at most `10^100` points. A sequence started without a
producer resolves with `{ dx: 0, dy: 0 }`, and so does a run in which no point
collected a sample. -/
theorem calibration_offset_finite (w : Window) (available : Bool) (points : List CalTarget)
    (readings : ℕ → ℕ → Reading) (hne : points ≠ []) :
    ((∀ j k, boundedReading calibrationBound (readings j k)) →
        (|w.scrollX| ≤ calibrationBound ∧ |w.scrollY| ≤ calibrationBound) →
        (w.devicePixelRatio = 0 ∨ 1 / calibrationBound ≤ |w.devicePixelRatio|) →
        (∀ t ∈ points, |t.x * w.innerWidth| ≤ calibrationBound ∧
          |t.y * w.innerHeight| ≤ calibrationBound) →
        (points.length : ℚ) ≤ calibrationBound →
        ∃ dx dy : ℚ, (runCalibrationSequence w available points readings).resolved =
          some { dx := XNum.fin dx, dy := XNum.fin dy }) ∧
      ((∀ j, j < points.length → collectFrom w (readings j) 13 [] 0 = []) →
        (runCalibrationSequence w available points readings).resolved = some zeroOffset) := by
  cases available with
  | false =>
    rw [runCalibrationSequence_unavailable]
    exact ⟨fun _ _ _ _ _ => ⟨0, 0, by simp [calStart, zeroOffset]⟩, fun _ => by simp [calStart]⟩
  | true =>
    rw [runCalibrationSequence_complete w points readings hne]
    constructor
    · intro hread hscroll hdpr htarget hlen
      have hB : (1 : ℚ) ≤ calibrationBound := by unfold calibrationBound; norm_num
      have hS0 : (0 : ℚ) ≤ 2 * calibrationBound ^ 2 + 1 := by nlinarith
      have h14 : ((14 : ℕ) : ℚ) * (2 * calibrationBound ^ 2 + 1) < overflowBound :=
        lt_trans (by unfold calibrationBound; norm_num) overflowBound_large
      have hres : ∀ r ∈ (List.range' 0 points.length).map
          (fun i => collectSamplesForPoint w (readings i)),
          r.x.within (((14 : ℕ) : ℚ) * (2 * calibrationBound ^ 2 + 1)) ∧
            r.y.within (((14 : ℕ) : ℚ) * (2 * calibrationBound ^ 2 + 1)) := by
        intro r hr
        rw [List.mem_map] at hr
        obtain ⟨i, _, hi⟩ := hr
        rw [← hi]
        have hc := collectFrom_within w (readings i) _ rfl (hread i) hscroll hdpr 13 [] 0
          (by simp)
        exact averageSamples_within _ hS0 14 _ hc.1 (by simpa using hc.2) h14
      have hlt : (points.length : ℚ) *
          (calibrationBound + ((14 : ℕ) : ℚ) * (2 * calibrationBound ^ 2 + 1)) <
          overflowBound := by
        have h1 : (points.length : ℚ) *
            (calibrationBound + ((14 : ℕ) : ℚ) * (2 * calibrationBound ^ 2 + 1)) ≤
            calibrationBound *
              (calibrationBound + ((14 : ℕ) : ℚ) * (2 * calibrationBound ^ 2 + 1)) :=
          mul_le_mul_of_nonneg_right hlen (by push_cast; nlinarith)
        exact lt_of_le_of_lt h1
          (lt_trans (by unfold calibrationBound; norm_num) overflowBound_large)
      obtain ⟨h1, h2⟩ := calibrationOffset_within w points _ _ hres htarget hlt
        (by push_cast; nlinarith)
      obtain ⟨dx, hdx⟩ := (XNum.isFinite_iff _).mp h1
      obtain ⟨dy, hdy⟩ := (XNum.isFinite_iff _).mp h2
      refine ⟨dx, dy, ?_⟩
      simp only [Option.some.injEq]
      rw [← hdx, ← hdy]
    · intro hempty
      simp only [Option.some.injEq]
      apply calibrationOffset_of_no_count
      intro r hr
      rw [List.mem_map] at hr
      obtain ⟨i, hmem, hi⟩ := hr
      have hlt : i < points.length := by
        have := (List.mem_range'_1.mp hmem).2
        omega
      rw [← hi, collectSamplesForPoint, hempty i hlt, averageSamples_nil]
      simp [XNum.truthy]

/-! ### Concrete runs over the default points in a 1280 by 720 window -/

theorem collectFrom_constant (w : Window) (r : ℕ → Reading) (p : XPoint)
    (h : ∀ k, normalizeRawToClientX w (r k) = some p) :
    collectFrom w r 13 [] 0 = List.replicate 12 p := by
  simp [collectFrom, pushSample, h, List.replicate]

theorem sum_replicate (a : ℚ) (y : XNum) (n : ℕ) :
    ∀ (k : ℕ) (accY : XNum), ((k + n : ℕ) : ℚ) * |a| < overflowBound →
      ((List.replicate n ({ x := XNum.fin a, y := y } : XPoint)).foldl
          (fun (acc s : XPoint) => ({ x := acc.x.add s.x, y := acc.y.add s.y } : XPoint))
          ({ x := XNum.fin (k * a), y := accY } : XPoint)).x = XNum.fin (((k + n : ℕ) : ℚ) * a) := by
  induction n with
  | zero => intro k accY _; simp
  | succ n ih =>
    intro k accY h
    rw [List.replicate_succ, List.foldl_cons]
    have hk : |(k : ℚ) * a + a| < overflowBound := by
      have e : (k : ℚ) * a + a = ((k + 1 : ℕ) : ℚ) * a := by push_cast; ring
      rw [e, abs_mul, abs_of_nonneg (Nat.cast_nonneg _)]
      have hle : ((k + 1 : ℕ) : ℚ) ≤ ((k + (n + 1) : ℕ) : ℚ) := by
        exact_mod_cast (by omega : k + 1 ≤ k + (n + 1))
      exact lt_of_le_of_lt (mul_le_mul_of_nonneg_right hle (abs_nonneg a)) h
    have e1 : (XNum.fin ((k : ℚ) * a)).add (XNum.fin a) = XNum.fin (((k + 1 : ℕ) : ℚ) * a) := by
      simp only [XNum.add]
      rw [XNum.ofExact_of_abs_lt _ hk]
      push_cast
      ring_nf
    dsimp only
    rw [e1, ih (k + 1) _ (by rw [show k + 1 + n = k + (n + 1) by ring]; exact h)]
    rw [show k + 1 + n = k + (n + 1) by ring]

theorem sum_replicate_y (b : ℚ) (x : XNum) (n : ℕ) :
    ∀ (k : ℕ) (accX : XNum), ((k + n : ℕ) : ℚ) * |b| < overflowBound →
      ((List.replicate n ({ x := x, y := XNum.fin b } : XPoint)).foldl
          (fun (acc s : XPoint) => ({ x := acc.x.add s.x, y := acc.y.add s.y } : XPoint))
          ({ x := accX, y := XNum.fin (k * b) } : XPoint)).y = XNum.fin (((k + n : ℕ) : ℚ) * b) := by
  induction n with
  | zero => intro k accX _; simp
  | succ n ih =>
    intro k accX h
    rw [List.replicate_succ, List.foldl_cons]
    have hk : |(k : ℚ) * b + b| < overflowBound := by
      have e : (k : ℚ) * b + b = ((k + 1 : ℕ) : ℚ) * b := by push_cast; ring
      rw [e, abs_mul, abs_of_nonneg (Nat.cast_nonneg _)]
      have hle : ((k + 1 : ℕ) : ℚ) ≤ ((k + (n + 1) : ℕ) : ℚ) := by
        exact_mod_cast (by omega : k + 1 ≤ k + (n + 1))
      exact lt_of_le_of_lt (mul_le_mul_of_nonneg_right hle (abs_nonneg b)) h
    have e1 : (XNum.fin ((k : ℚ) * b)).add (XNum.fin b) = XNum.fin (((k + 1 : ℕ) : ℚ) * b) := by
      simp only [XNum.add]
      rw [XNum.ofExact_of_abs_lt _ hk]
      push_cast
      ring_nf
    dsimp only
    rw [e1, ih (k + 1) _ (by rw [show k + 1 + n = k + (n + 1) by ring]; exact h)]
    rw [show k + 1 + n = k + (n + 1) by ring]

theorem sum_replicate_nan (x : XNum) (n : ℕ) :
    ∀ (accX : XNum),
      ((List.replicate n ({ x := x, y := XNum.nan } : XPoint)).foldl
          (fun (acc s : XPoint) => ({ x := acc.x.add s.x, y := acc.y.add s.y } : XPoint))
          ({ x := accX, y := XNum.nan } : XPoint)).y = XNum.nan := by
  induction n with
  | zero => intro accX; simp
  | succ n ih =>
    intro accX
    rw [List.replicate_succ, List.foldl_cons]
    exact ih _

theorem averageSamples_x_constant (a : ℚ) (y : XNum) (ha : -10 ^ 6 ≤ a ∧ a ≤ 10 ^ 6) :
    (averageSamples (List.replicate 12 { x := XNum.fin a, y := y })).x = XNum.fin a := by
  have habs : |a| ≤ 10 ^ 6 := abs_le.2 ha
  have hOB : (10 : ℚ) ^ 9 < overflowBound := lt_trans (by norm_num) overflowBound_large
  have h12 : ((0 + 12 : ℕ) : ℚ) * |a| < overflowBound := by
    push_cast
    linarith
  have hs := sum_replicate a y 12 0 (XNum.fin 0) h12
  simp only [Nat.cast_zero, zero_mul] at hs
  unfold averageSamples
  simp only [List.length_replicate]
  rw [hs]
  have e : ((0 + 12 : ℕ) : ℚ) * a / ((12 : ℕ) : ℚ) = a := by push_cast; ring
  simp only [XNum.divBy]
  rw [if_neg (by norm_num), e, XNum.ofExact_of_abs_lt _ (by linarith), if_neg (by norm_num)]

theorem averageSamples_y_constant (b : ℚ) (x : XNum) (hb : -10 ^ 6 ≤ b ∧ b ≤ 10 ^ 6) :
    (averageSamples (List.replicate 12 { x := x, y := XNum.fin b })).y = XNum.fin b := by
  have habs : |b| ≤ 10 ^ 6 := abs_le.2 hb
  have hOB : (10 : ℚ) ^ 9 < overflowBound := lt_trans (by norm_num) overflowBound_large
  have h12 : ((0 + 12 : ℕ) : ℚ) * |b| < overflowBound := by
    push_cast
    linarith
  have hs := sum_replicate_y b x 12 0 (XNum.fin 0) h12
  simp only [Nat.cast_zero, zero_mul] at hs
  unfold averageSamples
  simp only [List.length_replicate]
  rw [hs]
  have e : ((0 + 12 : ℕ) : ℚ) * b / ((12 : ℕ) : ℚ) = b := by push_cast; ring
  simp only [XNum.divBy]
  rw [if_neg (by norm_num), e, XNum.ofExact_of_abs_lt _ (by linarith), if_neg (by norm_num)]

theorem averageSamples_constant (a b : ℚ) (ha : -10 ^ 6 ≤ a ∧ a ≤ 10 ^ 6)
    (hb : -10 ^ 6 ≤ b ∧ b ≤ 10 ^ 6) :
    averageSamples (List.replicate 12 { x := XNum.fin a, y := XNum.fin b }) =
      { x := XNum.fin a, y := XNum.fin b } := by
  have hx := averageSamples_x_constant a (XNum.fin b) ha
  have hy := averageSamples_y_constant b (XNum.fin a) hb
  cases h : averageSamples (List.replicate 12 { x := XNum.fin a, y := XNum.fin b }) with
  | mk x y =>
    rw [h] at hx hy
    simp only at hx hy
    rw [hx, hy]

theorem averageSamples_constant_nan (a : ℚ) (ha : -10 ^ 6 ≤ a ∧ a ≤ 10 ^ 6) :
    averageSamples (List.replicate 12 { x := XNum.fin a, y := XNum.nan }) =
      { x := XNum.fin a, y := XNum.nan } := by
  have hx := averageSamples_x_constant a XNum.nan ha
  have hy : (averageSamples (List.replicate 12 { x := XNum.fin a, y := XNum.nan })).y =
      XNum.nan := by
    have hs := sum_replicate_nan (XNum.fin a) 12 (XNum.fin 0)
    unfold averageSamples
    simp only [List.length_replicate]
    have hs' : ((List.replicate 12 ({ x := XNum.fin a, y := XNum.nan } : XPoint)).foldl
        (fun (acc s : XPoint) => ({ x := acc.x.add s.x, y := acc.y.add s.y } : XPoint))
        ({ x := XNum.fin 0, y := XNum.fin 0 } : XPoint)).y = XNum.nan := by
      rw [List.replicate_succ, List.foldl_cons]
      exact sum_replicate_nan (XNum.fin a) 11 _
    rw [if_neg (by norm_num), hs']
    rfl
  cases h : averageSamples (List.replicate 12 { x := XNum.fin a, y := XNum.nan }) with
  | mk x y =>
    rw [h] at hx hy
    simp only at hx hy
    rw [hx, hy]

theorem normalize_finite_sample (a b : ℚ) (ha' : a ≤ 1380) (hb' : b ≤ 820) :
    normalizeRawToClientX sampleWindow (some { x := some (XNum.fin a), y := some (XNum.fin b) }) =
      some { x := XNum.fin (mathRound a), y := XNum.fin (mathRound b) } := by
  have h1 : ¬ (1280 + 100 < a) := by linarith
  have h2 : ¬ (720 + 100 < b) := by linarith
  simp [normalizeRawToClientX, sampleWindow, XNum.gt, XNum.round, h1, h2]

theorem collect_constant_sample (r : ℕ → Reading) (a b : ℤ) (ha : (0 : ℚ) ≤ a ∧ (a : ℚ) ≤ 1380)
    (hb : (0 : ℚ) ≤ b ∧ (b : ℚ) ≤ 820)
    (hr : ∀ k, r k = some { x := some (XNum.fin a), y := some (XNum.fin b) }) :
    collectFrom sampleWindow r 13 [] 0 = List.replicate 12 { x := XNum.fin a, y := XNum.fin b } ∧
      collectSamplesForPoint sampleWindow r = { x := XNum.fin a, y := XNum.fin b } := by
  have hround : ∀ z : ℤ, mathRound (z : ℚ) = z := by
    intro z
    unfold mathRound
    have : ⌊(z : ℚ) + 1 / 2⌋ = z := by
      rw [Int.floor_eq_iff]
      constructor <;> linarith
    rw [this]
  have hn : ∀ k, normalizeRawToClientX sampleWindow (r k) =
      some { x := XNum.fin a, y := XNum.fin b } := by
    intro k
    rw [hr k, normalize_finite_sample _ _ ha.2 hb.2, hround, hround]
  have hc := collectFrom_constant sampleWindow r _ hn
  exact ⟨hc, by
    rw [collectSamplesForPoint, hc,
      averageSamples_constant _ _ ⟨by linarith [ha.1], by linarith [ha.2]⟩
        ⟨by linarith [hb.1], by linarith [hb.2]⟩]⟩

theorem steady_results :
    ((List.range' 0 defaultPoints.length).map fun i =>
        collectSamplesForPoint sampleWindow (steadyReadings i)) =
      List.replicate 5 { x := XNum.fin 600, y := XNum.fin 300 } := by
  have h : ∀ i, collectSamplesForPoint sampleWindow (steadyReadings i) =
      { x := XNum.fin 600, y := XNum.fin 300 } := by
    intro i
    have := (collect_constant_sample (steadyReadings i) 600 300 (by norm_num) (by norm_num)
      (fun _ => by simp [steadyReadings, steadyReading])).2
    simpa using this
  simp [defaultPoints, List.range', h, List.replicate]

theorem steady_offset :
    calibrationOffset sampleWindow defaultPoints
        (List.replicate 5 { x := XNum.fin 600, y := XNum.fin 300 }) =
      { dx := XNum.fin 40, dy := XNum.fin 60 } := by
  norm_num [calibrationOffset, offsetStep, defaultPoints, sampleWindow, List.replicate, XNum.truthy,
    XNum.add, XNum.sub, XNum.neg, XNum.divBy, XNum.ofExact_two_sided]

theorem normalize_steadyReading :
    normalizeRawToClientX sampleWindow steadyReading =
      some { x := XNum.fin 600, y := XNum.fin 300 } := by
  rw [steadyReading, normalize_finite_sample _ _ (by norm_num) (by norm_num)]
  norm_num [mathRound]

theorem lateCancel_prefix :
    calRun sampleWindow defaultPoints (calStart true defaultPoints)
        (pointsEvents steadyReadings 0 4) =
      { results := List.replicate 4 { x := XNum.fin 600, y := XNum.fin 300 }
        idx := 4
        cancelled := false
        phase := CalPhase.stepPending
        overlay := true
        cancelPending := false
        resolved := none
        stored := [] } := by
  have h : ∀ i, collectSamplesForPoint sampleWindow (steadyReadings i) =
      { x := XNum.fin 600, y := XNum.fin 300 } := by
    intro i
    have := (collect_constant_sample (steadyReadings i) 600 300 (by norm_num) (by norm_num)
      (fun _ => by simp [steadyReadings, steadyReading])).2
    simpa using this
  have hstart : calStart true defaultPoints =
      { results := [], idx := 0, cancelled := false, phase := CalPhase.stepPending,
        overlay := true, cancelPending := false, resolved := none, stored := [] } := by
    simp [calStart, defaultPoints]
  rw [hstart, calRun_points sampleWindow defaultPoints steadyReadings 3 0 _ rfl rfl rfl
    (by simp [defaultPoints])]
  simp [defaultPoints, List.range', h, List.replicate]

theorem lateCancel_run :
    calRun sampleWindow defaultPoints (calStart true defaultPoints) lateCancelEvents =
      { results := List.replicate 5 { x := XNum.fin 600, y := XNum.fin 300 }
        idx := 5
        cancelled := true
        phase := CalPhase.idle
        overlay := false
        cancelPending := false
        resolved := some zeroOffset
        stored := [{ dx := XNum.fin 40, dy := XNum.fin 60 }] } := by
  unfold lateCancelEvents
  rw [calRun_append, calRun_append, calRun_append, calRun_append, lateCancel_prefix]
  have havg := averageSamples_constant 600 300 (by norm_num) (by norm_num)
  simp only [List.replicate] at havg
  have hlen : defaultPoints.length = 5 := rfl
  have hoff := steady_offset
  simp only [List.replicate] at hoff
  simp [calRun, calStep, pushSample, normalize_steadyReading, afterCollect, List.replicate,
    hlen, havg, hoff]

theorem edge_results :
    ((List.range' 0 defaultPoints.length).map fun i =>
        collectSamplesForPoint sampleWindow (edgeReadings i)) =
      [{ x := XNum.fin 0, y := XNum.fin 70 }, { x := XNum.fin 1142, y := XNum.fin 62 },
        { x := XNum.fin 630, y := XNum.fin 350 }, { x := XNum.fin 118, y := XNum.fin 638 },
        { x := XNum.fin 1142, y := XNum.fin 638 }] := by
  have h0 := (collect_constant_sample (edgeReadings 0) 0 70 (by norm_num) (by norm_num)
    (fun _ => by simp [edgeReadings])).2
  have h1 := (collect_constant_sample (edgeReadings 1) 1142 62 (by norm_num) (by norm_num)
    (fun _ => by simp [edgeReadings])).2
  have h2 := (collect_constant_sample (edgeReadings 2) 630 350 (by norm_num) (by norm_num)
    (fun _ => by simp [edgeReadings])).2
  have h3 := (collect_constant_sample (edgeReadings 3) 118 638 (by norm_num) (by norm_num)
    (fun _ => by simp [edgeReadings])).2
  have h4 := (collect_constant_sample (edgeReadings 4) 1142 638 (by norm_num) (by norm_num)
    (fun _ => by simp [edgeReadings])).2
  simp only [Int.cast_ofNat, Int.cast_zero] at h0 h1 h2 h3 h4
  simp [defaultPoints, List.range', h0, h1, h2, h3, h4]

theorem edge_collected (j : ℕ) (hj : j < 5) :
    (collectFrom sampleWindow (edgeReadings j) 13 [] 0).length = 12 := by
  have h : ∀ (a b : ℤ), ((0 : ℚ) ≤ a ∧ (a : ℚ) ≤ 1380) → ((0 : ℚ) ≤ b ∧ (b : ℚ) ≤ 820) →
      (∀ k, edgeReadings j k = some { x := some (XNum.fin a), y := some (XNum.fin b) }) →
      (collectFrom sampleWindow (edgeReadings j) 13 [] 0).length = 12 := by
    intro a b ha hb hr
    rw [(collect_constant_sample (edgeReadings j) a b ha hb hr).1]
    simp
  interval_cases j
  · exact h 0 70 (by norm_num) (by norm_num) (fun _ => by simp [edgeReadings])
  · exact h 1142 62 (by norm_num) (by norm_num) (fun _ => by simp [edgeReadings])
  · exact h 630 350 (by norm_num) (by norm_num) (fun _ => by simp [edgeReadings])
  · exact h 118 638 (by norm_num) (by norm_num) (fun _ => by simp [edgeReadings])
  · exact h 1142 638 (by norm_num) (by norm_num) (fun _ => by simp [edgeReadings])

/-- C11, the code at the failing input: over the default points in a 1280 by
720 window, the producer returns `{ x: 0, y: 70 }` while the first target
(128, 72) is shown and a point 10 px left of and above each of the other four
targets. Every point collects twelve valid samples, so the mean of
`target - averaged sample` over the sampled points is (168/5, 42/5); the
sequence resolves with (10, 10), the mean over the last four points only,
because the first point's averaged `x` is 0 and fails the test `r && r.x`. -/
theorem calibration_skips_point_averaging_to_zero :
    (∀ j, j < 5 → (collectFrom sampleWindow (edgeReadings j) 13 [] 0).length = 12) ∧
      (runCalibrationSequence sampleWindow true defaultPoints edgeReadings).resolved =
        some { dx := XNum.fin 10, dy := XNum.fin 10 } ∧
      meanErrorOfSampledPoints sampleWindow defaultPoints
          ((List.range' 0 defaultPoints.length).map fun i =>
            collectFrom sampleWindow (edgeReadings i) 13 [] 0) =
        { dx := XNum.fin (168 / 5), dy := XNum.fin (42 / 5) } ∧
      (runCalibrationSequence sampleWindow true defaultPoints edgeReadings).resolved ≠
        some (meanErrorOfSampledPoints sampleWindow defaultPoints
          ((List.range' 0 defaultPoints.length).map fun i =>
            collectFrom sampleWindow (edgeReadings i) 13 [] 0)) := by
  have hrun : (runCalibrationSequence sampleWindow true defaultPoints edgeReadings).resolved =
      some { dx := XNum.fin 10, dy := XNum.fin 10 } := by
    rw [runCalibrationSequence_complete _ _ _ (by simp [defaultPoints]), edge_results]
    norm_num [calibrationOffset, offsetStep, defaultPoints, sampleWindow, XNum.truthy,
      XNum.add, XNum.sub, XNum.neg, XNum.divBy, XNum.ofExact_two_sided]
  have hc : ∀ (j : ℕ) (a b : ℤ), ((0 : ℚ) ≤ a ∧ (a : ℚ) ≤ 1380) → ((0 : ℚ) ≤ b ∧ (b : ℚ) ≤ 820) →
      (∀ k, edgeReadings j k = some { x := some (XNum.fin a), y := some (XNum.fin b) }) →
      collectFrom sampleWindow (edgeReadings j) 13 [] 0 =
        List.replicate 12 { x := XNum.fin a, y := XNum.fin b } :=
    fun j a b ha hb hr => (collect_constant_sample (edgeReadings j) a b ha hb hr).1
  have h0 := hc 0 0 70 (by norm_num) (by norm_num) (fun _ => by simp [edgeReadings])
  have h1 := hc 1 1142 62 (by norm_num) (by norm_num) (fun _ => by simp [edgeReadings])
  have h2 := hc 2 630 350 (by norm_num) (by norm_num) (fun _ => by simp [edgeReadings])
  have h3 := hc 3 118 638 (by norm_num) (by norm_num) (fun _ => by simp [edgeReadings])
  have h4 := hc 4 1142 638 (by norm_num) (by norm_num) (fun _ => by simp [edgeReadings])
  simp only [Int.cast_ofNat, Int.cast_zero] at h0 h1 h2 h3 h4
  have hspec : meanErrorOfSampledPoints sampleWindow defaultPoints
      ((List.range' 0 defaultPoints.length).map fun i =>
        collectFrom sampleWindow (edgeReadings i) 13 [] 0) =
      { dx := XNum.fin (168 / 5), dy := XNum.fin (42 / 5) } := by
    have a0 := averageSamples_constant 0 70 (by norm_num) (by norm_num)
    have a1 := averageSamples_constant 1142 62 (by norm_num) (by norm_num)
    have a2 := averageSamples_constant 630 350 (by norm_num) (by norm_num)
    have a3 := averageSamples_constant 118 638 (by norm_num) (by norm_num)
    have a4 := averageSamples_constant 1142 638 (by norm_num) (by norm_num)
    simp only [List.replicate] at a0 a1 a2 a3 a4
    simp only [meanErrorOfSampledPoints, defaultPoints, List.length_cons, List.length_nil,
      List.range', List.map_cons, List.map_nil, h0, h1, h2, h3, h4, List.replicate]
    simp [List.zip, List.filter, a0, a1, a2, a3, a4, sampleWindow, XNum.add, XNum.sub,
      XNum.neg, XNum.divBy]
    norm_num [XNum.ofExact_two_sided]
  refine ⟨edge_collected, hrun, hspec, ?_⟩
  rw [hrun, hspec]
  simp
  norm_num

/-- C13, the code at the failing input: over the default points with a steady
producer, the user clicks outside the panel while the last point is being
sampled. Right after the click `cancelled` is set and nothing has been stored;
the promise is then resolved with `{ dx: 0, dy: 0 }` by the timer of the click;
yet the sampling of the last point runs on, the finishing branch is entered
without looking at `cancelled`, and `setCalibration` is called with the offset
(40, 60) computed from the samples. -/
theorem cancel_during_last_point_still_stores :
    ((calRun sampleWindow defaultPoints (calStart true defaultPoints)
          (pointsEvents steadyReadings 0 4 ++
            (CalEvent.timer :: List.replicate 5 (CalEvent.tick steadyReading)) ++
            [CalEvent.click])).cancelled = true ∧
        (calRun sampleWindow defaultPoints (calStart true defaultPoints)
          (pointsEvents steadyReadings 0 4 ++
            (CalEvent.timer :: List.replicate 5 (CalEvent.tick steadyReading)) ++
            [CalEvent.click])).stored = [] ∧
        (calRun sampleWindow defaultPoints (calStart true defaultPoints)
          (pointsEvents steadyReadings 0 4 ++
            (CalEvent.timer :: List.replicate 5 (CalEvent.tick steadyReading)) ++
            [CalEvent.click])).resolved = none) ∧
      (calRun sampleWindow defaultPoints (calStart true defaultPoints)
          lateCancelEvents).resolved = some zeroOffset ∧
      (calRun sampleWindow defaultPoints (calStart true defaultPoints)
          lateCancelEvents).stored = [{ dx := XNum.fin 40, dy := XNum.fin 60 }] ∧
      ({ dx := XNum.fin 40, dy := XNum.fin 60 } : XCalibration) ≠ zeroOffset := by
  refine ⟨?_, ?_, ?_, ?_⟩
  · rw [calRun_append, calRun_append, lateCancel_prefix]
    simp [calRun, calStep, pushSample, normalize_steadyReading, List.replicate]
  · rw [lateCancel_run]
  · rw [lateCancel_run]
  · simp [zeroOffset]

theorem normalize_nan_reading :
    normalizeRawToClientX sampleWindow (some { x := some (XNum.fin 600), y := some XNum.nan }) =
      some { x := XNum.fin 600, y := XNum.nan } := by
  simp [normalizeRawToClientX, sampleWindow, XNum.gt, XNum.round]
  norm_num [mathRound]

/-- C14 refuted as stated: over the default points in a 1280 by 720 window,
with a producer that returns `{ x: 600, y: NaN }` at every tick (both
coordinates are of type number), the sequence resolves with and stores
`{ dx: 40, dy: NaN }`. -/
theorem calibration_offset_nan :
    (runCalibrationSequence sampleWindow true defaultPoints nanReadings).resolved =
        some { dx := XNum.fin 40, dy := XNum.nan } ∧
      (runCalibrationSequence sampleWindow true defaultPoints nanReadings).stored =
        [{ dx := XNum.fin 40, dy := XNum.nan }] ∧
      XNum.nan.isFinite = false := by
  have hc : ∀ i, collectSamplesForPoint sampleWindow (nanReadings i) =
      { x := XNum.fin 600, y := XNum.nan } := by
    intro i
    rw [collectSamplesForPoint,
      collectFrom_constant sampleWindow (nanReadings i) _ (fun _ => normalize_nan_reading),
      averageSamples_constant_nan _ (by norm_num)]
  have hoff : calibrationOffset sampleWindow defaultPoints
      ((List.range' 0 defaultPoints.length).map fun i =>
        collectSamplesForPoint sampleWindow (nanReadings i)) =
      { dx := XNum.fin 40, dy := XNum.nan } := by
    have hlist : ((List.range' 0 defaultPoints.length).map fun i =>
        collectSamplesForPoint sampleWindow (nanReadings i)) =
        List.replicate 5 { x := XNum.fin 600, y := XNum.nan } := by
      simp [defaultPoints, List.range', hc, List.replicate]
    rw [hlist]
    norm_num [calibrationOffset, offsetStep, defaultPoints, sampleWindow, List.replicate,
      XNum.truthy, XNum.add, XNum.sub, XNum.neg, XNum.divBy, XNum.ofExact_two_sided]
  rw [runCalibrationSequence_complete _ _ _ (by simp [defaultPoints]), hoff]
  exact ⟨rfl, rfl, rfl⟩

theorem steadyReadings_bounded (j k : ℕ) :
    boundedReading calibrationBound (steadyReadings j k) := by
  simp only [steadyReadings, steadyReading, boundedReading, XNum.within, calibrationBound]
  constructor <;> rw [abs_of_pos (by norm_num)] <;> norm_num

theorem sampleWindow_bounded :
    (|sampleWindow.scrollX| ≤ calibrationBound ∧ |sampleWindow.scrollY| ≤ calibrationBound) ∧
      (sampleWindow.devicePixelRatio = 0 ∨
        1 / calibrationBound ≤ |sampleWindow.devicePixelRatio|) ∧
      (∀ t ∈ defaultPoints, |t.x * sampleWindow.innerWidth| ≤ calibrationBound ∧
        |t.y * sampleWindow.innerHeight| ≤ calibrationBound) ∧
      (defaultPoints.length : ℚ) ≤ calibrationBound := by
  refine ⟨?_, ?_, ?_, ?_⟩
  · simp [sampleWindow, calibrationBound]
  · right
    simp only [sampleWindow, calibrationBound, abs_one]
    norm_num
  · intro t ht
    simp only [defaultPoints, List.mem_cons, List.mem_singleton, List.not_mem_nil, or_false] at ht
    rcases ht with rfl | rfl | rfl | rfl | rfl <;>
      simp only [sampleWindow, calibrationBound] <;>
      constructor <;> rw [abs_of_pos (by norm_num)] <;> norm_num
  · simp only [defaultPoints, List.length_cons, List.length_nil, calibrationBound]
    norm_num

/-- Witness for C14: the steady producer `{ x: 600, y: 300 }` over the default
points in the 1280 by 720 window stays within the bounds and gives the offset
(40, 60). -/
theorem calibration_offset_finite_witness :
    defaultPoints ≠ [] ∧ (∀ j k, boundedReading calibrationBound (steadyReadings j k)) ∧
      (runCalibrationSequence sampleWindow true defaultPoints steadyReadings).resolved =
        some { dx := XNum.fin 40, dy := XNum.fin 60 } ∧
      ∃ dx dy : ℚ,
        (runCalibrationSequence sampleWindow true defaultPoints steadyReadings).resolved =
          some { dx := XNum.fin dx, dy := XNum.fin dy } :=
  have hne : defaultPoints ≠ [] := by simp [defaultPoints]
  ⟨hne, steadyReadings_bounded,
    by rw [runCalibrationSequence_complete _ _ _ hne, steady_results, steady_offset],
    (calibration_offset_finite sampleWindow true defaultPoints steadyReadings hne).1
      steadyReadings_bounded sampleWindow_bounded.1 sampleWindow_bounded.2.1
      sampleWindow_bounded.2.2.1 sampleWindow_bounded.2.2.2⟩

/-- On values of the rational model that stay within the bounds of C14 the two
embeddings of `normalizeRawToClient` agree. -/
theorem normalizeRawToClientX_agrees (w : Window) (v : JSVal)
    (hb : boundedReading calibrationBound v.toReading)
    (hscroll : |w.scrollX| ≤ calibrationBound ∧ |w.scrollY| ≤ calibrationBound)
    (hdpr : w.devicePixelRatio = 0 ∨ 1 / calibrationBound ≤ |w.devicePixelRatio|) :
    normalizeRawToClientX w v.toReading =
      (normalizeRawToClient w v).map fun p => { x := XNum.fin p.x, y := XNum.fin p.y } := by
  have hB : (1 : ℚ) ≤ calibrationBound := by unfold calibrationBound; norm_num
  have hOB : 2 * calibrationBound ^ 2 < overflowBound :=
    lt_trans (by unfold calibrationBound; norm_num) overflowBound_large
  have key : ∀ (x s : ℚ), |x| ≤ calibrationBound → |s| ≤ calibrationBound →
      XNum.ofExact x = XNum.fin x ∧ XNum.ofExact (x + -s) = XNum.fin (x + -s) ∧
        (w.devicePixelRatio ≠ 0 →
          XNum.ofExact (x / w.devicePixelRatio) = XNum.fin (x / w.devicePixelRatio) ∧
            XNum.ofExact ((x + -s) / w.devicePixelRatio) =
              XNum.fin ((x + -s) / w.devicePixelRatio)) := by
    intro x s hx hs
    have h1 : |x + -s| ≤ 2 * calibrationBound := by
      have := abs_add x (-s)
      rw [abs_neg] at this
      linarith
    refine ⟨XNum.ofExact_of_abs_lt _ (by nlinarith), XNum.ofExact_of_abs_lt _ (by nlinarith), ?_⟩
    intro hd
    have hd1 : 1 / calibrationBound ≤ |w.devicePixelRatio| := by
      rcases hdpr with h | h
      · exact absurd h hd
      · exact h
    have hdpos : 0 < |w.devicePixelRatio| := abs_pos.2 hd
    have h3 : 1 ≤ calibrationBound * |w.devicePixelRatio| := by
      have := mul_le_mul_of_nonneg_left hd1 (by linarith : (0 : ℚ) ≤ calibrationBound)
      rw [mul_one_div_cancel (by linarith : calibrationBound ≠ 0)] at this
      exact this
    have hdiv : ∀ z : ℚ, |z| ≤ 2 * calibrationBound →
        |z / w.devicePixelRatio| ≤ 2 * calibrationBound ^ 2 := by
      intro z hz
      rw [abs_div, div_le_iff₀ hdpos]
      nlinarith [abs_nonneg z]
    exact ⟨XNum.ofExact_of_abs_lt _ (lt_of_le_of_lt (hdiv x (by linarith)) hOB),
      XNum.ofExact_of_abs_lt _ (lt_of_le_of_lt (hdiv _ h1) hOB)⟩
  unfold normalizeRawToClientX normalizeRawToClient
  unfold JSVal.toReading at hb ⊢
  by_cases hf : v.falsy = true
  · simp [hf]
  · simp only [hf, Bool.false_eq_true, if_false] at hb ⊢
    rcases hx : v.getX.asNumber with _ | x0
    · simp
    · rcases hy : v.getY.asNumber with _ | y0
      · simp
      · simp only [boundedReading, hx, hy, Option.map_some', XNum.within] at hb
        obtain ⟨kx1, kx2, kx3⟩ := key x0 w.scrollX hb.1 hscroll.1
        obtain ⟨ky1, ky2, ky3⟩ := key y0 w.scrollY hb.2 hscroll.2
        simp only [Option.map_some', XNum.gt, gt_iff_lt]
        by_cases hd : w.devicePixelRatio = 0
        · have hr1 : mathRound 1 = 1 := by norm_num [mathRound]
          simp [hd, hr1]
          split <;> simp [XNum.sub, XNum.add, XNum.neg, XNum.round, sub_eq_add_neg, kx2, ky2]
        · simp only [hd, if_false]
          split
          · split <;>
              simp [XNum.sub, XNum.add, XNum.neg, XNum.round, XNum.divBy, hd, sub_eq_add_neg,
                kx2, ky2, (kx3 hd).1, (kx3 hd).2, (ky3 hd).1, (ky3 hd).2]
          · split <;>
              simp [XNum.sub, XNum.add, XNum.neg, XNum.round, XNum.divBy, hd, sub_eq_add_neg,
                kx2, ky2, (kx3 hd).1, (kx3 hd).2, (ky3 hd).1, (ky3 hd).2]

/-! ### A run whose sums overflow -/

theorem mathRound_natCast (n : ℕ) : mathRound (n : ℚ) = n := by
  unfold mathRound
  have h : ⌊(n : ℚ) + 1 / 2⌋ = (n : ℤ) := by
    rw [Int.floor_eq_iff]
    push_cast
    constructor <;> linarith
  rw [h]
  simp

theorem XNum.ofExact_in_range (q : ℚ) (h : -overflowBound < q ∧ q < overflowBound) :
    XNum.ofExact q = XNum.fin q :=
  XNum.ofExact_of_abs_lt q (abs_lt.2 h)

theorem XNum.ofExact_overflow (q : ℚ) (h : overflowBound ≤ q) :
    XNum.ofExact q = XNum.inf true := by
  unfold XNum.ofExact
  rw [if_pos h]

theorem normalize_huge_reading :
    normalizeRawToClientX sampleWindow
        (some { x := some (XNum.fin (10 ^ 308)), y := some (XNum.fin 300) }) =
      some { x := XNum.fin (10 ^ 308), y := XNum.fin 300 } := by
  have hr : mathRound ((10 : ℚ) ^ 308) = 10 ^ 308 := by
    have := mathRound_natCast (10 ^ 308)
    simp only [Nat.cast_pow, Nat.cast_ofNat, Int.cast_pow, Int.cast_ofNat] at this
    exact this
  have hr2 : mathRound (300 : ℚ) = 300 := by exact_mod_cast mathRound_natCast 300
  have e1 : XNum.ofExact ((10 : ℚ) ^ 308 + -0) = XNum.fin (10 ^ 308) := by
    rw [XNum.ofExact_in_range _ (by unfold overflowBound; norm_num)]
    norm_num
  have e2 : XNum.ofExact ((300 : ℚ) + -0) = XNum.fin 300 := by
    rw [XNum.ofExact_in_range _ (by unfold overflowBound; norm_num)]
    norm_num
  have hp : (1280 : ℚ) + 100 < 10 ^ 308 := by norm_num
  simp only [normalizeRawToClientX, sampleWindow, XNum.gt, hp, decide_True, Bool.true_or,
    if_true, XNum.sub, XNum.neg, XNum.add, e1, e2]
  norm_num [XNum.round, hr, hr2, mathRound]

theorem averageSamples_huge :
    averageSamples (List.replicate 12 { x := XNum.fin (10 ^ 308), y := XNum.fin 300 }) =
      { x := XNum.inf true, y := XNum.fin 300 } := by
  have hy := averageSamples_y_constant 300 (XNum.fin (10 ^ 308)) (by norm_num)
  have e1 : XNum.ofExact ((0 : ℚ) + 10 ^ 308) = XNum.fin (10 ^ 308) := by
    rw [XNum.ofExact_in_range _ (by unfold overflowBound; norm_num)]
    norm_num
  have e2 : XNum.ofExact ((10 : ℚ) ^ 308 + 10 ^ 308) = XNum.inf true :=
    XNum.ofExact_overflow _ (by unfold overflowBound; norm_num)
  have hx : (averageSamples
      (List.replicate 12 { x := XNum.fin (10 ^ 308), y := XNum.fin 300 })).x = XNum.inf true := by
    simp only [averageSamples, List.replicate, List.foldl_cons, List.foldl_nil, XNum.add, e1, e2,
      List.length_cons, List.length_nil]
    norm_num [XNum.divBy]
  cases h : averageSamples (List.replicate 12 { x := XNum.fin (10 ^ 308), y := XNum.fin 300 }) with
  | mk x y =>
    rw [h] at hx hy
    simp only at hx hy
    rw [hx, hy]

/-- Finite samples can overflow: with a producer that returns
`{ x: 1e308, y: 300 }` at every tick the sum of the second sample already
exceeds the largest double, every point averages to `x = Infinity`, and the
sequence resolves with and stores `{ dx: -Infinity, dy: 60 }`. -/
theorem calibration_offset_overflow :
    (∀ j k, finiteReading (hugeReadings j k) = true) ∧
      (runCalibrationSequence sampleWindow true defaultPoints hugeReadings).resolved =
        some { dx := XNum.inf false, dy := XNum.fin 60 } ∧
      (runCalibrationSequence sampleWindow true defaultPoints hugeReadings).stored =
        [{ dx := XNum.inf false, dy := XNum.fin 60 }] := by
  have hc : ∀ i, collectSamplesForPoint sampleWindow (hugeReadings i) =
      { x := XNum.inf true, y := XNum.fin 300 } := by
    intro i
    rw [collectSamplesForPoint,
      collectFrom_constant sampleWindow (hugeReadings i) _ (fun _ => normalize_huge_reading),
      averageSamples_huge]
  have hoff : calibrationOffset sampleWindow defaultPoints
      ((List.range' 0 defaultPoints.length).map fun i =>
        collectSamplesForPoint sampleWindow (hugeReadings i)) =
      { dx := XNum.inf false, dy := XNum.fin 60 } := by
    have hlist : ((List.range' 0 defaultPoints.length).map fun i =>
        collectSamplesForPoint sampleWindow (hugeReadings i)) =
        List.replicate 5 { x := XNum.inf true, y := XNum.fin 300 } := by
      simp [defaultPoints, List.range', hc, List.replicate]
    rw [hlist]
    norm_num [calibrationOffset, offsetStep, defaultPoints, sampleWindow, List.replicate,
      XNum.truthy, XNum.add, XNum.sub, XNum.neg, XNum.divBy, XNum.ofExact_two_sided]
  rw [runCalibrationSequence_complete _ _ _ (by simp [defaultPoints]), hoff]
  exact ⟨fun _ _ => rfl, rfl, rfl⟩

/-! ## Paginated locator: lines and paragraphs -/

theorem placeSpan_new (sp : Span) (lines : List Line)
    (h : ∀ l ∈ lines, l.near (mathRound sp.rect.top) = false) :
    placeSpan sp lines = lines ++ [(Line.opened sp).push sp] := by
  induction lines with
  | nil => rfl
  | cons l ls ih =>
    simp only [placeSpan, h l (List.mem_cons_self _ _), Bool.false_eq_true, if_false,
      List.cons_append, List.cons.injEq, true_and]
    exact ih fun q hq => h q (List.mem_cons_of_mem _ hq)

theorem placeSpan_join (sp : Span) (before after : List Line) (l : Line)
    (hb : ∀ q ∈ before, q.near (mathRound sp.rect.top) = false)
    (hl : l.near (mathRound sp.rect.top) = true) :
    placeSpan sp (before ++ l :: after) = before ++ l.push sp :: after := by
  induction before with
  | nil => simp [placeSpan, hl]
  | cons q qs ih =>
    simp only [List.cons_append, placeSpan, hb q (List.mem_cons_self _ _), Bool.false_eq_true,
      if_false, List.cons.injEq, true_and]
    exact ih fun r hr => hb r (List.mem_cons_of_mem _ hr)

theorem Line.push_wellFormed (l : Line) (sp : Span) (hl : l.wellFormed)
    (hn : l.near (mathRound sp.rect.top) = true) : (l.push sp).wellFormed := by
  obtain ⟨⟨first, rest, hs, ht⟩, hall⟩ := hl
  refine ⟨⟨first, rest ++ [sp], by simp [Line.push, hs], ht⟩, ?_⟩
  intro q hq
  simp only [Line.push, List.mem_append, List.mem_singleton] at hq
  rcases hq with hq | hq
  · exact hall q hq
  · subst hq
    simpa [Line.near] using hn

theorem Line.opened_wellFormed (sp : Span) : ((Line.opened sp).push sp).wellFormed := by
  refine ⟨⟨sp, [], rfl, rfl⟩, ?_⟩
  intro q hq
  simp only [Line.push, Line.opened, List.nil_append, List.mem_singleton] at hq
  subst hq
  simp [Line.push, Line.opened]

theorem placeSpan_wellFormed (sp : Span) (lines : List Line)
    (h : ∀ l ∈ lines, l.wellFormed) : ∀ l ∈ placeSpan sp lines, l.wellFormed := by
  induction lines with
  | nil =>
    intro l hl
    simp only [placeSpan, List.mem_singleton] at hl
    subst hl
    exact Line.opened_wellFormed sp
  | cons a as ih =>
    intro l hl
    unfold placeSpan at hl
    by_cases hn : a.near (mathRound sp.rect.top) = true
    · rw [if_pos hn, List.mem_cons] at hl
      rcases hl with hl | hl
      · subst hl
        exact Line.push_wellFormed a sp (h a (List.mem_cons_self _ _)) hn
      · exact h l (List.mem_cons_of_mem _ hl)
    · rw [if_neg hn, List.mem_cons] at hl
      rcases hl with hl | hl
      · subst hl
        exact h l (List.mem_cons_self _ _)
      · exact ih (fun q hq => h q (List.mem_cons_of_mem _ hq)) l hl

theorem foldl_placeSpan_wellFormed (spans : List Span) :
    ∀ lines : List Line, (∀ l ∈ lines, l.wellFormed) →
      ∀ l ∈ spans.foldl (fun lines sp => placeSpan sp lines) lines, l.wellFormed := by
  induction spans with
  | nil => intro lines h; exact h
  | cons sp sps ih =>
    intro lines h
    exact ih (placeSpan sp lines) (placeSpan_wellFormed sp lines h)

theorem groupLines_pair (a b : Span) :
    groupLines [a, b] =
      if |mathRound a.rect.top - mathRound b.rect.top| < 6 then
        [((Line.opened a).push a).push b]
      else [(Line.opened a).push a, (Line.opened b).push b] := by
  simp only [groupLines, List.foldl_cons, List.foldl_nil, placeSpan, Line.near]
  have e : ((Line.opened a).push a).top = mathRound a.rect.top := rfl
  rw [e]
  by_cases h : |mathRound a.rect.top - mathRound b.rect.top| < 6
  · simp [h]
  · simp [h]

/-- C21, counterexample: of three fragments at tops 100, 105 and 110 the second
joins the line opened by the first, and the third, 5 px below the second, is
10 px from that line's top and opens a line of its own; no line holds both the
second and the third. -/
theorem groupLines_splits_close_fragments :
    |(fragment 100 105).rect.top - (fragment 150 110).rect.top| < 6 ∧
      groupLines [fragment 50 100, fragment 100 105, fragment 150 110] =
        [((Line.opened (fragment 50 100)).push (fragment 50 100)).push (fragment 100 105),
          (Line.opened (fragment 150 110)).push (fragment 150 110)] ∧
      ¬ ∃ l ∈ groupLines [fragment 50 100, fragment 100 105, fragment 150 110],
          fragment 100 105 ∈ l.spans ∧ fragment 150 110 ∈ l.spans := by
  have r100 : mathRound (100 : ℚ) = 100 := by exact_mod_cast mathRound_natCast 100
  have r105 : mathRound (105 : ℚ) = 105 := by exact_mod_cast mathRound_natCast 105
  have r110 : mathRound (110 : ℚ) = 110 := by exact_mod_cast mathRound_natCast 110
  have hg : groupLines [fragment 50 100, fragment 100 105, fragment 150 110] =
      [((Line.opened (fragment 50 100)).push (fragment 50 100)).push (fragment 100 105),
        (Line.opened (fragment 150 110)).push (fragment 150 110)] := by
    simp only [groupLines, List.foldl_cons, List.foldl_nil, placeSpan, Line.near, Line.push,
      Line.opened, fragment, r100, r105, r110]
    norm_num
    simp only [placeSpan, Line.near, Line.push, Line.opened, r110]
    norm_num
  refine ⟨by norm_num [fragment], hg, ?_⟩
  rw [hg]
  simp [Line.push, Line.opened, fragment]

/-- C21, as the code has it: `indexTextLayers` compares the rounded top of each
fragment with the `top` of the lines built so far, which is the rounded top of
the fragment that opened the line. The fragment joins the first line, in order
of creation, whose `top` differs from its rounded top by less than 6, and opens
a new line at the end when there is none. So every fragment of a line lies less
than 6 px (after rounding) from the line's first fragment, and a layer of two
fragments gives one line exactly when their rounded tops differ by less than 6,
as for 100 and 104. -/
theorem groupLines_joins_first_near_line (sp : Span) (lines : List Line) (spans : List Span)
    (a b : Span) :
    ((∀ l ∈ lines, ¬ |l.top - mathRound sp.rect.top| < 6) →
        placeSpan sp lines = lines ++ [(Line.opened sp).push sp]) ∧
      (∀ before l after, lines = before ++ l :: after →
        (∀ q ∈ before, ¬ |q.top - mathRound sp.rect.top| < 6) →
        |l.top - mathRound sp.rect.top| < 6 →
        placeSpan sp lines = before ++ l.push sp :: after) ∧
      (∀ l ∈ groupLines spans, l.wellFormed) ∧
      (|mathRound a.rect.top - mathRound b.rect.top| < 6 →
        groupLines [a, b] = [((Line.opened a).push a).push b]) ∧
      (¬ |mathRound a.rect.top - mathRound b.rect.top| < 6 →
        groupLines [a, b] = [(Line.opened a).push a, (Line.opened b).push b]) := by
  refine ⟨?_, ?_, ?_, ?_, ?_⟩
  · intro h
    exact placeSpan_new sp lines fun l hl => by simpa [Line.near] using h l hl
  · intro before l after hlines hb hl
    rw [hlines]
    exact placeSpan_join sp before after l (fun q hq => by simpa [Line.near] using hb q hq)
      (by simpa [Line.near] using hl)
  · exact foldl_placeSpan_wellFormed spans [] (fun l hl => absurd hl (List.not_mem_nil l))
  · intro h
    rw [groupLines_pair, if_pos h]
  · intro h
    rw [groupLines_pair, if_neg h]

/-- Witness for C21: two fragments at tops 100 and 104 form one line. -/
theorem groupLines_joins_first_near_line_witness :
    |mathRound (fragment 50 100).rect.top - mathRound (fragment 100 104).rect.top| < 6 ∧
      groupLines [fragment 50 100, fragment 100 104] =
        [((Line.opened (fragment 50 100)).push (fragment 50 100)).push (fragment 100 104)] :=
  have r100 : mathRound (100 : ℚ) = 100 := by exact_mod_cast mathRound_natCast 100
  have r104 : mathRound (104 : ℚ) = 104 := by exact_mod_cast mathRound_natCast 104
  have h : |mathRound (fragment 50 100).rect.top - mathRound (fragment 100 104).rect.top| < 6 := by
    simp only [fragment, r100, r104]
    norm_num
  ⟨h, (groupLines_joins_first_near_line (fragment 50 100) [] []
    (fragment 50 100) (fragment 100 104)).2.2.2.1 h⟩

theorem addLine_length (ps : Paragraphs) (ln : Line) :
    (addLine ps ln).toList.length =
      if |ln.top - ps.last.rect.bottom| < 12 then ps.toList.length else ps.toList.length + 1 := by
  unfold addLine Paragraph.adjoins
  by_cases h : |ln.top - ps.last.rect.bottom| < 12
  · simp [h, Paragraphs.toList]
  · simp [h, Paragraphs.toList]

theorem groupParagraphs_pair (paragraphs : List Paragraph) (pid : ℕ) (l1 l2 : Line) :
    (groupParagraphs paragraphs pid [l1, l2]).1 =
      if |l2.top - l1.rect.bottom| < 12 then paragraphs ++ [(Paragraph.ofLine pid l1).merge l2]
      else paragraphs ++ [Paragraph.ofLine pid l1, Paragraph.ofLine (pid + 1) l2] := by
  simp only [groupParagraphs, List.foldl_cons, List.foldl_nil, addLine, Paragraph.adjoins]
  have e : (Paragraph.ofLine pid l1).rect.bottom = l1.rect.bottom := rfl
  rw [e]
  by_cases h : |l2.top - l1.rect.bottom| < 12
  · simp [h, Paragraphs.toList]
  · simp [h, Paragraphs.toList]

/-- C22, counterexample: a heading of 24 px at top 100 (bottom 124) followed by
a fragment at top 108 gives two lines with tops 100 and 108 and two
paragraphs, the second line's top being 16 px from the first paragraph's
bottom; and lines with tops 100 and 250 are merged when the first reaches
down to 240. -/
theorem groupParagraphs_tops_100_108_separate :
    (groupLines [tallFragment, fragment 50 108]).map Line.top = [100, 108] ∧
      (indexTextLayers [[tallFragment, fragment 50 108]] []).1.length = 2 ∧
      (groupParagraphs [] 0 [lineAt 100 240, lineAt 250 260]).1.length = 1 := by
  have r100 : mathRound (100 : ℚ) = 100 := by exact_mod_cast mathRound_natCast 100
  have r108 : mathRound (108 : ℚ) = 108 := by exact_mod_cast mathRound_natCast 108
  have hg : groupLines [tallFragment, fragment 50 108] =
      [(Line.opened tallFragment).push tallFragment,
        (Line.opened (fragment 50 108)).push (fragment 50 108)] := by
    rw [groupLines_pair, if_neg]
    simp only [tallFragment, fragment, r100, r108]
    norm_num
  refine ⟨?_, ?_, ?_⟩
  · rw [hg]
    simp [Line.push, Line.opened, tallFragment, fragment, r100, r108]
  · have hf : [tallFragment, fragment 50 108].filter
        (fun s => decide (jsTrim s.textContent ≠ [])) = [tallFragment, fragment 50 108] := by
      have h1 : decide (jsTrim tallFragment.textContent ≠ []) = true := by decide
      have h2 : decide (jsTrim (fragment 50 108).textContent ≠ []) = true := by decide
      simp only [List.filter, h1, h2]
    have hne : ([[tallFragment, fragment 50 108]] : List (List Span)) ≠ [] := by simp
    simp only [indexTextLayers, hne, if_false, List.foldl_cons, List.foldl_nil, indexLayer, hf]
    rw [if_neg (by simp), hg, groupParagraphs_pair, if_neg]
    · simp
    · simp only [Line.push, Line.opened, tallFragment, fragment, r108]
      norm_num
  · rw [groupParagraphs_pair, if_pos]
    · simp
    · norm_num [lineAt]

/-- C22, as the code has it: a line is merged into the paragraph before it
exactly when the line's rounded top is less than 12 px from the bottom that
paragraph has reached so far; otherwise it opens a new paragraph. For a layer
of two lines: a second line at top 108 is merged exactly when the first line's
bottom lies strictly between 96 and 120, and a second line at top 250 opens a
new paragraph exactly when the first line's bottom is at most 238 or at least
262. -/
theorem groupParagraphs_merges_by_bottom_gap (ps : Paragraphs) (ln : Line)
    (paragraphs : List Paragraph) (pid : ℕ) (l1 l2 : Line) :
    (|ln.top - ps.last.rect.bottom| < 12 ↔ addLine ps ln = { ps with last := ps.last.merge ln }) ∧
      (¬ |ln.top - ps.last.rect.bottom| < 12 ↔
        addLine ps ln =
          { before := ps.before ++ [ps.last], last := Paragraph.ofLine ps.pid ln,
            pid := ps.pid + 1 }) ∧
      (|l2.top - l1.rect.bottom| < 12 ↔
        (groupParagraphs paragraphs pid [l1, l2]).1 =
          paragraphs ++ [(Paragraph.ofLine pid l1).merge l2]) ∧
      (¬ |l2.top - l1.rect.bottom| < 12 ↔
        (groupParagraphs paragraphs pid [l1, l2]).1 =
          paragraphs ++ [Paragraph.ofLine pid l1, Paragraph.ofLine (pid + 1) l2]) ∧
      (l2.top = 108 →
        ((groupParagraphs [] 0 [l1, l2]).1.length = 1 ↔
          96 < l1.rect.bottom ∧ l1.rect.bottom < 120)) ∧
      (l2.top = 250 →
        ((groupParagraphs [] 0 [l1, l2]).1.length = 2 ↔
          l1.rect.bottom ≤ 238 ∨ 262 ≤ l1.rect.bottom)) := by
  have hlen := addLine_length ps ln
  refine ⟨?_, ?_, ?_, ?_, ?_, ?_⟩
  · constructor
    · intro h
      simp [addLine, Paragraph.adjoins, h]
    · intro h
      by_contra hc
      rw [h, if_neg hc] at hlen
      simp [Paragraphs.toList] at hlen
  · constructor
    · intro h
      simp [addLine, Paragraph.adjoins, h]
    · intro h hc
      rw [h, if_pos hc] at hlen
      simp [Paragraphs.toList] at hlen
  · rw [groupParagraphs_pair]
    constructor
    · intro h
      rw [if_pos h]
    · intro h
      by_contra hc
      rw [if_neg hc] at h
      have := congrArg List.length h
      simp at this
  · rw [groupParagraphs_pair]
    constructor
    · intro h
      rw [if_neg h]
    · intro h hc
      rw [if_pos hc] at h
      have := congrArg List.length h
      simp at this
  · intro h2
    rw [groupParagraphs_pair, h2]
    by_cases hc : |108 - l1.rect.bottom| < 12
    · rw [if_pos hc]
      rw [abs_lt] at hc
      simp only [List.nil_append, List.length_singleton, true_iff]
      constructor <;> linarith [hc.1, hc.2]
    · rw [if_neg hc]
      rw [abs_lt] at hc
      simp only [List.nil_append, List.length_cons, List.length_singleton, List.length_nil]
      constructor
      · intro h
        omega
      · intro h
        exact absurd ⟨by linarith [h.2], by linarith [h.1]⟩ hc
  · intro h2
    rw [groupParagraphs_pair, h2]
    by_cases hc : |250 - l1.rect.bottom| < 12
    · rw [if_pos hc]
      rw [abs_lt] at hc
      simp only [List.nil_append, List.length_singleton]
      constructor
      · intro h
        omega
      · intro h
        rcases h with h | h <;> linarith [hc.1, hc.2]
    · rw [if_neg hc]
      rw [abs_lt, not_and_or, not_lt, not_lt] at hc
      simp only [List.nil_append, List.length_cons, List.length_singleton, List.length_nil,
        true_iff]
      rcases hc with hc | hc
      · right
        linarith
      · left
        linarith

/-- Witness for C22: a line from 100 to 110 followed by a line at top 108 gives
one paragraph. -/
theorem groupParagraphs_merges_by_bottom_gap_witness :
    (lineAt 108 118).top = 108 ∧
      (96 < (lineAt 100 110).rect.bottom ∧ (lineAt 100 110).rect.bottom < 120) ∧
      (groupParagraphs [] 0 [lineAt 100 110, lineAt 108 118]).1.length = 1 :=
  have hb : 96 < (lineAt 100 110).rect.bottom ∧ (lineAt 100 110).rect.bottom < 120 := by
    norm_num [lineAt]
  ⟨rfl, hb,
    ((groupParagraphs_merges_by_bottom_gap
      { before := [], last := Paragraph.ofLine 0 (lineAt 100 110), pid := 1 } (lineAt 108 118)
      [] 0 (lineAt 100 110) (lineAt 108 118)).2.2.2.2.1 rfl).2 hb⟩

/-! ## Locators: dispatch, hit tests and unit text -/

theorem parsePageIfNeeded_keeps (env : PdfEnv) (p : Paragraph) :
    (parsePageIfNeeded env p).rect = p.rect ∧ (parsePageIfNeeded env p).id = p.id ∧
      (parsePageIfNeeded env p).page = p.page := by
  cases hp : p.page with
  | none => simp [parsePageIfNeeded, hp]
  | some i =>
    by_cases h : i = 0 ∨ p.parsed = true
    · simp [parsePageIfNeeded, hp, h]
    · cases ht : env.pageText i with
      | none => simp [parsePageIfNeeded, hp, h, ht]
      | some items => simp [parsePageIfNeeded, hp, h, ht]

theorem parsePageIfNeeded_idem (env : PdfEnv) (p : Paragraph) :
    parsePageIfNeeded env (parsePageIfNeeded env p) = parsePageIfNeeded env p := by
  cases hp : p.page with
  | none => simp [parsePageIfNeeded, hp]
  | some i =>
    by_cases h : i = 0 ∨ p.parsed = true
    · simp [parsePageIfNeeded, hp, h]
    · cases ht : env.pageText i with
      | none => simp [parsePageIfNeeded, hp, h, ht]
      | some items => simp [parsePageIfNeeded, hp, h, ht]

theorem Paragraph.hit_iff (p : Paragraph) (x y : ℚ) :
    p.hit x y = true ↔ withinMargin 2 p.rect x y := by
  simp [Paragraph.hit, withinMargin, and_assoc]

theorem hit_parsePageIfNeeded (env : PdfEnv) (p : Paragraph) (x y : ℚ) :
    (parsePageIfNeeded env p).hit x y = p.hit x y := by
  simp [Paragraph.hit, (parsePageIfNeeded_keeps env p).1]

theorem scanParagraphs_rects (env : PdfEnv) (x y : ℚ) (ps : List Paragraph) :
    (scanParagraphs env x y ps).1.map Paragraph.rect = ps.map Paragraph.rect := by
  induction ps with
  | nil => rfl
  | cons p ps ih =>
    unfold scanParagraphs
    dsimp only
    split
    · simp [(parsePageIfNeeded_keeps env p).1]
    · simp [(parsePageIfNeeded_keeps env p).1, ih]

theorem scanParagraphs_first (env : PdfEnv) (x y : ℚ) (before after : List Paragraph)
    (p : Paragraph) (hb : ∀ q ∈ before, q.hit x y = false) (hp : p.hit x y = true) :
    (scanParagraphs env x y (before ++ p :: after)).2 = some (parsePageIfNeeded env p) := by
  induction before with
  | nil => simp [scanParagraphs, hit_parsePageIfNeeded, hp]
  | cons q qs ih =>
    have hq : q.hit x y = false := hb q (List.mem_cons_self _ _)
    simp only [List.cons_append, scanParagraphs, hit_parsePageIfNeeded, hq]
    exact ih fun r hr => hb r (List.mem_cons_of_mem _ hr)

theorem scanParagraphs_none (env : PdfEnv) (x y : ℚ) (ps : List Paragraph) :
    (scanParagraphs env x y ps).2 = none ↔ ∀ p ∈ ps, p.hit x y = false := by
  induction ps with
  | nil => simp [scanParagraphs]
  | cons p ps ih =>
    unfold scanParagraphs
    dsimp only
    rw [hit_parsePageIfNeeded]
    cases hp : p.hit x y with
    | true => simp [hp]
    | false => simp [hp, ih]

theorem scanParagraphs_some (env : PdfEnv) (x y : ℚ) (ps : List Paragraph) (u : Paragraph)
    (h : (scanParagraphs env x y ps).2 = some u) :
    u.hit x y = true ∧ ∃ p ∈ ps, u = parsePageIfNeeded env p := by
  induction ps with
  | nil => simp [scanParagraphs] at h
  | cons p ps ih =>
    unfold scanParagraphs at h
    dsimp only at h
    rw [hit_parsePageIfNeeded] at h
    cases hp : p.hit x y with
    | true =>
      simp only [hp, if_true, Option.some.injEq] at h
      subst h
      exact ⟨by rw [hit_parsePageIfNeeded, hp], p, List.mem_cons_self _ _, rfl⟩
    | false =>
      simp only [hp] at h
      obtain ⟨h1, q, hq, h2⟩ := ih h
      exact ⟨h1, q, List.mem_cons_of_mem _ hq, h2⟩

theorem ensureParsed_parsed (env : PdfEnv) (h : PdfHandler) :
    (h.ensureParsed env).parsed = true := by
  cases hp : h.parsed with
  | true => simp [PdfHandler.ensureParsed, hp]
  | false =>
    simp only [PdfHandler.ensureParsed, hp, Bool.false_eq_true, if_false]
    split <;> rfl

theorem ensureParsed_of_parsed (env : PdfEnv) (h : PdfHandler) (hp : h.parsed = true) :
    h.ensureParsed env = h := by
  simp [PdfHandler.ensureParsed, hp]

theorem findParagraphAt_rects (env : PdfEnv) (h : PdfHandler) (x y : ℚ) :
    (h.findParagraphAt env x y).1.paragraphs.map Paragraph.rect =
      (h.ensureParsed env).paragraphs.map Paragraph.rect := by
  simp [PdfHandler.findParagraphAt, scanParagraphs_rects]

/-- The two hit tests as the code has them: the pdf handler tests each unit's
rect expanded by 2 px on each side, the pptx handler the rect itself, borders
included. In both, the units are tried in index order and the first one that
contains the point is returned (for the pdf handler after `parsePageIfNeeded`,
which leaves the rect alone), so a returned unit contains the point, and null
is returned exactly when no unit does. -/
theorem findParagraphAt_hit_tests (env : PdfEnv) (h : PdfHandler) (overlays : List Overlay)
    (x y : ℚ) :
    ((∀ u, (h.findParagraphAt env x y).2 = some u →
          withinMargin 2 u.rect x y ∧
            ∃ p ∈ (h.ensureParsed env).paragraphs, u = parsePageIfNeeded env p) ∧
        (∀ before p after, (h.ensureParsed env).paragraphs = before ++ p :: after →
          (∀ q ∈ before, ¬ withinMargin 2 q.rect x y) → withinMargin 2 p.rect x y →
          (h.findParagraphAt env x y).2 = some (parsePageIfNeeded env p)) ∧
        ((h.findParagraphAt env x y).2 = none ↔
          ∀ p ∈ (h.ensureParsed env).paragraphs, ¬ withinMargin 2 p.rect x y)) ∧
      ((∀ o, pptxFindParagraphAt overlays x y = some o →
          withinMargin 0 o.rect x y ∧ o ∈ overlays) ∧
        (∀ before o after, overlays = before ++ o :: after →
          (∀ q ∈ before, ¬ withinMargin 0 q.rect x y) → withinMargin 0 o.rect x y →
          pptxFindParagraphAt overlays x y = some o) ∧
        (pptxFindParagraphAt overlays x y = none ↔
          ∀ o ∈ overlays, ¬ withinMargin 0 o.rect x y)) := by
  have hw : ∀ o : Overlay, o.hit x y = true ↔ withinMargin 0 o.rect x y := by
    intro o
    simp [Overlay.hit, withinMargin, and_assoc]
  refine ⟨⟨?_, ?_, ?_⟩, ?_, ?_, ?_⟩
  · intro u hu
    obtain ⟨h1, h2⟩ := scanParagraphs_some env x y _ u hu
    exact ⟨(Paragraph.hit_iff u x y).1 h1, h2⟩
  · intro before p after hps hb hp
    show (scanParagraphs env x y (h.ensureParsed env).paragraphs).2 = _
    rw [hps]
    refine scanParagraphs_first env x y before after p ?_ ((Paragraph.hit_iff p x y).2 hp)
    intro q hq
    have := hb q hq
    rw [← Paragraph.hit_iff] at this
    simpa using this
  · show (scanParagraphs env x y (h.ensureParsed env).paragraphs).2 = none ↔ _
    rw [scanParagraphs_none]
    constructor
    · intro hall p hp hc
      rw [← Paragraph.hit_iff, hall p hp] at hc
      exact Bool.noConfusion hc
    · intro hall p hp
      have := hall p hp
      rw [← Paragraph.hit_iff] at this
      simpa using this
  · intro o ho
    have h1 : o.hit x y = true :=
      List.find?_some (p := fun o : Overlay => o.hit x y) ho
    exact ⟨(hw o).1 h1, List.mem_of_find?_eq_some ho⟩
  · intro before o after hov hb ho
    unfold pptxFindParagraphAt
    rw [List.find?_eq_some]
    refine ⟨(hw o).2 ho, before, after, hov, ?_⟩
    intro q hq
    have := hb q hq
    rw [← hw q] at this
    simpa using this
  · unfold pptxFindParagraphAt
    rw [List.find?_eq_none]
    constructor
    · intro hall o ho hc
      exact hall o ho ((hw o).2 hc)
    · intro hall o ho hc
      exact hall o ho ((hw o).1 hc)

/-- The pdf handler holding a paragraph with rect (100, 100, 500, 200) returns
it for the point (99, 150), which lies inside the rect expanded by 2 px. -/
theorem pdfFindParagraphAt_within_tolerance :
    withinMargin 2 pdfBox.rect 99 150 ∧
      (pdfBoxHandler.findParagraphAt threePages 99 150).2 =
        some (parsePageIfNeeded threePages pdfBox) :=
  have hp : withinMargin 2 pdfBox.rect 99 150 := by norm_num [withinMargin, pdfBox]
  ⟨hp,
    (findParagraphAt_hit_tests threePages pdfBoxHandler [] 99 150).1.2.1 [] pdfBox [] rfl
      (fun _ hq => absurd hq (List.not_mem_nil _)) hp⟩

/-- C23, the code against the claim and against its sibling: a pdf paragraph
and a pptx overlay have the same rect (100, 100, 500, 200), and the point
(99, 150) lies inside that rect expanded by 2 px. The pdf handler returns its
unit for the point; the pptx handler, whose test has no margin, returns null. -/
theorem pptxFindParagraphAt_no_tolerance :
    pdfBox.rect = slideBox.rect ∧
      withinMargin 2 slideBox.rect 99 150 ∧
      (pdfBoxHandler.findParagraphAt threePages 99 150).2 =
        some (parsePageIfNeeded threePages pdfBox) ∧
      (parsePageIfNeeded threePages pdfBox).rect = slideBox.rect ∧
      pptxFindParagraphAt [slideBox] 99 150 = none := by
  refine ⟨rfl, ?_, pdfFindParagraphAt_within_tolerance.2, ?_, ?_⟩
  · norm_num [withinMargin, slideBox]
  · rw [(parsePageIfNeeded_keeps threePages pdfBox).1]
    rfl
  · simp [pptxFindParagraphAt, Overlay.hit, slideBox]
    norm_num

/-- C25, counterexample: for a slide whose only run has 401 characters the text
returned by `getParagraphText` has 401 characters. -/
theorem pptx_unit_text_exceeds_400 :
    (pptxGetParagraphText (some (parseSlide 0 [longRun] slideBox.rect).2)).length = 401 := by
  have e : (parseSlide 0 [longRun] slideBox.rect).2.text = longRun := by
    simp [parseSlide, List.intercalate]
  simp only [pptxGetParagraphText]
  rw [e]
  exact List.length_replicate 401 0x61

/-- C25, as the code has it: the text of a pptx unit, as `getParagraphText`
returns it, is the slide's extracted runs joined by single spaces, in full;
only the text content of the overlay box is that string cut to its first 400
code units. -/
theorem pptx_unit_text_is_joined_runs (id : ℕ) (texts : List JSString) (measured : Rect)
    (slides : List (List JSString)) (rects : ℕ → Rect) :
    pptxGetParagraphText (some (parseSlide id texts measured).2) =
        List.intercalate [0x20] texts ∧
      (parseSlide id texts measured).1 = (List.intercalate [0x20] texts).take 400 ∧
      (parseSlide id texts measured).1.length ≤ 400 ∧
      (parsePptxFromUrl slides rects).map (fun o => pptxGetParagraphText (some o)) =
        slides.map (List.intercalate [0x20]) := by
  refine ⟨rfl, rfl, ?_, ?_⟩
  · simp [parseSlide, List.length_take]
  · simp only [parsePptxFromUrl, List.map_map]
    have e : ((fun o => pptxGetParagraphText (some o)) ∘
        fun st : ℕ × List JSString => (parseSlide st.1 st.2 (rects st.1)).2) =
        (List.intercalate [0x20]) ∘ Prod.snd := by
      funext st
      rfl
    rw [e, ← List.map_map, List.enum_map_snd]

/-- C24: the orchestrating `findParagraphAt` tries the pdf handler, then the
pptx handler, then the dom. It returns a pdf unit exactly when the pdf handler
is present and returns that unit; a pptx unit exactly when the pdf handler is
absent or returns no hit and the pptx handler is present and returns that unit;
a dom block exactly when neither handler returns a hit and an element lies
under the point, the block being its block ancestor or else the element; and
null exactly when neither handler returns a hit and no element lies under the
point. -/
theorem findParagraphAt_dispatch_order {E : Type}
    (pdfHandler : Option (ℚ → ℚ → Option Paragraph))
    (pptxHandler : Option (ℚ → ℚ → Option Overlay))
    (elementFromPoint : ℚ → ℚ → Option E) (getBlockAncestor : E → Option E) (x y : ℚ) :
    (∀ p, findParagraphAt pdfHandler pptxHandler elementFromPoint getBlockAncestor x y =
          some (Located.pdf p) ↔
        ∃ h, pdfHandler = some h ∧ h x y = some p) ∧
      (∀ o, findParagraphAt pdfHandler pptxHandler elementFromPoint getBlockAncestor x y =
          some (Located.pptx o) ↔
        (pdfHandler = none ∨ ∃ h, pdfHandler = some h ∧ h x y = none) ∧
          ∃ h, pptxHandler = some h ∧ h x y = some o) ∧
      (∀ b, findParagraphAt pdfHandler pptxHandler elementFromPoint getBlockAncestor x y =
          some (Located.dom b) ↔
        (pdfHandler = none ∨ ∃ h, pdfHandler = some h ∧ h x y = none) ∧
          (pptxHandler = none ∨ ∃ h, pptxHandler = some h ∧ h x y = none) ∧
          ∃ el, elementFromPoint x y = some el ∧ b = (getBlockAncestor el).getD el) ∧
      (findParagraphAt pdfHandler pptxHandler elementFromPoint getBlockAncestor x y = none ↔
        (pdfHandler = none ∨ ∃ h, pdfHandler = some h ∧ h x y = none) ∧
          (pptxHandler = none ∨ ∃ h, pptxHandler = some h ∧ h x y = none) ∧
          elementFromPoint x y = none) := by
  unfold findParagraphAt
  cases pdfHandler with
  | some h =>
    cases hp : h x y with
    | some p => simp [hp]
    | none =>
      cases pptxHandler with
      | some h2 =>
        cases ho : h2 x y with
        | some o => simp [hp, ho]
        | none =>
          cases he : elementFromPoint x y with
          | some el => simp [hp, ho, eq_comm]
          | none => simp [hp, ho]
      | none =>
        cases he : elementFromPoint x y with
        | some el => simp [hp, eq_comm]
        | none => simp [hp]
  | none =>
    cases pptxHandler with
    | some h2 =>
      cases ho : h2 x y with
      | some o => simp [ho]
      | none =>
        cases he : elementFromPoint x y with
        | some el => simp [ho, eq_comm]
        | none => simp [ho]
    | none =>
      cases he : elementFromPoint x y with
      | some el => simp [eq_comm]
      | none => simp

theorem indexTextLayers_nothing (textLayers : List (List Span))
    (h : (indexTextLayers textLayers []).2 = false) : (indexTextLayers textLayers []).1 = [] := by
  unfold indexTextLayers at h ⊢
  split
  · rfl
  · rename_i hne
    simp only [hne, if_false, decide_eq_false_iff_not, not_lt, Nat.le_zero,
      List.length_eq_zero] at h
    exact h

theorem placeholders_succ (w : Window) (pid n : ℕ) :
    placeholders w pid (n + 1) =
      placeholder w pid 1 :: (List.range n).map fun k => placeholder w (pid + (k + 1)) (k + 2) := by
  simp [placeholders, List.range_succ_eq_map, List.map_map, Function.comp_def]

theorem ensureParsed_placeholders (env : PdfEnv) (n : ℕ)
    (hno : (indexTextLayers env.textLayers []).2 = false) (hn : env.numPages = some (n + 1)) :
    PdfHandler.init.ensureParsed env =
      { paragraphs := parsePageIfNeeded env (placeholder env.win 0 1) ::
          (List.range n).map fun k => placeholder env.win (0 + (k + 1)) (k + 2)
        parsed := true } := by
  simp [PdfHandler.ensureParsed, PdfHandler.init, hno, indexTextLayers_nothing _ hno,
    parseWithPdfJsLazy, hn, placeholders_succ]

theorem findParagraphAt_first (env : PdfEnv) (h : PdfHandler) (u : Paragraph)
    (rest : List Paragraph) (x y : ℚ) (hp : h.parsed = true) (hps : h.paragraphs = u :: rest)
    (hu : parsePageIfNeeded env u = u) (hit : u.hit x y = true) :
    h.findParagraphAt env x y = (h, some u) := by
  cases h with
  | mk paragraphs parsed =>
    simp only at hp hps
    subst hp hps
    simp [PdfHandler.findParagraphAt, PdfHandler.ensureParsed, scanParagraphs, hu, hit]

theorem findRun_first (env : PdfEnv) (h : PdfHandler) (u : Paragraph)
    (rest : List Paragraph) (hp : h.parsed = true) (hps : h.paragraphs = u :: rest)
    (hu : parsePageIfNeeded env u = u) (pts : List (ℚ × ℚ))
    (hit : ∀ pt ∈ pts, u.hit pt.1 pt.2 = true) :
    ∀ r ∈ PdfHandler.findRun env h pts, r = some u := by
  induction pts with
  | nil => simp [PdfHandler.findRun]
  | cons pt pts ih =>
    have h1 := findParagraphAt_first env h u rest pt.1 pt.2 hp hps hu
      (hit pt (List.mem_cons_self _ _))
    intro r hr
    simp only [PdfHandler.findRun, h1, List.mem_cons] at hr
    rcases hr with hr | hr
    · exact hr
    · exact ih (fun q hq => hit q (List.mem_cons_of_mem _ hq)) r hr

theorem findRun_ensureParsed (env : PdfEnv) (h : PdfHandler) (pts : List (ℚ × ℚ)) :
    PdfHandler.findRun env h pts = PdfHandler.findRun env (h.ensureParsed env) pts := by
  cases pts with
  | nil => rfl
  | cons pt pts =>
    have e : ∀ x y, h.findParagraphAt env x y = (h.ensureParsed env).findParagraphAt env x y := by
      intro x y
      simp only [PdfHandler.findParagraphAt,
        ensureParsed_of_parsed env (h.ensureParsed env) (ensureParsed_parsed env h)]
    simp only [PdfHandler.findRun, e]

/-- C27: when the pdf handler finds no text-layer paragraph and pdf.js reports
`n ≥ 1` pages, the index consists of the placeholders of pages 1 to `n`, page
`i` having the rect `[0, innerWidth] x [(i-1)*innerHeight, i*innerHeight]`;
`findParagraphAt` leaves every rect as it is; and in any series of calls
starting from the fresh handler, every call for a point inside the viewport
(`0 ≤ x ≤ innerWidth - 1`, `0 ≤ y ≤ innerHeight - 1`) returns the unit of the
first page, with id `pdf-p-0`. -/
theorem placeholder_pages_resolve_to_first_page (env : PdfEnv) (n : ℕ) (pts : List (ℚ × ℚ))
    (hno : (indexTextLayers env.textLayers []).2 = false) (hn : env.numPages = some n)
    (hpos : 0 < n)
    (hin : ∀ pt ∈ pts, (0 ≤ pt.1 ∧ pt.1 ≤ env.win.innerWidth - 1) ∧
      (0 ≤ pt.2 ∧ pt.2 ≤ env.win.innerHeight - 1)) :
    (PdfHandler.init.ensureParsed env).paragraphs.map Paragraph.rect =
        (List.range n).map (fun (k : ℕ) =>
          ({ left := 0, top := (k : ℚ) * env.win.innerHeight, right := env.win.innerWidth,
             bottom := ((k : ℚ) + 1) * env.win.innerHeight } : Rect)) ∧
      (PdfHandler.init.ensureParsed env).paragraphs.map Paragraph.page =
        (List.range n).map (fun (k : ℕ) => some (k + 1)) ∧
      (∀ (h : PdfHandler) (x y : ℚ),
        (h.findParagraphAt env x y).1.paragraphs.map Paragraph.rect =
          (h.ensureParsed env).paragraphs.map Paragraph.rect) ∧
      (∀ r ∈ PdfHandler.findRun env PdfHandler.init pts,
        r = some (parsePageIfNeeded env (placeholder env.win 0 1))) ∧
      (parsePageIfNeeded env (placeholder env.win 0 1)).id = "pdf-p-0" ∧
      (parsePageIfNeeded env (placeholder env.win 0 1)).page = some 1 := by
  obtain ⟨m, rfl⟩ : ∃ m, n = m + 1 := ⟨n - 1, by omega⟩
  have he := ensureParsed_placeholders env m hno hn
  have hk := parsePageIfNeeded_keeps env (placeholder env.win 0 1)
  refine ⟨?_, ?_, fun h x y => findParagraphAt_rects env h x y, ?_, ?_, ?_⟩
  · rw [he, List.range_succ_eq_map]
    simp only [List.map_cons, List.map_map, hk.1]
    congr 1
    · simp [placeholder]
    · apply List.map_congr_left
      intro k _
      simp only [Function.comp_def, placeholder, Rect.mk.injEq, true_and]
      push_cast
      constructor <;> ring
  · rw [he, List.range_succ_eq_map]
    simp only [List.map_cons, List.map_map, hk.2.2]
    congr 1
  · rw [findRun_ensureParsed]
    refine findRun_first env _ _ _ (ensureParsed_parsed env _) (by rw [he])
      (parsePageIfNeeded_idem env _) pts ?_
    intro pt hpt
    obtain ⟨⟨hx0, hx1⟩, hy0, hy1⟩ := hin pt hpt
    rw [hit_parsePageIfNeeded, Paragraph.hit_iff]
    simp only [withinMargin, placeholder]
    refine ⟨by linarith, by linarith, ?_, ?_⟩
    · norm_num
      linarith
    · norm_num
      linarith
  · rw [hk.2.1]
    show "pdf-p-" ++ toString 0 = "pdf-p-0"
    decide
  · rw [hk.2.2]
    rfl

/-- Witness for C27: a three-page document without text layer in the 1280 by
720 window; a look at (640, 700), near the bottom of the viewport, resolves to
the first page. -/
theorem placeholder_pages_resolve_to_first_page_witness :
    (PdfHandler.init.findParagraphAt threePages 640 700).2 =
      some (parsePageIfNeeded threePages (placeholder threePages.win 0 1)) :=
  (placeholder_pages_resolve_to_first_page threePages 3 [(640, 700)] rfl rfl
    (by decide)
    (by
      intro pt hpt
      simp only [List.mem_singleton] at hpt
      subst hpt
      norm_num [threePages, sampleWindow])).2.2.2.1 _ (List.mem_cons_self _ _)

/-! ## The velocity filter inside the pipeline -/

theorem normalizeAndSmooth_keeps_settings (w : Window) (now : ℚ) (raw : JSVal)
    (state : GazeState) :
    (normalizeAndSmooth w now raw state).1.velocityThreshold = state.velocityThreshold ∧
      (normalizeAndSmooth w now raw state).1.calibration = state.calibration := by
  unfold normalizeAndSmooth
  cases normalizeRawToClient w raw with
  | none => exact ⟨rfl, rfl⟩
  | some client =>
    cases state.ema.x with
    | none => exact ⟨rfl, rfl⟩
    | some ex => exact ⟨rfl, rfl⟩

theorem dwellStep_gazeState (now : ℚ) (found : Option Found) (s : Session) :
    (dwellStep now found s).1.gazeState = s.gazeState := by
  unfold dwellStep
  cases found with
  | none => rfl
  | some f =>
    dsimp only
    split
    · rfl
    · split <;> rfl

theorem onGaze_keeps_settings (i : GazeInput) (s : Session) :
    (onGaze i s).1.gazeState.velocityThreshold = s.gazeState.velocityThreshold ∧
      (onGaze i s).1.gazeState.calibration = s.gazeState.calibration := by
  have hn := normalizeAndSmooth_keeps_settings i.win i.tSmooth i.data s.gazeState
  unfold onGaze
  split
  · exact ⟨rfl, rfl⟩
  · split
    · dsimp only
      split <;> exact ⟨rfl, rfl⟩
    · dsimp only
      rcases hs : normalizeAndSmooth i.win i.tSmooth i.data s.gazeState with ⟨g1, _ | p⟩
      · rw [hs] at hn
        exact hn
      · rw [hs] at hn
        dsimp only
        have hl := checkVelocity_last g1 (clampToWindow i.win p) i.tVel
        rcases hv : checkVelocity g1 (clampToWindow i.win p) i.tVel with ⟨_ | _, g2⟩
        · rw [hv] at hl
          simp only at hl
          subst hl
          exact hn
        · rw [hv] at hl
          simp only at hl
          subst hl
          dsimp only
          rw [dwellStep_gazeState]
          exact hn

theorem clampToWindow_inside (w : Window) (p : Point)
    (hx : 0 ≤ p.x ∧ p.x ≤ w.innerWidth - 1) (hy : 0 ≤ p.y ∧ p.y ≤ w.innerHeight - 1) :
    clampToWindow w p = p := by
  cases p with
  | mk x y =>
    simp only [clampToWindow, Point.mk.injEq]
    exact ⟨by rw [min_eq_right hx.2, max_eq_right hx.1],
      by rw [min_eq_right hy.2, max_eq_right hy.1]⟩

theorem normalizeAndSmooth_last (w : Window) (now : ℚ) (raw : JSVal) (state : GazeState)
    (p : Point) (h : (normalizeAndSmooth w now raw state).2 = some p)
    (hcal : state.calibration = { dx := 0, dy := 0 }) :
    (normalizeAndSmooth w now raw state).1.last = { x := some p.x, y := some p.y, t := some now } ∧
      (normalizeAndSmooth w now raw state).1.velocityThreshold = state.velocityThreshold := by
  unfold normalizeAndSmooth at h ⊢
  cases hn : normalizeRawToClient w raw with
  | none => simp [hn] at h
  | some client =>
    cases he : state.ema.x with
    | none =>
      simp only [hn, he, hcal, add_zero, Option.some.injEq] at h
      subst h
      simp [hn, he]
    | some ex =>
      simp only [hn, he, hcal, add_zero, Option.some.injEq] at h
      subst h
      simp [hn, he]

/-- C26: in the `onGaze` pipeline `checkVelocity` runs on the state that
`normalizeAndSmooth` has just left, whose last reference is the current
smoothed position. For every state, fresh or seeded and whatever its previous
last reference, with zero calibration offset and a velocity threshold that is
not negative (the pipeline uses 1200), and every sample whose smoothed point
lies inside the viewport, the last reference after `normalizeAndSmooth` is that
very point, `checkVelocity` on the clamped point returns true, and `onGaze`
does not end at the velocity filter. -/
theorem checkVelocity_after_smoothing_accepts (i : GazeInput) (s : Session) (p : Point)
    (hen : s.eyeTrackingEnabled = true) (hd : i.data.falsy = false)
    (hp : (normalizeAndSmooth i.win i.tSmooth i.data s.gazeState).2 = some p)
    (hcal : s.gazeState.calibration = { dx := 0, dy := 0 })
    (hthr : 0 ≤ s.gazeState.velocityThreshold)
    (hx : 0 ≤ p.x ∧ p.x ≤ i.win.innerWidth - 1)
    (hy : 0 ≤ p.y ∧ p.y ≤ i.win.innerHeight - 1) :
    (normalizeAndSmooth i.win i.tSmooth i.data s.gazeState).1.last =
        { x := some p.x, y := some p.y, t := some i.tSmooth } ∧
      (checkVelocity (normalizeAndSmooth i.win i.tSmooth i.data s.gazeState).1
          (clampToWindow i.win p) i.tVel).1 = true ∧
      (onGaze i s).2 ≠ Outcome.rejected ∧ (onGaze i s).2.accepted = true := by
  obtain ⟨hl, ht⟩ := normalizeAndSmooth_last i.win i.tSmooth i.data s.gazeState p hp hcal
  have hv : (checkVelocity (normalizeAndSmooth i.win i.tSmooth i.data s.gazeState).1
      (clampToWindow i.win p) i.tVel).1 = true := by
    rw [checkVelocity_result, clampToWindow_inside i.win p hx hy, hl, ht,
      speedExceeds_same_point p i.tSmooth i.tVel _ hthr]
    rfl
  have hn : normalizeAndSmooth i.win i.tSmooth i.data s.gazeState =
      ((normalizeAndSmooth i.win i.tSmooth i.data s.gazeState).1, some p) := by
    rw [← hp]
  have hv2 : checkVelocity (normalizeAndSmooth i.win i.tSmooth i.data s.gazeState).1
      (clampToWindow i.win p) i.tVel =
      (true, (checkVelocity (normalizeAndSmooth i.win i.tSmooth i.data s.gazeState).1
        (clampToWindow i.win p) i.tVel).2) := by
    rw [← hv]
  have ho := onGaze_accepted i s _ _ p hen hd hn hv2
  have hacc : (onGaze i s).2.accepted = true := by
    rw [ho]
    unfold dwellStep
    split
    · rfl
    · dsimp only
      split
      · rfl
      · split <;> rfl
  refine ⟨hl, hv, ?_, hacc⟩
  intro hr
  rw [hr] at hacc
  simp [Outcome.accepted] at hacc

/-- Witness for C26: the state last saw (100, 100) at t = 1000 and the sample
(300, 200) arrives one millisecond later; the smoothed point (136, 118) is 36 px
away from the previous reference, yet the velocity filter accepts it. -/
theorem checkVelocity_after_smoothing_accepts_witness :
    (normalizeAndSmooth sampleWindow 1001 (JSVal.obj (JSVal.num 300) (JSVal.num 200))
        stateAt100).2 = some { x := 136, y := 118 } ∧
      (checkVelocity
        (normalizeAndSmooth sampleWindow 1001 (JSVal.obj (JSVal.num 300) (JSVal.num 200))
          stateAt100).1
        (clampToWindow sampleWindow { x := 136, y := 118 }) 1001).1 = true :=
  have hp : (normalizeAndSmooth sampleWindow 1001 (JSVal.obj (JSVal.num 300) (JSVal.num 200))
      stateAt100).2 = some { x := 136, y := 118 } := by
    simp [normalizeAndSmooth, normalize_sample_300_200, stateAt100, createGazeState, toNum]
    norm_num
  ⟨hp,
    (checkVelocity_after_smoothing_accepts (lookAt none 1001)
      { Session.init with gazeState := stateAt100 } { x := 136, y := 118 } rfl rfl hp rfl
      (by norm_num [stateAt100, createGazeState])
      (by norm_num [lookAt, sampleWindow]) (by norm_num [lookAt, sampleWindow])).2.1⟩

/-! ## Escaping and code detection -/

theorem escapeUnit_cases (c : CodeUnit) :
    (escapeUnit c = [c] ∧ c ≠ 0x26 ∧ c ≠ 0x3C ∧ c ≠ 0x3E ∧ c ≠ 0x22 ∧ c ≠ 0x27) ∨
      (∃ t, escapeUnit c = 0x26 :: t ∧ 0x26 ∉ t ∧ (0x26 :: t) ∈ entities ∧
        ∀ d ∈ (0x26 :: t), d ≠ 0x3C ∧ d ≠ 0x3E ∧ d ≠ 0x22 ∧ d ≠ 0x27) := by
  unfold escapeUnit
  by_cases h1 : c = 0x26
  · right
    rw [if_pos h1]
    exact ⟨(jsStr "&amp;").tail, by decide, by decide, by decide, by decide⟩
  by_cases h2 : c = 0x3C
  · right
    rw [if_neg h1, if_pos h2]
    exact ⟨(jsStr "&lt;").tail, by decide, by decide, by decide, by decide⟩
  by_cases h3 : c = 0x3E
  · right
    rw [if_neg h1, if_neg h2, if_pos h3]
    exact ⟨(jsStr "&gt;").tail, by decide, by decide, by decide, by decide⟩
  by_cases h4 : c = 0x22
  · right
    rw [if_neg h1, if_neg h2, if_neg h3, if_pos h4]
    exact ⟨(jsStr "&quot;").tail, by decide, by decide, by decide, by decide⟩
  by_cases h5 : c = 0x27
  · right
    rw [if_neg h1, if_neg h2, if_neg h3, if_neg h4, if_pos h5]
    exact ⟨(jsStr "&#39;").tail, by decide, by decide, by decide, by decide⟩
  left
  rw [if_neg h1, if_neg h2, if_neg h3, if_neg h4, if_neg h5]
  exact ⟨rfl, h1, h2, h3, h4, h5⟩

theorem amp_only_at_head (t before after : JSString) (ht : 0x26 ∉ t)
    (h : 0x26 :: t = before ++ 0x26 :: after) : before = [] ∧ after = t := by
  cases before with
  | nil =>
    simp only [List.nil_append, List.cons.injEq, true_and] at h
    exact ⟨rfl, h.symm⟩
  | cons b bs =>
    simp only [List.cons_append, List.cons.injEq] at h
    exact absurd (h.2 ▸ List.mem_append_right bs (List.mem_cons_self _ _)) ht

theorem escapeHtml_cons (c : CodeUnit) (s : JSString) :
    escapeHtml (c :: s) = escapeUnit c ++ escapeHtml s :=
  List.flatMap_cons c s escapeUnit

theorem escapeHtml_amp_starts_entity (s : JSString) :
    ∀ before after, escapeHtml s = before ++ 0x26 :: after →
      ∃ e ∈ entities, e <+: 0x26 :: after := by
  induction s with
  | nil =>
    intro before after h
    simp [escapeHtml] at h
  | cons c s ih =>
    intro before after h
    rw [escapeHtml_cons, List.append_eq_append_iff] at h
    rcases h with ⟨a, _, h2⟩ | ⟨a, h1, h2⟩
    · exact ih a after h2
    · cases a with
      | nil =>
        simp only [List.nil_append] at h2
        exact ih [] after (by simpa using h2.symm)
      | cons d ds =>
        simp only [List.cons_append, List.cons.injEq] at h2
        obtain ⟨hd, hafter⟩ := h2
        subst hd
        rcases escapeUnit_cases c with ⟨hc, hne, _⟩ | ⟨t, hc, ht, hmem, _⟩
        · rw [hc] at h1
          cases before with
          | nil =>
            simp only [List.nil_append, List.cons.injEq] at h1
            exact absurd h1.1 hne
          | cons b bs =>
            simp only [List.cons_append, List.cons.injEq] at h1
            have := h1.2
            simp at this
        · rw [hc] at h1
          obtain ⟨_, hds⟩ := amp_only_at_head t before ds ht h1
          subst hds
          exact ⟨_, hmem, by rw [hafter]; exact List.prefix_append (0x26 :: ds) (escapeHtml s)⟩

/-- C28: for every string `s`, `escapeHtml(s)` contains none of `<`, `>`, `"`
and `'`; every `&` in it is the first character of one of the entities `&amp;`,
`&lt;`, `&gt;`, `&quot;`, `&#39;` written there; and a string with none of the
five special characters is returned unchanged. -/
theorem escapeHtml_output_safe (s : JSString) :
    (∀ c ∈ escapeHtml s, c ≠ 0x3C ∧ c ≠ 0x3E ∧ c ≠ 0x22 ∧ c ≠ 0x27) ∧
      (∀ before after, escapeHtml s = before ++ 0x26 :: after →
        ∃ e ∈ entities, e <+: 0x26 :: after) ∧
      ((∀ c ∈ s, c ≠ 0x26 ∧ c ≠ 0x3C ∧ c ≠ 0x3E ∧ c ≠ 0x22 ∧ c ≠ 0x27) →
        escapeHtml s = s) := by
  refine ⟨?_, escapeHtml_amp_starts_entity s, ?_⟩
  · intro c hc
    obtain ⟨a, _, hca⟩ := List.mem_flatMap.1 hc
    rcases escapeUnit_cases a with ⟨ha, _, h2, h3, h4, h5⟩ | ⟨t, ha, _, _, hall⟩
    · rw [ha, List.mem_singleton] at hca
      subst hca
      exact ⟨h2, h3, h4, h5⟩
    · rw [ha] at hca
      exact hall c hca
  · induction s with
    | nil => intro _; rfl
    | cons c s ih =>
      intro h
      rcases escapeUnit_cases c with ⟨hc, _⟩ | ⟨t, hc, _, _, _⟩
      · rw [escapeHtml_cons, hc, ih fun d hd => h d (List.mem_cons_of_mem _ hd)]
        rfl
      · have hne := h c (List.mem_cons_self _ _)
        unfold escapeUnit at hc
        rw [if_neg hne.1, if_neg hne.2.1, if_neg hne.2.2.1, if_neg hne.2.2.2.1,
          if_neg hne.2.2.2.2] at hc
        simp only [List.cons.injEq] at hc
        exact absurd hc.1 hne.1

/-- Witness for C28: the escaped form of `a<b & "c"` is
`a&lt;b &amp; &quot;c&quot;`, and the `&` that follows `a` in it starts `&lt;`. -/
theorem escapeHtml_output_safe_witness :
    escapeHtml (jsStr "a<b & \"c\"") = jsStr "a" ++ 0x26 :: jsStr "lt;b &amp; &quot;c&quot;" ∧
      ∃ e ∈ entities, e <+: 0x26 :: jsStr "lt;b &amp; &quot;c&quot;" :=
  have h : escapeHtml (jsStr "a<b & \"c\"") =
      jsStr "a" ++ 0x26 :: jsStr "lt;b &amp; &quot;c&quot;" := by decide
  ⟨h, (escapeHtml_output_safe (jsStr "a<b & \"c\"")).2.1 _ _ h⟩

theorem keywordAt_of_start (k : JSString) (hk : k ∈ codeKeywordList)
    (before : Option CodeUnit) (after : JSString)
    (hb : wordBoundary before k.head? = true)
    (ha : wordBoundary k.getLast? after.head? = true) (hne : k ≠ []) :
    keywordAt before (k ++ after) = true := by
  unfold keywordAt
  rw [List.any_eq_true]
  refine ⟨k, hk, ?_⟩
  have h1 : k.isPrefixOf (k ++ after) = true :=
    List.isPrefixOf_iff_prefix.2 (List.prefix_append k after)
  have h2 : (k ++ after).head? = k.head? := by
    cases k with
    | nil => exact absurd rfl hne
    | cons c cs => rfl
  simp [h1, h2, hb, ha]

theorem keywordFrom_of_occurrence (k : JSString) (hk : k ∈ codeKeywordList)
    (h1 : k.head?.any isWordUnit = true) (h2 : k.getLast?.any isWordUnit = true)
    (after : JSString) (ha : after.head?.any isWordUnit = false) :
    ∀ (before : JSString) (unit : Option CodeUnit),
      (before.getLast?.or unit).any isWordUnit = false →
      keywordFrom unit (before ++ (k ++ after)) = true := by
  have hne : k ≠ [] := by
    intro h
    rw [h] at h1
    simp at h1
  intro before
  induction before with
  | nil =>
    intro unit hu
    simp only [List.getLast?_nil, Option.none_or] at hu
    have hat : keywordAt unit (k ++ after) = true :=
      keywordAt_of_start k hk unit after (by simp [wordBoundary, hu, h1])
        (by simp [wordBoundary, ha, h2]) hne
    cases hka : k ++ after with
    | nil => rw [hka] at hat; simpa [keywordFrom] using hat
    | cons c cs => rw [hka] at hat; simp [keywordFrom, hat]
  | cons b bs ih =>
    intro unit hu
    have hu2 : (bs.getLast?.or (some b)).any isWordUnit = false := by
      cases bs with
      | nil => simpa using hu
      | cons c cs =>
        have e : (b :: c :: cs).getLast? = (c :: cs).getLast? := by simp [List.getLast?_cons_cons]
        rw [e] at hu
        cases hg : (c :: cs).getLast? with
        | none => simp [List.getLast?_eq_none_iff] at hg
        | some z => rw [hg] at hu; simpa using hu
    simp [keywordFrom, ih (some b) hu2]

/-- C29: whenever the keyword pattern matches the selection, that is, one of
the listed keywords stands in it between two word boundaries, `keywordCount` is
2, so `isLikelyCode` returns true whatever the other three tests give, and the
selection is sent with mode `explain_code`. For a listed keyword that begins and
ends with a word character (all but `=>` and `#include`) the pattern matches as
soon as the keyword occurs with no word character right before it and none
right after it. -/
theorem isLikelyCode_single_keyword (str : JSString) (inCodeBlock : Bool) :
    (keywordFrom none str = true →
        keywordCount str = 2 ∧ isLikelyCode str inCodeBlock = true ∧
          selectionMode str inCodeBlock = "explain_code") ∧
      (∀ k ∈ codeKeywordList, k.head?.any isWordUnit = true → k.getLast?.any isWordUnit = true →
        ∀ before after, str = before ++ (k ++ after) →
          before.getLast?.any isWordUnit = false → after.head?.any isWordUnit = false →
          keywordFrom none str = true) := by
  constructor
  · intro h
    have hc : keywordCount str = 2 := by simp [keywordCount, h]
    have hl : isLikelyCode str inCodeBlock = true := by simp [isLikelyCode, hc]
    exact ⟨hc, hl, by simp [selectionMode, hl]⟩
  · intro k hk h1 h2 before after hs hb ha
    rw [hs]
    exact keywordFrom_of_occurrence k hk h1 h2 after ha before none (by simpa using hb)

/-- Witness for C29: the sentence `what if it rains` holds the single keyword
`if` and is classified as code. -/
theorem isLikelyCode_single_keyword_witness :
    keywordFrom none (jsStr "what if it rains") = true ∧
      keywordCount (jsStr "what if it rains") = 2 ∧
      isLikelyCode (jsStr "what if it rains") false = true ∧
      selectionMode (jsStr "what if it rains") false = "explain_code" :=
  have h : keywordFrom none (jsStr "what if it rains") = true := by decide
  ⟨h, (isLikelyCode_single_keyword (jsStr "what if it rains") false).1 h⟩

theorem keywordFrom_symbol_keywords_need_word_neighbours :
    keywordFrom none (jsStr "#include <stdio.h>") = false ∧
      keywordFrom none (jsStr "x => y") = false ∧
      keywordFrom none (jsStr "x=>y") = true := by
  decide

theorem isLikelyCode_plain_sentence :
    isLikelyCode (jsStr "the weather was fine") false = false := by
  have hk : keywordFrom none (jsStr "the weather was fine") = false := by decide
  have hb : braceCount (jsStr "the weather was fine") = 0 := by decide
  have hl : (jsStr "the weather was fine").splitOn 0x0A = [jsStr "the weather was fine"] := by
    decide
  simp only [isLikelyCode, keywordCount, hk, hb, avgIndent, hl]
  have hc : List.countP (fun l : JSString => l.head?.any isTrimUnit)
      [jsStr "the weather was fine"] = 0 := by decide
  rw [hc]
  norm_num

/-! ## Avoid step and final clamp -/

theorem clampToViewport_top (w : Window) (size : Size) (p : Placement) :
    (clampToViewport w size p).top = max 8 (min p.top (w.innerHeight - size.height - 8)) :=
  rfl

/-- C30: when the box at the side-chosen position overlaps the avoid rectangle
on both axes, the placement that `placePopup` returns after the viewport clamp
stays clear of that rectangle vertically in the first two branches of the avoid
step: in the branch above (`avoid.top - 8 - height > 8`) the box ends above
the rectangle, `top + height < avoid.top`; in the branch below (the branch
above not taken and `avoid.bottom + 8 + height < viewportHeight`) the box
starts below it, `top > avoid.bottom`. -/
theorem placePopup_clear_of_avoid_rect (w : Window) (size : Size) (rect : Option Rect)
    (x y : ℚ) (sel : Rect)
    (ho : overlapsBoth size sel (chooseSide w size (anchorOf rect x y)) = true) :
    (sel.top - 8 - size.height > 8 →
        (placePopup w size rect x y (some sel)).top + size.height < sel.top) ∧
      (¬ sel.top - 8 - size.height > 8 → sel.bottom + 8 + size.height < w.innerHeight →
        (placePopup w size rect x y (some sel)).top > sel.bottom) := by
  constructor
  · intro ha
    have e : (placePopup w size rect x y (some sel)).top =
        max 8 (min (sel.top - 8 - size.height) (w.innerHeight - size.height - 8)) := by
      simp [placePopup, clampToViewport, avoidSelection, ho, ha]
    rw [e]
    have h1 : max 8 (min (sel.top - 8 - size.height) (w.innerHeight - size.height - 8)) ≤
        sel.top - 8 - size.height := max_le ha.le (min_le_left _ _)
    linarith
  · intro ha hb
    have e : (placePopup w size rect x y (some sel)).top =
        max 8 (min (sel.bottom + 8) (w.innerHeight - size.height - 8)) := by
      simp [placePopup, clampToViewport, avoidSelection, ho, ha, hb]
    rw [e]
    have h1 : sel.bottom < min (sel.bottom + 8) (w.innerHeight - size.height - 8) :=
      lt_min (by linarith) (by linarith)
    exact lt_of_lt_of_le h1 (le_max_right _ _)

/-- Witness for C30, branch above: in the 1280 by 720 window the popup of 200
by 100 chosen at (308, 250) overlaps the selection (300, 300, 700, 340) and ends
at 292, above the selection's top. -/
theorem placePopup_clear_of_avoid_rect_witness :
    overlapsBoth popup200x100 selectionMid
        (chooseSide sampleWindow popup200x100
          (anchorOf (some { left := 100, top := 250, right := 300, bottom := 280 }) 0 0)) = true ∧
      selectionMid.top - 8 - popup200x100.height > 8 ∧
      (placePopup sampleWindow popup200x100
          (some { left := 100, top := 250, right := 300, bottom := 280 }) 0 0
          (some selectionMid)).top + popup200x100.height < selectionMid.top :=
  have ho : overlapsBoth popup200x100 selectionMid
      (chooseSide sampleWindow popup200x100
        (anchorOf (some { left := 100, top := 250, right := 300, bottom := 280 }) 0 0)) = true := by
    rw [overlapsBoth_iff]
    norm_num [chooseSide, anchorOf, popup200x100, selectionMid, sampleWindow]
  have ha : selectionMid.top - 8 - popup200x100.height > 8 := by
    norm_num [popup200x100, selectionMid]
  ⟨ho, ha,
    (placePopup_clear_of_avoid_rect sampleWindow popup200x100
      (some { left := 100, top := 250, right := 300, bottom := 280 }) 0 0 selectionMid ho).1 ha⟩

end TLDR
